import Mathlib

/-!
# Kuadra: the AwsAccount reconciler

A shallow embedding of `internal/controller/awsaccount_controller.go`:
the generic helpers `contains` and `getDifference`, and the `Reconcile`
method of `AwsAccountReconciler`, whose collaborators (resource store,
IAM wrapper, password generator) are taken as arbitrary state-passing
functions over a world of any type.
-/

namespace Kuadra

/-! ## Group diff helpers (lines 32-53) -/

/-- Linear search of `contains` (lines 32-39): the loop returns `true` at the
first element equal to `val`, and `false` when the slice is exhausted. -/
def contains {T : Type} [DecidableEq T] : List T → T → Bool
  | [], _ => false
  | element :: rest, val => if element = val then true else contains rest val

/-- One `for ... range src` loop of `getDifference` (lines 42-46, 47-51):
starting from the accumulator `acc`, every `val` of `src` that `other` does
not contain is appended to the accumulator. -/
def appendMissing {T : Type} [DecidableEq T] (other : List T) (src acc : List T) : List T :=
  src.foldl (fun out val => if !contains other val then out ++ [val] else out) acc

/-- The function `getDifference` (lines 41-53): `wanted` and `unwanted` start
as nil slices and are filled by the two loops. -/
def getDifference {T : Type} [DecidableEq T] (desired current : List T) : List T × List T :=
  (appendMissing current desired [], appendMissing desired current [])

/-! ## Data model

The package `api/v1` declares the resource type and the four `AccountState`
constants the controller names; the controller compares the state with the
empty string, so the state is a string. -/

/-- The string type `kuadrav1.AccountState` of `Status.Account`. -/
abbrev AccountState := String

/-- Modelled from the spec: the value `New` that the spec lists first in its
`AccountState` enum. The controller names no such constant. -/
def New : AccountState := "New"

/-- Modelled from the spec: the constant `kuadrav1.CreatingUser`, declared in `api/v1`. -/
def CreatingUser : AccountState := "CreatingUser"

/-- Modelled from the spec: the constant `kuadrav1.CreatingLoginProfile`, declared in `api/v1`. -/
def CreatingLoginProfile : AccountState := "CreatingLoginProfile"

/-- Modelled from the spec: the constant `kuadrav1.CreatingAccessKey`, declared in `api/v1`. -/
def CreatingAccessKey : AccountState := "CreatingAccessKey"

/-- Modelled from the spec: the constant `kuadrav1.Created`, declared in `api/v1`. -/
def Created : AccountState := "Created"

/-- The fields of `awsAccount.Spec` that `Reconcile` reads. -/
structure AwsAccountSpec where
  UserName : String
  Groups : List String
deriving DecidableEq, Repr

/-- The fields of `awsAccount.Status` that `Reconcile` reads and writes. -/
structure AwsAccountStatus where
  Account : AccountState
  UserGroups : List String
deriving DecidableEq, Repr

/-- The resource `kuadrav1.AwsAccount`. -/
structure AwsAccount where
  Spec : AwsAccountSpec
  Status : AwsAccountStatus
deriving DecidableEq, Repr

/-- A Go `error` value; `notFound` is what `apierrors.IsNotFound` answers on it. -/
structure Error where
  msg : String
  notFound : Bool
deriving DecidableEq, Repr

/-- The helper `client.IgnoreNotFound` of controller-runtime: nil on a not-found
error, the error itself otherwise. -/
def IgnoreNotFound (err : Error) : Option Error :=
  if err.notFound then none else some err

/-- The key pair returned by `IamWrapper.CreateAccessKeyPair`. -/
structure AccessKey where
  AccessKeyId : String
  SecretAccessKey : String
deriving DecidableEq, Repr

deriving instance DecidableEq for Except

/-- The error of a Go `(value, error)` result. -/
def resErr {α : Type} : Except Error α → Option Error
  | .error err => some err
  | .ok _ => none

/-! ## Collaborators and event traces -/

/-- The collaborators of the reconciler, as state-passing functions over a
world `σ`: the resource store (`r.Get`, `r.Status().Update`), the IAM wrapper
and `password.Generate`. Their results and the next world are arbitrary. -/
structure Collaborators (σ : Type) where
  Get : σ → Except Error AwsAccount × σ
  StatusUpdate : AwsAccount → σ → Option Error × σ
  CreateUser : String → σ → Except Error String × σ
  Generate : Int → Int → Int → Bool → Bool → σ → Except Error String × σ
  CreateLoginProfile : String → String → Bool → σ → Option Error × σ
  CreateAccessKeyPair : String → σ → Except Error AccessKey × σ
  AddUserToGroup : String → String → σ → Option Error × σ

/-- One call made to a collaborator, with its arguments and what it returned.
`RemoveUserFromGroup` belongs to the IAM wrapper's interface. -/
inductive Event where
  | Get (res : Except Error AwsAccount)
  | StatusUpdate (obj : AwsAccount) (err : Option Error)
  | CreateUser (userName : String) (res : Except Error String)
  | Generate (length numDigits numSymbols : Int) (noUpper allowRepeat : Bool)
      (res : Except Error String)
  | CreateLoginProfile (pass userName : String) (mustChange : Bool) (err : Option Error)
  | CreateAccessKeyPair (userName : String) (res : Except Error AccessKey)
  | AddUserToGroup (group userName : String) (err : Option Error)
  | RemoveUserFromGroup (group userName : String) (err : Option Error)
deriving DecidableEq, Repr

/-- The error a call returned, `none` when it succeeded. -/
def Event.err : Event → Option Error
  | .Get res => resErr res
  | .StatusUpdate _ err => err
  | .CreateUser _ res => resErr res
  | .Generate _ _ _ _ _ res => resErr res
  | .CreateLoginProfile _ _ _ err => err
  | .CreateAccessKeyPair _ res => resErr res
  | .AddUserToGroup _ _ err => err
  | .RemoveUserFromGroup _ _ err => err

/-- Status persists: calls of `r.Status().Update`. -/
def Event.isPersist : Event → Bool
  | .StatusUpdate _ _ => true
  | _ => false

/-- Calls of the IAM wrapper (the provisioning client). -/
def Event.isProvisioning : Event → Bool
  | .CreateUser _ _ => true
  | .CreateLoginProfile _ _ _ _ => true
  | .CreateAccessKeyPair _ _ => true
  | .AddUserToGroup _ _ _ => true
  | .RemoveUserFromGroup _ _ _ => true
  | _ => false

/-- What a run of the reconciler leaves: the returned error (`none` for nil),
the in-memory `awsAccount`, the calls made in order, and the world. -/
structure Outcome (σ : Type) where
  err : Option Error
  obj : AwsAccount
  trace : List Event
  world : σ

/-- Sequencing of two pieces of `Reconcile`: when the first returned an error
the function has returned; otherwise the second runs on the in-memory object. -/
def Outcome.andThen {σ : Type} (o : Outcome σ) (next : AwsAccount → σ → Outcome σ) :
    Outcome σ :=
  match o.err with
  | some _ => o
  | none =>
    let o2 := next o.obj o.world
    { o2 with trace := o.trace ++ o2.trace }

/-! ## The reconciler (lines 75-172)

Log statements have no effect on control flow or on the object and are left out. -/

/-- The assignment `awsAccount.Status.Account = state`. -/
def setAccount (a : AwsAccount) (state : AccountState) : AwsAccount :=
  { a with Status := { a.Status with Account := state } }

/-- The assignment `awsAccount.Status.UserGroups = append(awsAccount.Status.UserGroups, group)`. -/
def appendGroup (a : AwsAccount) (group : String) : AwsAccount :=
  { a with Status := { a.Status with UserGroups := a.Status.UserGroups ++ [group] } }

/-- Lines 85-97: the user stage. -/
def stageUser {σ : Type} (c : Collaborators σ) (a : AwsAccount) (s : σ) : Outcome σ :=
  if a.Status.Account = CreatingUser ∨ a.Status.Account = "" then
    match c.CreateUser a.Spec.UserName s with
    | (.error err, s1) => ⟨some err, a, [.CreateUser a.Spec.UserName (.error err)], s1⟩
    | (.ok user, s1) =>
      let a1 := setAccount a CreatingLoginProfile
      match c.StatusUpdate a1 s1 with
      | (some err, s2) =>
        ⟨some err, a1, [.CreateUser a.Spec.UserName (.ok user), .StatusUpdate a1 (some err)], s2⟩
      | (none, s2) =>
        ⟨none, a1, [.CreateUser a.Spec.UserName (.ok user), .StatusUpdate a1 none], s2⟩
  else ⟨none, a, [], s⟩

/-- Lines 99-120: the login profile stage. -/
def stageLoginProfile {σ : Type} (c : Collaborators σ) (a : AwsAccount) (s : σ) : Outcome σ :=
  if a.Status.Account = CreatingLoginProfile then
    match c.Generate 20 3 3 false true s with
    | (.error err, s1) => ⟨some err, a, [.Generate 20 3 3 false true (.error err)], s1⟩
    | (.ok pass, s1) =>
      match c.CreateLoginProfile pass a.Spec.UserName true s1 with
      | (some err, s2) =>
        ⟨some err, a, [.Generate 20 3 3 false true (.ok pass),
          .CreateLoginProfile pass a.Spec.UserName true (some err)], s2⟩
      | (none, s2) =>
        let a1 := setAccount a CreatingAccessKey
        match c.StatusUpdate a1 s2 with
        | (some err, s3) =>
          ⟨some err, a1, [.Generate 20 3 3 false true (.ok pass),
            .CreateLoginProfile pass a.Spec.UserName true none, .StatusUpdate a1 (some err)], s3⟩
        | (none, s3) =>
          ⟨none, a1, [.Generate 20 3 3 false true (.ok pass),
            .CreateLoginProfile pass a.Spec.UserName true none, .StatusUpdate a1 none], s3⟩
  else ⟨none, a, [], s⟩

/-- Lines 122-138: the access key stage. -/
def stageAccessKey {σ : Type} (c : Collaborators σ) (a : AwsAccount) (s : σ) : Outcome σ :=
  if a.Status.Account = CreatingAccessKey then
    match c.CreateAccessKeyPair a.Spec.UserName s with
    | (.error err, s1) => ⟨some err, a, [.CreateAccessKeyPair a.Spec.UserName (.error err)], s1⟩
    | (.ok accessKey, s1) =>
      let a1 := setAccount a Created
      match c.StatusUpdate a1 s1 with
      | (some err, s2) =>
        ⟨some err, a1, [.CreateAccessKeyPair a.Spec.UserName (.ok accessKey),
          .StatusUpdate a1 (some err)], s2⟩
      | (none, s2) =>
        ⟨none, a1, [.CreateAccessKeyPair a.Spec.UserName (.ok accessKey),
          .StatusUpdate a1 none], s2⟩
  else ⟨none, a, [], s⟩

/-- Lines 143-155: the loop over `groupsToAddUserTo`. -/
def addGroups {σ : Type} (c : Collaborators σ) : List String → AwsAccount → σ → Outcome σ
  | [], a, s => ⟨none, a, [], s⟩
  | group :: rest, a, s =>
    match c.AddUserToGroup group a.Spec.UserName s with
    | (some err, s1) => ⟨some err, a, [.AddUserToGroup group a.Spec.UserName (some err)], s1⟩
    | (none, s1) =>
      let a1 := appendGroup a group
      match c.StatusUpdate a1 s1 with
      | (some err, s2) =>
        ⟨some err, a1, [.AddUserToGroup group a.Spec.UserName none, .StatusUpdate a1 (some err)], s2⟩
      | (none, s2) =>
        let o := addGroups c rest a1 s2
        { o with trace :=
            .AddUserToGroup group a.Spec.UserName none :: .StatusUpdate a1 none :: o.trace }

/-- Lines 140-155: the diff is computed once, before the loop. -/
def stageGroups {σ : Type} (c : Collaborators σ) (a : AwsAccount) (s : σ) : Outcome σ :=
  addGroups c (getDifference a.Spec.Groups a.Status.UserGroups).1 a s

/-- Lines 85-172: `Reconcile` once `r.Get` has filled `awsAccount`. -/
def reconcileLoaded {σ : Type} (c : Collaborators σ) (a : AwsAccount) (s : σ) : Outcome σ :=
  (((stageUser c a s).andThen (stageLoginProfile c)).andThen (stageAccessKey c)).andThen
    (stageGroups c)

/-- The method `Reconcile` (lines 75-172). When `r.Get` fails the object is still
the zero value and `client.IgnoreNotFound(err)` is returned. -/
def Reconcile {σ : Type} (c : Collaborators σ) (s : σ) : Outcome σ :=
  match c.Get s with
  | (.error err, s1) => ⟨IgnoreNotFound err, ⟨⟨"", []⟩, ⟨"", []⟩⟩, [.Get (.error err)], s1⟩
  | (.ok a, s1) =>
    let o := reconcileLoaded c a s1
    { o with trace := .Get (.ok a) :: o.trace }

/-- Lines 85-138: the three account stages of `Reconcile`, before the groups. -/
def bootstrap {σ : Type} (c : Collaborators σ) (a : AwsAccount) (s : σ) : Outcome σ :=
  ((stageUser c a s).andThen (stageLoginProfile c)).andThen (stageAccessKey c)

/-- The states in which one of the three account stages still has to run. -/
def bootstrapPending (st : AccountState) : Bool :=
  st == CreatingUser || st == "" || st == CreatingLoginProfile || st == CreatingAccessKey

/-- The groups of the `AddUserToGroup` calls of a trace, in order. -/
def addCalls (trace : List Event) : List (String × String) :=
  trace.filterMap (fun ev =>
    match ev with
    | .AddUserToGroup group userName _ => some (group, userName)
    | _ => none)

/-- Calls of `RemoveUserFromGroup`. -/
def Event.isRemoval : Event → Bool
  | .RemoveUserFromGroup _ _ _ => true
  | _ => false

/-- The in-memory object after the groups of `l` have been appended to
`Status.UserGroups`, one `append` per group. -/
def appendGroups (a : AwsAccount) (l : List String) : AwsAccount :=
  { a with Status := { a.Status with UserGroups := a.Status.UserGroups ++ l } }

/-- The calls of the loop of lines 143-155 over the groups `l` when every call
succeeds: for each group the wrapper call, then the update of the object with
that group appended. -/
def joinedEvents (a : AwsAccount) : List String → List Event
  | [] => []
  | group :: rest =>
    .AddUserToGroup group a.Spec.UserName none :: .StatusUpdate (appendGroup a group) none ::
      joinedEvents (appendGroup a group) rest

/-! ## The resource store seen through the trace -/

/-- The status the store holds after the calls of `trace`, when it held `loaded`
before: a successful `Status().Update` stores the status of the object it was
given, and no other call writes the status. -/
def persistedStatus (loaded : AwsAccountStatus) : List Event → AwsAccountStatus
  | [] => loaded
  | .StatusUpdate obj none :: rest => persistedStatus obj.Status rest
  | _ :: rest => persistedStatus loaded rest

/-- The calls of `trace` up to and including its last status persist: what had
happened when the step in progress at the end of `trace` began. -/
def stepStart (trace : List Event) : List Event :=
  (trace.reverse.dropWhile (fun ev => !ev.isPersist)).reverse

/-! ## The order on account states -/

/-- Position of a state in `New → CreatingUser → CreatingLoginProfile →
CreatingAccessKey → Created`, the empty state standing at the place of `New`;
`none` for a string that is none of them. -/
def rank (st : AccountState) : Option Nat :=
  if st = "" then some 0
  else if st = New then some 0
  else if st = CreatingUser then some 1
  else if st = CreatingLoginProfile then some 2
  else if st = CreatingAccessKey then some 3
  else if st = Created then some 4
  else none

/-- The state `y` is `x` or comes after `x` in the order of `rank`. -/
def stateLE (x y : AccountState) : Bool :=
  x == y ||
    match rank x, rank y with
    | some i, some j => decide (i ≤ j)
    | _, _ => false

/-- What holds of every piece of `Reconcile` run on the in-memory object `a`
whose status is the persisted one: the spec is untouched; a nil return means
every call succeeded and the in-memory status is the persisted one; an error
return means the last call made failed with that error and every earlier one
succeeded; the state written or kept is never before the one of `a`. -/
structure Sound {σ : Type} (a : AwsAccount) (o : Outcome σ) : Prop where
  spec_eq : o.obj.Spec = a.Spec
  ok_events : o.err = none → ∀ ev ∈ o.trace, ev.err = none
  ok_persisted : o.err = none → persistedStatus a.Status o.trace = o.obj.Status
  fail_last : ∀ e, o.err = some e →
    ∃ pre ev, o.trace = pre ++ [ev] ∧ ev.err = some e ∧ ∀ x ∈ pre, x.err = none
  mono_obj : stateLE a.Status.Account o.obj.Status.Account = true
  mono_persist : ∀ obj err, Event.StatusUpdate obj err ∈ o.trace →
    stateLE a.Status.Account obj.Status.Account = true

/-- The status the store holds after successive invocations, one per element of
`specs`, each loading the resource with that spec and the status persisted so far. -/
def persistedAfter {σ : Type} (c : Collaborators σ) :
    List AwsAccountSpec → AwsAccountStatus → σ → AwsAccountStatus
  | [], st, _ => st
  | spec :: rest, st, s =>
    persistedAfter c rest (persistedStatus st (reconcileLoaded c ⟨spec, st⟩ s).trace)
      (reconcileLoaded c ⟨spec, st⟩ s).world

/-! ## Step discipline of a trace -/

/-- Every call of the trace satisfies `P` together with the status the store
holds when the call is made, the store holding `st` at the start. -/
def EachAt (P : AwsAccountStatus → Event → Prop) : AwsAccountStatus → List Event → Prop
  | _, [] => True
  | st, ev :: rest => P st ev ∧ EachAt P (persistedStatus st [ev]) rest

/-- What makes a call legitimate for the resource with spec `spec` when the
store holds the status `st`: a call of an account stage is made in the state of
that stage, with the user name of the spec; a group is added for that user; a
status update carries the spec and either the next account state or one more
group; nothing else is called. -/
def Justified (spec : AwsAccountSpec) (st : AwsAccountStatus) : Event → Prop
  | .CreateUser u _ => u = spec.UserName ∧ (st.Account = CreatingUser ∨ st.Account = "")
  | .Generate l d y noUpper allowRepeat _ =>
    l = 20 ∧ d = 3 ∧ y = 3 ∧ noUpper = false ∧ allowRepeat = true ∧
      st.Account = CreatingLoginProfile
  | .CreateLoginProfile _ u mustChange _ =>
    u = spec.UserName ∧ mustChange = true ∧ st.Account = CreatingLoginProfile
  | .CreateAccessKeyPair u _ => u = spec.UserName ∧ st.Account = CreatingAccessKey
  | .AddUserToGroup _ u _ => u = spec.UserName
  | .StatusUpdate obj _ =>
    obj.Spec = spec ∧
      ((obj.Status.UserGroups = st.UserGroups ∧
          (((st.Account = CreatingUser ∨ st.Account = "") ∧
              obj.Status.Account = CreatingLoginProfile) ∨
           (st.Account = CreatingLoginProfile ∧ obj.Status.Account = CreatingAccessKey) ∨
           (st.Account = CreatingAccessKey ∧ obj.Status.Account = Created))) ∨
       (obj.Status.Account = st.Account ∧
          ∃ group, obj.Status.UserGroups = st.UserGroups ++ [group]))
  | .RemoveUserFromGroup _ _ _ => False
  | .Get _ => False

/-- Two consecutive calls: the second is a status update exactly when the first
is a call of the IAM wrapper that succeeded. -/
def Adjacent (x y : Event) : Prop :=
  y.isPersist = true ↔ (x.isProvisioning = true ∧ x.err = none)

/-- The step discipline of a piece of `Reconcile` run on `a`: every call is
justified by the stored status of the moment, status updates come exactly after
successful wrapper calls, the piece never opens with a status update, and a
piece that returns nil made no call or closed with a status update. -/
structure Stepwise {σ : Type} (a : AwsAccount) (o : Outcome σ) : Prop where
  justified : EachAt (Justified a.Spec) a.Status o.trace
  chain : List.Chain' Adjacent o.trace
  head : ∀ ev ∈ o.trace.head?, ev.isPersist = false
  ok_last : o.err = none → ∀ ev ∈ o.trace.getLast?, ev.isPersist = true

/-! ## Wrapper calls and completed stages -/

/-- A call of the IAM wrapper up to what identifies it: the operation, the user
name and, for the group operations, the group. -/
inductive Call where
  | createUser (userName : String)
  | createLoginProfile (userName : String)
  | createAccessKeyPair (userName : String)
  | addUserToGroup (group userName : String)
  | removeUserFromGroup (group userName : String)
deriving DecidableEq, Repr

/-- The wrapper call an event records, `none` for the store and the generator. -/
def Event.callOf : Event → Option Call
  | .CreateUser u _ => some (.createUser u)
  | .CreateLoginProfile _ u _ _ => some (.createLoginProfile u)
  | .CreateAccessKeyPair u _ => some (.createAccessKeyPair u)
  | .AddUserToGroup g u _ => some (.addUserToGroup g u)
  | .RemoveUserFromGroup g u _ => some (.removeUserFromGroup g u)
  | _ => none

/-- The first wrapper call of a trace. -/
def firstCall (trace : List Event) : Option Call :=
  trace.findSome? Event.callOf

/-- The stage of a wrapper call is complete in the stored status `st`: the
account state is past the stage of the call, or the group is in `UserGroups`. -/
def stageComplete (st : AwsAccountStatus) : Call → Bool
  | .createUser _ =>
    st.Account == CreatingLoginProfile || st.Account == CreatingAccessKey ||
      st.Account == Created
  | .createLoginProfile _ => st.Account == CreatingAccessKey || st.Account == Created
  | .createAccessKeyPair _ => st.Account == Created
  | .addUserToGroup g _ => contains st.UserGroups g
  | .removeUserFromGroup _ _ => false

/-! ## Scripted collaborators -/

/-- Collaborators over a call counter: the store returns `a` from `Get`, the
generator returns `pass`, the wrapper returns `key`, and the call numbered `n`
(from 0) fails exactly when `failAt n`. -/
def scripted (a : AwsAccount) (pass : String) (key : AccessKey) (failAt : Nat → Bool) :
    Collaborators Nat where
  Get := fun n => (if failAt n then .error ⟨"get", false⟩ else .ok a, n + 1)
  StatusUpdate := fun _ n => (if failAt n then some ⟨"update", false⟩ else none, n + 1)
  CreateUser := fun u n => (if failAt n then .error ⟨"user", false⟩ else .ok u, n + 1)
  Generate := fun _ _ _ _ _ n => (if failAt n then .error ⟨"generate", false⟩ else .ok pass, n + 1)
  CreateLoginProfile := fun _ _ _ n => (if failAt n then some ⟨"profile", false⟩ else none, n + 1)
  CreateAccessKeyPair := fun _ n => (if failAt n then .error ⟨"key", false⟩ else .ok key, n + 1)
  AddUserToGroup := fun _ _ n => (if failAt n then some ⟨"group", false⟩ else none, n + 1)

/-- A resource of user `alice`. -/
def demoAccount (state : AccountState) (groups userGroups : List String) : AwsAccount :=
  ⟨⟨"alice", groups⟩, ⟨state, userGroups⟩⟩

/-- A key pair for the scripted wrapper. -/
def demoKey : AccessKey := ⟨"AKIDEMO", "demo-secret"⟩

/-- A resource in the empty state, and collaborators whose call number 5, the persist of
`CreatingAccessKey`, fails. -/
def failingPersist : Collaborators Nat :=
  scripted (demoAccount "" ["a"] []) "pw" demoKey (fun n => n == 5)

/-- Collaborators that never fail. -/
def succeeding (a : AwsAccount) : Collaborators Nat :=
  scripted a "pw" demoKey (fun _ => false)

/-- A resource past the account stages with desired groups `a`, `b`, `c`, and
collaborators whose call number 3, `AddUserToGroup` for `b`, fails. -/
def failingOnB : Collaborators Nat :=
  scripted (demoAccount Created ["a", "b", "c"] []) "pw" demoKey (fun n => n == 3)

/-- A resource past the account stages whose desired groups repeat `a`, and
collaborators whose call number 4, the persist after the second `AddUserToGroup`
for `a`, fails. -/
def failingSecondA : Collaborators Nat :=
  scripted (demoAccount Created ["a", "a", "b"] []) "pw" demoKey (fun n => n == 4)

/-- A resource in state `CreatingLoginProfile`, and collaborators whose call
number 3, the persist of `CreatingAccessKey`, fails. -/
def failingLoginPersist : Collaborators Nat :=
  scripted (demoAccount CreatingLoginProfile [] []) "pw" demoKey (fun n => n == 3)

/-- Collaborators for the same resource whose call number 1, the password
generation, fails. -/
def failingGenerate : Collaborators Nat :=
  scripted (demoAccount CreatingLoginProfile [] []) "pw" demoKey (fun n => n == 1)

/-! ## Objects passed to the status update -/

/-- The account states that `Reconcile` assigns (lines 91, 114, 132). -/
def Written (state : AccountState) : Prop :=
  state = CreatingLoginProfile ∨ state = CreatingAccessKey ∨ state = Created

/-- The object `b` is `a`, or `a` with one of the assigned account states. -/
def Advanced (a b : AwsAccount) : Prop :=
  b = a ∨ ∃ state, Written state ∧ b = setAccount a state

/-- The objects of an account stage run on `a`: the in-memory object it leaves
is `a`, possibly with an assigned state, and every object it passes to the
status update is `a` with an assigned state. -/
structure StageObjs {σ : Type} (a : AwsAccount) (o : Outcome σ) : Prop where
  obj_adv : Advanced a o.obj
  persist_adv : ∀ obj err, Event.StatusUpdate obj err ∈ o.trace →
    ∃ state, Written state ∧ obj = setAccount a state

/-- Collaborators whose store answers not-found. -/
def missing : Collaborators Nat :=
  { succeeding (demoAccount "" [] []) with Get := fun n => (.error ⟨"not found", true⟩, n + 1) }

/-- Collaborators whose store fails with another error. -/
def unreachable : Collaborators Nat :=
  scripted (demoAccount "" [] []) "pw" demoKey (fun n => n == 0)

/-- A resource past the account stages whose stored groups `b` and `c` are no
longer desired. -/
def surplus : AwsAccount := demoAccount Created ["a"] ["a", "b", "c"]

/-! ## Steps: one wrapper call, one persist -/

/-- The status written by the step of the wrapper call `x` when the store holds
`st`: the account state the step assigns with the stored groups, or the stored
status with the group of the call appended. -/
def mutationOf (st : AwsAccountStatus) : Event → Option AwsAccountStatus
  | .CreateUser _ _ => some ⟨CreatingLoginProfile, st.UserGroups⟩
  | .CreateLoginProfile _ _ _ _ => some ⟨CreatingAccessKey, st.UserGroups⟩
  | .CreateAccessKeyPair _ _ => some ⟨Created, st.UserGroups⟩
  | .AddUserToGroup group _ _ => some ⟨st.Account, st.UserGroups ++ [group]⟩
  | _ => none

/-- When the call after `x` is a status update, its object carries the status
written by the step of `x`. -/
def Carries (st : AwsAccountStatus) (x y : Event) : Prop :=
  ∀ obj err, y = .StatusUpdate obj err → mutationOf st x = some obj.Status

/-- Every two consecutive calls of the trace satisfy `R` together with the
status the store holds when the first of them is made. -/
def PairsAt (R : AwsAccountStatus → Event → Event → Prop) :
    AwsAccountStatus → List Event → Prop
  | _, [] => True
  | _, [_] => True
  | st, x :: y :: rest => R st x y ∧ PairsAt R (persistedStatus st [x]) (y :: rest)

/-- Wrapper calls that succeeded. -/
def Event.succeededCall (ev : Event) : Bool :=
  ev.isProvisioning && ev.err.isNone

/-- The groups the provider has joined for the user after the calls of
`trace`, when it had joined `before`: every successful `AddUserToGroup` adds
its group. -/
def joinedGroups (before : List String) (trace : List Event) : List String :=
  before ++ trace.filterMap (fun ev =>
    match ev with
    | .AddUserToGroup group _ none => some group
    | _ => none)

/-! ## Two runs side by side -/

/-- The call returned an error. -/
def Event.failed (ev : Event) : Bool :=
  ev.err.isSome

/-- The objects passed to the status update, in order. -/
def persists (trace : List Event) : List AwsAccount :=
  trace.filterMap (fun ev =>
    match ev with
    | .StatusUpdate obj _ => some obj
    | _ => none)

/-- Two runs of the piece `f` of `Reconcile` on the same in-memory object, with
any collaborators: when their calls, followed by `rest1` and `rest2` (empty
after an error return), fail at the same positions, both return an error or
both return nil, they leave the same in-memory object, pass the same objects to
the status update, leave the same stored status, and `rest1 = rest2`. -/
def Lockstep (f : (σ : Type) → Collaborators σ → AwsAccount → σ → Outcome σ) : Prop :=
  ∀ (σ1 σ2 : Type) (c1 : Collaborators σ1) (c2 : Collaborators σ2) (a : AwsAccount)
    (s1 : σ1) (s2 : σ2) (rest1 rest2 : List Bool),
    (f σ1 c1 a s1).trace.map Event.failed ++ rest1 =
      (f σ2 c2 a s2).trace.map Event.failed ++ rest2 →
    ((f σ1 c1 a s1).err ≠ none → rest1 = []) →
    ((f σ2 c2 a s2).err ≠ none → rest2 = []) →
    (f σ1 c1 a s1).err.isSome = (f σ2 c2 a s2).err.isSome ∧
    (f σ1 c1 a s1).obj = (f σ2 c2 a s2).obj ∧
    persists (f σ1 c1 a s1).trace = persists (f σ2 c2 a s2).trace ∧
    (∀ st, persistedStatus st (f σ1 c1 a s1).trace = persistedStatus st (f σ2 c2 a s2).trace) ∧
    rest1 = rest2

/-- Collaborators that never fail and return another password and key pair. -/
def otherSecrets (a : AwsAccount) : Collaborators Nat :=
  scripted a "correct horse" ⟨"AKIOTHER", "other-secret"⟩ (fun _ => false)

/-! ## The stored status over time -/

/-- The status obtained from `st` by applying, in order, the mutation of every
wrapper call of the trace that succeeded. Status updates play no part in it. -/
def replay (st : AwsAccountStatus) : List Event → AwsAccountStatus
  | [] => st
  | ev :: rest =>
    replay (if ev.succeededCall then (mutationOf st ev).getD st else st) rest

/-- The statuses the store holds in turn: before the first call of the trace
and after each of its calls, the store holding `st` at the start. -/
def storedOver : AwsAccountStatus → List Event → List AwsAccountStatus
  | st, [] => [st]
  | st, ev :: rest => st :: storedOver (persistedStatus st [ev]) rest

/-- The statuses the store holds in turn over successive invocations, one per
element of `specs`, each loading the resource with that spec and the status
stored so far. -/
def storedHistory {σ : Type} (c : Collaborators σ) :
    List AwsAccountSpec → AwsAccountStatus → σ → List AwsAccountStatus
  | [], st, _ => [st]
  | spec :: rest, st, s =>
    storedOver st (reconcileLoaded c ⟨spec, st⟩ s).trace ++
      storedHistory c rest (persistedStatus st (reconcileLoaded c ⟨spec, st⟩ s).trace)
        (reconcileLoaded c ⟨spec, st⟩ s).world

/-- The state of `y` is the state of `x` or a later one. -/
def StatusLE (x y : AwsAccountStatus) : Prop :=
  stateLE x.Account y.Account = true

/-! ### Lemmas on the helpers -/

theorem contains_iff {T : Type} [DecidableEq T] (slice : List T) (val : T) :
    contains slice val = true ↔ val ∈ slice := by
  induction slice with
  | nil => simp [contains]
  | cons element rest ih =>
    by_cases h : element = val
    · simp [contains, h]
    · have h2 : ¬ val = element := fun e => h e.symm
      simp [contains, h, h2, ih]

theorem contains_eq_decide {T : Type} [DecidableEq T] (slice : List T) (val : T) :
    contains slice val = decide (val ∈ slice) := by
  by_cases h : val ∈ slice
  · simp [h, (contains_iff slice val).2 h]
  · have : contains slice val = false := by
      cases hc : contains slice val with
      | false => rfl
      | true => exact absurd ((contains_iff slice val).1 hc) h
    simp [h, this]

theorem appendMissing_eq {T : Type} [DecidableEq T] (other src acc : List T) :
    appendMissing other src acc = acc ++ src.filter (fun v => !contains other v) := by
  induction src generalizing acc with
  | nil => simp [appendMissing]
  | cons v rest ih =>
    have ih2 := ih (if !contains other v then acc ++ [v] else acc)
    unfold appendMissing at ih2 ⊢
    rw [List.foldl_cons, ih2]
    cases hc : contains other v <;> simp [List.filter_cons, hc]

theorem getDifference_eq {T : Type} [DecidableEq T] (desired current : List T) :
    getDifference desired current =
      (desired.filter (fun v => !contains current v),
       current.filter (fun v => !contains desired v)) := by
  simp [getDifference, appendMissing_eq]

theorem mem_toAdd {T : Type} [DecidableEq T] (desired current : List T) (x : T) :
    x ∈ (getDifference desired current).1 ↔ x ∈ desired ∧ x ∉ current := by
  simp [getDifference_eq, List.mem_filter, contains_eq_decide]

theorem mem_toRemove {T : Type} [DecidableEq T] (desired current : List T) (x : T) :
    x ∈ (getDifference desired current).2 ↔ x ∈ current ∧ x ∉ desired := by
  simp [getDifference_eq, List.mem_filter, contains_eq_decide]

theorem toAdd_eq_filter {T : Type} [DecidableEq T] (desired current : List T) :
    (getDifference desired current).1 = desired.filter (fun v => decide (v ∉ current)) := by
  rw [getDifference_eq]
  exact List.filter_congr (fun v _ => by simp [contains_eq_decide])

theorem toRemove_eq_filter {T : Type} [DecidableEq T] (desired current : List T) :
    (getDifference desired current).2 = current.filter (fun v => decide (v ∉ desired)) := by
  rw [getDifference_eq]
  exact List.filter_congr (fun v _ => by simp [contains_eq_decide])

/-! ## Claims on the diff -/

/-- C1: with `(toAdd, toRemove) = getDifference desired current`, a value is in
`toAdd` exactly when it is in `desired` and not in `current`, and in `toRemove`
exactly when it is in `current` and not in `desired`. -/
theorem getDifference_mem_iff {T : Type} [DecidableEq T] (desired current : List T) (x : T) :
    (x ∈ (getDifference desired current).1 ↔ x ∈ desired ∧ x ∉ current) ∧
    (x ∈ (getDifference desired current).2 ↔ x ∈ current ∧ x ∉ desired) :=
  ⟨mem_toAdd desired current x, mem_toRemove desired current x⟩

/-- C2: the set of elements of `desired` is the set of `current` united with
`toAdd`, minus the set of `toRemove`. -/
theorem getDifference_reconstructs {T : Type} [DecidableEq T] (desired current : List T) :
    desired.toFinset =
      (current.toFinset ∪ (getDifference desired current).1.toFinset) \
        (getDifference desired current).2.toFinset := by
  ext x
  simp only [Finset.mem_sdiff, Finset.mem_union, List.mem_toFinset, mem_toAdd, mem_toRemove]
  by_cases hd : x ∈ desired <;> by_cases hc : x ∈ current <;> simp [hd, hc]

/-- C3: `toAdd` is `desired` filtered, in its original order, to the elements
`current` does not contain, and `toRemove` is `current` filtered to the elements
`desired` does not contain; both are sublists of their input. -/
theorem getDifference_filter {T : Type} [DecidableEq T] (desired current : List T) :
    (getDifference desired current).1 = desired.filter (fun v => decide (v ∉ current)) ∧
    (getDifference desired current).2 = current.filter (fun v => decide (v ∉ desired)) ∧
    List.Sublist (getDifference desired current).1 desired ∧
    List.Sublist (getDifference desired current).2 current := by
  have h1 := toAdd_eq_filter desired current
  have h2 := toRemove_eq_filter desired current
  refine ⟨h1, h2, ?_, ?_⟩
  · rw [h1]; exact List.filter_sublist _
  · rw [h2]; exact List.filter_sublist _

/-! ## Sequencing and the store -/

theorem andThen_err {σ : Type} (o : Outcome σ) (next : AwsAccount → σ → Outcome σ) (e : Error)
    (h : o.err = some e) : o.andThen next = o := by
  simp [Outcome.andThen, h]

theorem andThen_ok {σ : Type} (o : Outcome σ) (next : AwsAccount → σ → Outcome σ)
    (h : o.err = none) :
    o.andThen next =
      { next o.obj o.world with trace := o.trace ++ (next o.obj o.world).trace } := by
  simp [Outcome.andThen, h]

theorem persistedStatus_append (st : AwsAccountStatus) (t1 t2 : List Event) :
    persistedStatus st (t1 ++ t2) = persistedStatus (persistedStatus st t1) t2 := by
  induction t1 generalizing st with
  | nil => rfl
  | cons ev rest ih =>
    cases ev with
    | StatusUpdate obj err =>
      cases err with
      | none => simp [persistedStatus, ih]
      | some e => simp [persistedStatus, ih]
    | _ => simp [persistedStatus, ih]

theorem persistedStatus_failed (st : AwsAccountStatus) (ev : Event) (e : Error)
    (h : ev.err = some e) : persistedStatus st [ev] = st := by
  cases ev with
  | StatusUpdate obj err =>
    cases err with
    | none => simp [Event.err] at h
    | some e => simp [persistedStatus]
  | _ => simp [persistedStatus]

theorem persistedStatus_not_persist (st : AwsAccountStatus) (ev : Event)
    (h : ev.isPersist = false) : persistedStatus st [ev] = st := by
  cases ev <;> simp_all [persistedStatus, Event.isPersist]

theorem persistedStatus_stepStart (st : AwsAccountStatus) (trace : List Event) :
    persistedStatus st (stepStart trace) = persistedStatus st trace := by
  induction trace using List.reverseRecOn with
  | nil => simp [stepStart]
  | append_singleton pre ev ih =>
    cases hp : ev.isPersist with
    | false =>
      have h1 : stepStart (pre ++ [ev]) = stepStart pre := by
        simp [stepStart, List.dropWhile_cons, hp]
      rw [h1, ih, persistedStatus_append, persistedStatus_not_persist _ _ hp]
    | true =>
      simp [stepStart, List.dropWhile_cons, hp]


/-! ## Account states -/

theorem stateLE_refl (x : AccountState) : stateLE x x = true := by
  simp [stateLE]

theorem stateLE_trans {x y z : AccountState} (h1 : stateLE x y = true)
    (h2 : stateLE y z = true) : stateLE x z = true := by
  unfold stateLE at *
  simp only [Bool.or_eq_true, beq_iff_eq] at *
  rcases h1 with h1 | h1
  · subst h1; exact h2
  · rcases h2 with h2 | h2
    · subst h2; exact Or.inr h1
    · right
      cases hx : rank x <;> cases hy : rank y <;> cases hz : rank z <;>
        simp_all
      omega

theorem stateLE_user (x : AccountState) (h : x = CreatingUser ∨ x = "") :
    stateLE x CreatingLoginProfile = true := by
  rcases h with h | h <;> subst h <;> decide

theorem stateLE_login : stateLE CreatingLoginProfile CreatingAccessKey = true := by decide

theorem stateLE_key : stateLE CreatingAccessKey Created = true := by decide

/-! ## Soundness of the stages -/

theorem sound_fail {σ : Type} (a obj : AwsAccount) (pre : List Event) (ev : Event) (e : Error)
    (s : σ) (hspec : obj.Spec = a.Spec) (hpre : ∀ x ∈ pre, x.err = none) (hev : ev.err = some e)
    (hobj : stateLE a.Status.Account obj.Status.Account = true)
    (hper : ∀ o err, Event.StatusUpdate o err ∈ pre ++ [ev] →
      stateLE a.Status.Account o.Status.Account = true) :
    Sound a ⟨some e, obj, pre ++ [ev], s⟩ where
  spec_eq := hspec
  ok_events := by simp
  ok_persisted := by simp
  fail_last := by
    intro e2 he2
    simp only [Option.some.injEq] at he2
    subst he2
    exact ⟨pre, ev, rfl, hev, hpre⟩
  mono_obj := hobj
  mono_persist := hper

theorem sound_ok {σ : Type} (a obj : AwsAccount) (trace : List Event) (s : σ)
    (hspec : obj.Spec = a.Spec) (hev : ∀ x ∈ trace, x.err = none)
    (hst : persistedStatus a.Status trace = obj.Status)
    (hobj : stateLE a.Status.Account obj.Status.Account = true)
    (hper : ∀ o err, Event.StatusUpdate o err ∈ trace →
      stateLE a.Status.Account o.Status.Account = true) :
    Sound a ⟨none, obj, trace, s⟩ where
  spec_eq := hspec
  ok_events := fun _ => hev
  ok_persisted := fun _ => hst
  fail_last := by simp
  mono_obj := hobj
  mono_persist := hper

theorem stageUser_sound {σ : Type} (c : Collaborators σ) (a : AwsAccount) (s : σ) :
    Sound a (stageUser c a s) := by
  unfold stageUser
  split
  · next hact =>
    have hle := stateLE_user _ hact
    split
    · exact sound_fail a a [] _ _ _ rfl (by simp) (by simp [Event.err, resErr])
        (stateLE_refl _) (by simp)
    · dsimp only
      split
      · exact sound_fail a _ [_] _ _ _ rfl (by simp [Event.err, resErr]) (by simp [Event.err])
          (by simpa [setAccount] using hle) (by simp [setAccount, hle])
      · exact sound_ok a _ _ _ rfl (by simp [Event.err, resErr])
          (by simp [persistedStatus]) (by simpa [setAccount] using hle)
          (by simp [setAccount, hle])
  · exact sound_ok a a [] s rfl (by simp) rfl (stateLE_refl _) (by simp)

theorem stageLoginProfile_sound {σ : Type} (c : Collaborators σ) (a : AwsAccount) (s : σ) :
    Sound a (stageLoginProfile c a s) := by
  unfold stageLoginProfile
  split
  · next hact =>
    have hle : stateLE a.Status.Account CreatingAccessKey = true := by
      rw [hact]; exact stateLE_login
    split
    · exact sound_fail a a [] _ _ _ rfl (by simp) (by simp [Event.err, resErr])
        (stateLE_refl _) (by simp)
    · split
      · exact sound_fail a a [_] _ _ _ rfl (by simp [Event.err, resErr]) (by simp [Event.err])
          (stateLE_refl _) (by simp)
      · dsimp only
        split
        · exact sound_fail a _ [_, _] _ _ _ rfl (by simp [Event.err, resErr])
            (by simp [Event.err]) (by simpa [setAccount] using hle) (by simp [setAccount, hle])
        · exact sound_ok a _ _ _ rfl (by simp [Event.err, resErr])
            (by simp [persistedStatus]) (by simpa [setAccount] using hle)
            (by simp [setAccount, hle])
  · exact sound_ok a a [] s rfl (by simp) rfl (stateLE_refl _) (by simp)

theorem stageAccessKey_sound {σ : Type} (c : Collaborators σ) (a : AwsAccount) (s : σ) :
    Sound a (stageAccessKey c a s) := by
  unfold stageAccessKey
  split
  · next hact =>
    have hle : stateLE a.Status.Account Created = true := by
      rw [hact]; exact stateLE_key
    split
    · exact sound_fail a a [] _ _ _ rfl (by simp) (by simp [Event.err, resErr])
        (stateLE_refl _) (by simp)
    · dsimp only
      split
      · exact sound_fail a _ [_] _ _ _ rfl (by simp [Event.err, resErr]) (by simp [Event.err])
          (by simpa [setAccount] using hle) (by simp [setAccount, hle])
      · exact sound_ok a _ _ _ rfl (by simp [Event.err, resErr])
          (by simp [persistedStatus]) (by simpa [setAccount] using hle)
          (by simp [setAccount, hle])
  · exact sound_ok a a [] s rfl (by simp) rfl (stateLE_refl _) (by simp)

theorem Sound_andThen {σ : Type} {a : AwsAccount} {o : Outcome σ}
    {next : AwsAccount → σ → Outcome σ} (h1 : Sound a o)
    (h2 : ∀ a2 s2, Sound a2 (next a2 s2)) : Sound a (o.andThen next) := by
  cases herr : o.err with
  | some e => rw [andThen_err o next e herr]; exact h1
  | none =>
    rw [andThen_ok o next herr]
    have h3 := h2 o.obj o.world
    constructor
    · exact h3.spec_eq.trans h1.spec_eq
    · intro hok ev hev
      rcases List.mem_append.1 hev with hev | hev
      · exact h1.ok_events herr ev hev
      · exact h3.ok_events hok ev hev
    · intro hok
      show persistedStatus a.Status (o.trace ++ _) = _
      rw [persistedStatus_append, h1.ok_persisted herr]
      exact h3.ok_persisted hok
    · intro e he
      obtain ⟨pre, ev, htr, hev, hpre⟩ := h3.fail_last e he
      refine ⟨o.trace ++ pre, ev, ?_, hev, ?_⟩
      · show o.trace ++ _ = _
        rw [htr, List.append_assoc]
      · intro x hx
        rcases List.mem_append.1 hx with hx | hx
        · exact h1.ok_events herr x hx
        · exact hpre x hx
    · exact stateLE_trans h1.mono_obj h3.mono_obj
    · intro obj err hmem
      rcases List.mem_append.1 hmem with hmem | hmem
      · exact h1.mono_persist obj err hmem
      · exact stateLE_trans h1.mono_obj (h3.mono_persist obj err hmem)

theorem addGroups_cons_ok {σ : Type} (c : Collaborators σ) (group : String) (rest : List String)
    (a : AwsAccount) (s s1 s2 : σ)
    (h1 : c.AddUserToGroup group a.Spec.UserName s = (none, s1))
    (h2 : c.StatusUpdate (appendGroup a group) s1 = (none, s2)) :
    addGroups c (group :: rest) a s =
      (Outcome.mk none (appendGroup a group)
        [.AddUserToGroup group a.Spec.UserName none, .StatusUpdate (appendGroup a group) none]
        s2).andThen (addGroups c rest) := by
  simp [addGroups, h1, h2, Outcome.andThen]

theorem addGroups_sound {σ : Type} (c : Collaborators σ) (l : List String) (a : AwsAccount)
    (s : σ) : Sound a (addGroups c l a s) := by
  induction l generalizing a s with
  | nil => exact sound_ok a a [] s rfl (by simp) rfl (stateLE_refl _) (by simp)
  | cons group rest ih =>
    rcases h1 : c.AddUserToGroup group a.Spec.UserName s with ⟨_ | e1, s1⟩
    · rcases h2 : c.StatusUpdate (appendGroup a group) s1 with ⟨_ | e2, s2⟩
      · rw [addGroups_cons_ok c group rest a s s1 s2 h1 h2]
        refine Sound_andThen ?_ (fun a2 s2 => ih a2 s2)
        exact sound_ok a _ _ _ rfl (by simp [Event.err]) (by simp [persistedStatus])
          (by simp [appendGroup, stateLE_refl]) (by simp [appendGroup, stateLE_refl])
      · have : addGroups c (group :: rest) a s = ⟨some e2, appendGroup a group,
            [.AddUserToGroup group a.Spec.UserName none] ++
              [.StatusUpdate (appendGroup a group) (some e2)], s2⟩ := by
          simp [addGroups, h1, h2]
        rw [this]
        exact sound_fail a _ [_] _ _ _ rfl (by simp [Event.err]) (by simp [Event.err])
          (by simp [appendGroup, stateLE_refl]) (by simp [appendGroup, stateLE_refl])
    · have : addGroups c (group :: rest) a s = ⟨some e1, a,
          [] ++ [.AddUserToGroup group a.Spec.UserName (some e1)], s1⟩ := by
        simp [addGroups, h1]
      rw [this]
      exact sound_fail a a [] _ _ _ rfl (by simp) (by simp [Event.err])
        (stateLE_refl _) (by simp)

theorem reconcileLoaded_sound {σ : Type} (c : Collaborators σ) (a : AwsAccount) (s : σ) :
    Sound a (reconcileLoaded c a s) := by
  unfold reconcileLoaded
  refine Sound_andThen (Sound_andThen (Sound_andThen (stageUser_sound c a s) ?_) ?_) ?_
  · exact fun a2 s2 => stageLoginProfile_sound c a2 s2
  · exact fun a2 s2 => stageAccessKey_sound c a2 s2
  · exact fun a2 s2 => addGroups_sound c _ a2 s2

theorem Reconcile_of_get {σ : Type} (c : Collaborators σ) (s s1 : σ) (a : AwsAccount)
    (hget : c.Get s = (Except.ok a, s1)) :
    Reconcile c s =
      { reconcileLoaded c a s1 with trace := .Get (.ok a) :: (reconcileLoaded c a s1).trace } := by
  simp [Reconcile, hget]

theorem Reconcile_trace {σ : Type} (c : Collaborators σ) (s s1 : σ) (a : AwsAccount)
    (hget : c.Get s = (Except.ok a, s1)) :
    (Reconcile c s).trace = Event.Get (.ok a) :: (reconcileLoaded c a s1).trace := by
  rw [Reconcile_of_get c s s1 a hget]

theorem Reconcile_err {σ : Type} (c : Collaborators σ) (s s1 : σ) (a : AwsAccount)
    (hget : c.Get s = (Except.ok a, s1)) :
    (Reconcile c s).err = (reconcileLoaded c a s1).err := by
  rw [Reconcile_of_get c s s1 a hget]

theorem Reconcile_obj {σ : Type} (c : Collaborators σ) (s s1 : σ) (a : AwsAccount)
    (hget : c.Get s = (Except.ok a, s1)) :
    (Reconcile c s).obj = (reconcileLoaded c a s1).obj := by
  rw [Reconcile_of_get c s s1 a hget]

theorem Reconcile_world {σ : Type} (c : Collaborators σ) (s s1 : σ) (a : AwsAccount)
    (hget : c.Get s = (Except.ok a, s1)) :
    (Reconcile c s).world = (reconcileLoaded c a s1).world := by
  rw [Reconcile_of_get c s s1 a hget]

theorem persistedStatus_cases (st : AwsAccountStatus) (trace : List Event) :
    persistedStatus st trace = st ∨
      ∃ obj, Event.StatusUpdate obj none ∈ trace ∧ persistedStatus st trace = obj.Status := by
  induction trace using List.reverseRecOn with
  | nil => exact Or.inl rfl
  | append_singleton pre ev ih =>
    rw [persistedStatus_append]
    cases ev with
    | StatusUpdate obj err =>
      cases err with
      | none => right; exact ⟨obj, by simp, by simp [persistedStatus]⟩
      | some e =>
        rcases ih with ih | ⟨o, hmem, ih⟩
        · left; simp [persistedStatus, ih]
        · right; exact ⟨o, by simp [hmem], by simp [persistedStatus, ih]⟩
    | _ =>
      rcases ih with ih | ⟨o, hmem, ih⟩
      · left; simp [persistedStatus, ih]
      · right; exact ⟨o, by simp [hmem], by simp [persistedStatus, ih]⟩

theorem persisted_state_le {σ : Type} (c : Collaborators σ) (a : AwsAccount) (s : σ) :
    stateLE a.Status.Account
      (persistedStatus a.Status (reconcileLoaded c a s).trace).Account = true := by
  rcases persistedStatus_cases a.Status (reconcileLoaded c a s).trace with h | ⟨obj, hmem, h⟩
  · rw [h]; exact stateLE_refl _
  · rw [h]; exact (reconcileLoaded_sound c a s).mono_persist obj none hmem

/-! ## Shapes of the stages -/

theorem stageUser_shape {σ : Type} (c : Collaborators σ) (a : AwsAccount) (s : σ) :
    (¬(a.Status.Account = CreatingUser ∨ a.Status.Account = "") ∧
      stageUser c a s = ⟨none, a, [], s⟩) ∨
    ((a.Status.Account = CreatingUser ∨ a.Status.Account = "") ∧
      ((∃ e s1, stageUser c a s =
          ⟨some e, a, [.CreateUser a.Spec.UserName (.error e)], s1⟩) ∨
       (∃ user e s2, stageUser c a s =
          ⟨some e, setAccount a CreatingLoginProfile, [.CreateUser a.Spec.UserName (.ok user),
            .StatusUpdate (setAccount a CreatingLoginProfile) (some e)], s2⟩) ∨
       (∃ user s2, stageUser c a s =
          ⟨none, setAccount a CreatingLoginProfile, [.CreateUser a.Spec.UserName (.ok user),
            .StatusUpdate (setAccount a CreatingLoginProfile) none], s2⟩))) := by
  unfold stageUser
  by_cases hact : a.Status.Account = CreatingUser ∨ a.Status.Account = ""
  · rw [if_pos hact]
    refine Or.inr ⟨hact, ?_⟩
    rcases h1 : c.CreateUser a.Spec.UserName s with ⟨e | user, s1⟩
    · exact Or.inl ⟨e, s1, rfl⟩
    · rcases h2 : c.StatusUpdate (setAccount a CreatingLoginProfile) s1 with ⟨_ | e, s2⟩
      · exact Or.inr (Or.inr ⟨user, s2, by simp [h2]⟩)
      · exact Or.inr (Or.inl ⟨user, e, s2, by simp [h2]⟩)
  · rw [if_neg hact]
    exact Or.inl ⟨hact, rfl⟩

theorem stageLoginProfile_shape {σ : Type} (c : Collaborators σ) (a : AwsAccount) (s : σ) :
    (¬ a.Status.Account = CreatingLoginProfile ∧ stageLoginProfile c a s = ⟨none, a, [], s⟩) ∨
    (a.Status.Account = CreatingLoginProfile ∧
      ((∃ e s1, stageLoginProfile c a s =
          ⟨some e, a, [.Generate 20 3 3 false true (.error e)], s1⟩) ∨
       (∃ pass e s2, stageLoginProfile c a s =
          ⟨some e, a, [.Generate 20 3 3 false true (.ok pass),
            .CreateLoginProfile pass a.Spec.UserName true (some e)], s2⟩) ∨
       (∃ pass e s3, stageLoginProfile c a s =
          ⟨some e, setAccount a CreatingAccessKey, [.Generate 20 3 3 false true (.ok pass),
            .CreateLoginProfile pass a.Spec.UserName true none,
            .StatusUpdate (setAccount a CreatingAccessKey) (some e)], s3⟩) ∨
       (∃ pass s3, stageLoginProfile c a s =
          ⟨none, setAccount a CreatingAccessKey, [.Generate 20 3 3 false true (.ok pass),
            .CreateLoginProfile pass a.Spec.UserName true none,
            .StatusUpdate (setAccount a CreatingAccessKey) none], s3⟩))) := by
  unfold stageLoginProfile
  by_cases hact : a.Status.Account = CreatingLoginProfile
  · rw [if_pos hact]
    refine Or.inr ⟨hact, ?_⟩
    rcases h1 : c.Generate 20 3 3 false true s with ⟨e | pass, s1⟩
    · exact Or.inl ⟨e, s1, rfl⟩
    · rcases h2 : c.CreateLoginProfile pass a.Spec.UserName true s1 with ⟨_ | e, s2⟩
      · rcases h3 : c.StatusUpdate (setAccount a CreatingAccessKey) s2 with ⟨_ | e, s3⟩
        · exact Or.inr (Or.inr (Or.inr ⟨pass, s3, by simp [h2, h3]⟩))
        · exact Or.inr (Or.inr (Or.inl ⟨pass, e, s3, by simp [h2, h3]⟩))
      · exact Or.inr (Or.inl ⟨pass, e, s2, by simp [h2]⟩)
  · rw [if_neg hact]
    exact Or.inl ⟨hact, rfl⟩

theorem stageAccessKey_shape {σ : Type} (c : Collaborators σ) (a : AwsAccount) (s : σ) :
    (¬ a.Status.Account = CreatingAccessKey ∧ stageAccessKey c a s = ⟨none, a, [], s⟩) ∨
    (a.Status.Account = CreatingAccessKey ∧
      ((∃ e s1, stageAccessKey c a s =
          ⟨some e, a, [.CreateAccessKeyPair a.Spec.UserName (.error e)], s1⟩) ∨
       (∃ key e s2, stageAccessKey c a s =
          ⟨some e, setAccount a Created, [.CreateAccessKeyPair a.Spec.UserName (.ok key),
            .StatusUpdate (setAccount a Created) (some e)], s2⟩) ∨
       (∃ key s2, stageAccessKey c a s =
          ⟨none, setAccount a Created, [.CreateAccessKeyPair a.Spec.UserName (.ok key),
            .StatusUpdate (setAccount a Created) none], s2⟩))) := by
  unfold stageAccessKey
  by_cases hact : a.Status.Account = CreatingAccessKey
  · rw [if_pos hact]
    refine Or.inr ⟨hact, ?_⟩
    rcases h1 : c.CreateAccessKeyPair a.Spec.UserName s with ⟨e | key, s1⟩
    · exact Or.inl ⟨e, s1, rfl⟩
    · rcases h2 : c.StatusUpdate (setAccount a Created) s1 with ⟨_ | e, s2⟩
      · exact Or.inr (Or.inr ⟨key, s2, by simp [h2]⟩)
      · exact Or.inr (Or.inl ⟨key, e, s2, by simp [h2]⟩)
  · rw [if_neg hact]
    exact Or.inl ⟨hact, rfl⟩

/-! ## Step discipline of the stages -/

theorem EachAt_append (P : AwsAccountStatus → Event → Prop) (st : AwsAccountStatus)
    (t1 t2 : List Event) :
    EachAt P st (t1 ++ t2) ↔ EachAt P st t1 ∧ EachAt P (persistedStatus st t1) t2 := by
  induction t1 generalizing st with
  | nil => simp [EachAt, persistedStatus]
  | cons ev rest ih =>
    have h : persistedStatus st (ev :: rest) = persistedStatus (persistedStatus st [ev]) rest :=
      persistedStatus_append st [ev] rest
    show (P st ev ∧ EachAt P (persistedStatus st [ev]) (rest ++ t2)) ↔
      (P st ev ∧ EachAt P (persistedStatus st [ev]) rest) ∧
        EachAt P (persistedStatus st (ev :: rest)) t2
    rw [ih, h, and_assoc]

theorem EachAt_split {P : AwsAccountStatus → Event → Prop} {st : AwsAccountStatus}
    {pre post : List Event} {ev : Event} (h : EachAt P st (pre ++ ev :: post)) :
    P (persistedStatus st pre) ev :=
  ((EachAt_append P st pre (ev :: post)).1 h).2.1

theorem Stepwise_andThen {σ : Type} {a : AwsAccount} {o : Outcome σ}
    {next : AwsAccount → σ → Outcome σ} (hs : Sound a o) (h1 : Stepwise a o)
    (h2 : o.err = none → Stepwise o.obj (next o.obj o.world)) :
    Stepwise a (o.andThen next) := by
  cases herr : o.err with
  | some e => rw [andThen_err o next e herr]; exact h1
  | none =>
    rw [andThen_ok o next herr]
    have h3 := h2 herr
    constructor
    · show EachAt _ _ (o.trace ++ _)
      rw [EachAt_append, hs.ok_persisted herr]
      refine ⟨h1.justified, ?_⟩
      have := h3.justified
      rwa [hs.spec_eq] at this
    · show List.Chain' _ (o.trace ++ _)
      rw [List.chain'_append]
      refine ⟨h1.chain, h3.chain, ?_⟩
      intro x hx y hy
      have hxp := h1.ok_last herr x hx
      have hyp := h3.head y hy
      unfold Adjacent
      rw [hyp]
      cases x <;> simp_all [Event.isPersist, Event.isProvisioning]
    · show ∀ ev ∈ (o.trace ++ _).head?, _
      intro ev hev
      cases htr : o.trace with
      | nil =>
        rw [htr] at hev
        exact h3.head ev (by simpa using hev)
      | cons x rest =>
        rw [htr] at hev
        exact h1.head ev (by simpa [htr] using hev)
    · intro hok
      show ∀ ev ∈ (o.trace ++ _).getLast?, _
      intro ev hev
      rw [List.getLast?_append] at hev
      cases hl : (next o.obj o.world).trace.getLast? with
      | none =>
        rw [hl] at hev
        exact h1.ok_last herr ev (by simpa using hev)
      | some y =>
        rw [hl] at hev
        have : y = ev := by simpa using hev
        subst this
        exact h3.ok_last hok y hl

theorem stageUser_stepwise {σ : Type} (c : Collaborators σ) (a : AwsAccount) (s : σ) :
    Stepwise a (stageUser c a s) := by
  rcases stageUser_shape c a s with
    ⟨hact, h⟩ | ⟨hact, ⟨e, s1, h⟩ | ⟨user, e, s2, h⟩ | ⟨user, s2, h⟩⟩ <;>
    rw [h] <;> constructor <;>
    simp [EachAt, Justified, persistedStatus, setAccount, hact, Adjacent, Event.isPersist,
      Event.isProvisioning, Event.err, resErr]

theorem stageLoginProfile_stepwise {σ : Type} (c : Collaborators σ) (a : AwsAccount) (s : σ) :
    Stepwise a (stageLoginProfile c a s) := by
  rcases stageLoginProfile_shape c a s with
    ⟨hact, h⟩ | ⟨hact, ⟨e, s1, h⟩ | ⟨pass, e, s2, h⟩ | ⟨pass, e, s3, h⟩ | ⟨pass, s3, h⟩⟩ <;>
    rw [h] <;> constructor <;>
    simp [EachAt, Justified, persistedStatus, setAccount, hact, Adjacent, Event.isPersist,
      Event.isProvisioning, Event.err, resErr]

theorem stageAccessKey_stepwise {σ : Type} (c : Collaborators σ) (a : AwsAccount) (s : σ) :
    Stepwise a (stageAccessKey c a s) := by
  rcases stageAccessKey_shape c a s with
    ⟨hact, h⟩ | ⟨hact, ⟨e, s1, h⟩ | ⟨key, e, s2, h⟩ | ⟨key, s2, h⟩⟩ <;>
    rw [h] <;> constructor <;>
    simp [EachAt, Justified, persistedStatus, setAccount, hact, Adjacent, Event.isPersist,
      Event.isProvisioning, Event.err, resErr]

theorem addGroups_stepwise {σ : Type} (c : Collaborators σ) (l : List String) (a : AwsAccount)
    (s : σ) : Stepwise a (addGroups c l a s) := by
  induction l generalizing a s with
  | nil => constructor <;> simp [addGroups, EachAt]
  | cons group rest ih =>
    rcases h1 : c.AddUserToGroup group a.Spec.UserName s with ⟨_ | e1, s1⟩
    · rcases h2 : c.StatusUpdate (appendGroup a group) s1 with ⟨_ | e2, s2⟩
      · rw [addGroups_cons_ok c group rest a s s1 s2 h1 h2]
        refine Stepwise_andThen ?_ ?_ (fun _ => ih _ _)
        · exact sound_ok a _ _ _ rfl (by simp [Event.err]) (by simp [persistedStatus])
            (by simp [appendGroup, stateLE_refl]) (by simp [appendGroup, stateLE_refl])
        · constructor <;>
            simp [EachAt, Justified, persistedStatus, appendGroup, Adjacent, Event.isPersist,
              Event.isProvisioning, Event.err]
      · have : addGroups c (group :: rest) a s = ⟨some e2, appendGroup a group,
            [.AddUserToGroup group a.Spec.UserName none,
              .StatusUpdate (appendGroup a group) (some e2)], s2⟩ := by
          simp [addGroups, h1, h2]
        rw [this]
        constructor <;>
          simp [EachAt, Justified, persistedStatus, appendGroup, Adjacent, Event.isPersist,
            Event.isProvisioning, Event.err]
    · have : addGroups c (group :: rest) a s = ⟨some e1, a,
          [.AddUserToGroup group a.Spec.UserName (some e1)], s1⟩ := by
        simp [addGroups, h1]
      rw [this]
      constructor <;>
        simp [EachAt, Justified, persistedStatus, Adjacent, Event.isPersist,
          Event.isProvisioning, Event.err]

theorem reconcileLoaded_stepwise {σ : Type} (c : Collaborators σ) (a : AwsAccount) (s : σ) :
    Stepwise a (reconcileLoaded c a s) := by
  unfold reconcileLoaded
  have s1 := stageUser_sound c a s
  have s2 := Sound_andThen s1 (fun a2 s2 => stageLoginProfile_sound c a2 s2)
  have s3 := Sound_andThen s2 (fun a2 s2 => stageAccessKey_sound c a2 s2)
  have t1 := stageUser_stepwise c a s
  have t2 := Stepwise_andThen s1 t1 (fun _ => stageLoginProfile_stepwise c _ _)
  have t3 := Stepwise_andThen s2 t2 (fun _ => stageAccessKey_stepwise c _ _)
  exact Stepwise_andThen s3 t3 (fun _ => addGroups_stepwise c _ _ _)

/-! ## The group loop -/

theorem appendGroups_nil (a : AwsAccount) : appendGroups a [] = a := by
  simp [appendGroups]

theorem appendGroups_cons (a : AwsAccount) (group : String) (l : List String) :
    appendGroups (appendGroup a group) l = appendGroups a (group :: l) := by
  simp [appendGroups, appendGroup]

theorem appendGroups_append (a : AwsAccount) (l1 l2 : List String) :
    appendGroups (appendGroups a l1) l2 = appendGroups a (l1 ++ l2) := by
  simp [appendGroups]

theorem joinedEvents_append (a : AwsAccount) (l1 l2 : List String) :
    joinedEvents a (l1 ++ l2) = joinedEvents a l1 ++ joinedEvents (appendGroups a l1) l2 := by
  induction l1 generalizing a with
  | nil => simp [joinedEvents, appendGroups_nil]
  | cons g rest ih => simp [joinedEvents, ih, appendGroups_cons]

theorem addCalls_append (t1 t2 : List Event) :
    addCalls (t1 ++ t2) = addCalls t1 ++ addCalls t2 := by
  simp [addCalls, List.filterMap_append]

theorem addCalls_joinedEvents (a : AwsAccount) (l : List String) :
    addCalls (joinedEvents a l) = l.map (fun g => (g, a.Spec.UserName)) := by
  induction l generalizing a with
  | nil => rfl
  | cons g rest ih =>
    have := ih (appendGroup a g)
    have hspec : (appendGroup a g).Spec = a.Spec := rfl
    simp only [addCalls, hspec] at this
    simp [joinedEvents, addCalls, List.filterMap_cons, this]

theorem persistedStatus_joinedEvents (a : AwsAccount) (l : List String) :
    persistedStatus a.Status (joinedEvents a l) = (appendGroups a l).Status := by
  induction l generalizing a with
  | nil => simp [joinedEvents, persistedStatus, appendGroups_nil]
  | cons g rest ih =>
    simp only [joinedEvents, persistedStatus]
    rw [ih, appendGroups_cons]

theorem mem_joinedEvents (a : AwsAccount) (l : List String) (ev : Event)
    (h : ev ∈ joinedEvents a l) :
    (∃ g, ev = .AddUserToGroup g a.Spec.UserName none) ∨
    (∃ obj, ev = .StatusUpdate obj none ∧ obj.Spec = a.Spec ∧
      obj.Status.Account = a.Status.Account) := by
  induction l generalizing a with
  | nil => simp [joinedEvents] at h
  | cons g rest ih =>
    simp only [joinedEvents, List.mem_cons] at h
    rcases h with h | h | h
    · exact Or.inl ⟨g, h⟩
    · exact Or.inr ⟨_, h, rfl, rfl⟩
    · rcases ih (appendGroup a g) h with ⟨g2, h2⟩ | ⟨obj, h2, h3, h4⟩
      · exact Or.inl ⟨g2, h2⟩
      · exact Or.inr ⟨obj, h2, h3, h4⟩

theorem addGroups_cons_callFail {σ : Type} (c : Collaborators σ) (group : String)
    (rest : List String) (a : AwsAccount) (s s1 : σ) (e : Error)
    (h1 : c.AddUserToGroup group a.Spec.UserName s = (some e, s1)) :
    addGroups c (group :: rest) a s =
      ⟨some e, a, [.AddUserToGroup group a.Spec.UserName (some e)], s1⟩ := by
  simp [addGroups, h1]

theorem addGroups_cons_persistFail {σ : Type} (c : Collaborators σ) (group : String)
    (rest : List String) (a : AwsAccount) (s s1 s2 : σ) (e : Error)
    (h1 : c.AddUserToGroup group a.Spec.UserName s = (none, s1))
    (h2 : c.StatusUpdate (appendGroup a group) s1 = (some e, s2)) :
    addGroups c (group :: rest) a s =
      ⟨some e, appendGroup a group, [.AddUserToGroup group a.Spec.UserName none,
        .StatusUpdate (appendGroup a group) (some e)], s2⟩ := by
  simp [addGroups, h1, h2]

theorem addGroups_cons_next {σ : Type} (c : Collaborators σ) (group : String)
    (rest : List String) (a : AwsAccount) (s s1 s2 : σ)
    (h1 : c.AddUserToGroup group a.Spec.UserName s = (none, s1))
    (h2 : c.StatusUpdate (appendGroup a group) s1 = (none, s2)) :
    addGroups c (group :: rest) a s =
      { addGroups c rest (appendGroup a group) s2 with
        trace := .AddUserToGroup group a.Spec.UserName none ::
          .StatusUpdate (appendGroup a group) none ::
          (addGroups c rest (appendGroup a group) s2).trace } := by
  simp [addGroups, h1, h2]

theorem appendGroup_eq (a : AwsAccount) (group : String) :
    appendGroup a group = appendGroups a [group] := rfl

theorem addGroups_shape {σ : Type} (c : Collaborators σ) (l : List String) (a : AwsAccount)
    (s : σ) :
    ((addGroups c l a s).err = none ∧ (addGroups c l a s).trace = joinedEvents a l ∧
      (addGroups c l a s).obj = appendGroups a l) ∨
    (∃ l1 g l2 e, l = l1 ++ g :: l2 ∧ (addGroups c l a s).err = some e ∧
      (((addGroups c l a s).trace =
            joinedEvents a l1 ++ [.AddUserToGroup g a.Spec.UserName (some e)] ∧
          (addGroups c l a s).obj = appendGroups a l1) ∨
       ((addGroups c l a s).trace =
            joinedEvents a l1 ++ [.AddUserToGroup g a.Spec.UserName none,
              .StatusUpdate (appendGroups a (l1 ++ [g])) (some e)] ∧
          (addGroups c l a s).obj = appendGroups a (l1 ++ [g])))) := by
  induction l generalizing a s with
  | nil => exact Or.inl ⟨rfl, rfl, (appendGroups_nil a).symm⟩
  | cons g0 rest ih =>
    rcases h1 : c.AddUserToGroup g0 a.Spec.UserName s with ⟨_ | e1, s1⟩
    · rcases h2 : c.StatusUpdate (appendGroup a g0) s1 with ⟨_ | e2, s2⟩
      · have hspec : (appendGroup a g0).Spec.UserName = a.Spec.UserName := rfl
        rw [addGroups_cons_next c g0 rest a s s1 s2 h1 h2]
        rcases ih (appendGroup a g0) s2 with ⟨he, ht, ho⟩ | ⟨l1, g, l2, e, hl, he, h⟩
        · left
          simp [he, ht, ho, joinedEvents, appendGroups_cons]
        · right
          refine ⟨g0 :: l1, g, l2, e, by simp [hl], by simp [he], ?_⟩
          rcases h with ⟨ht, ho⟩ | ⟨ht, ho⟩
          · left
            simp [ht, ho, joinedEvents, appendGroups_cons, hspec]
          · right
            simp [ht, ho, joinedEvents, appendGroups_cons, hspec]
      · right
        rw [addGroups_cons_persistFail c g0 rest a s s1 s2 e2 h1 h2]
        exact ⟨[], g0, rest, e2, rfl, rfl, Or.inr ⟨rfl, rfl⟩⟩
    · right
      rw [addGroups_cons_callFail c g0 rest a s s1 e1 h1]
      exact ⟨[], g0, rest, e1, rfl, rfl, Or.inl ⟨rfl, (appendGroups_nil a).symm⟩⟩

/-! ## The account stages together -/

theorem reconcileLoaded_eq {σ : Type} (c : Collaborators σ) (a : AwsAccount) (s : σ) :
    reconcileLoaded c a s = (bootstrap c a s).andThen (stageGroups c) := rfl

theorem andThen_none {σ : Type} {o : Outcome σ} {next : AwsAccount → σ → Outcome σ}
    (h : (o.andThen next).err = none) :
    o.err = none ∧ (next o.obj o.world).err = none ∧
      (o.andThen next).obj = (next o.obj o.world).obj ∧
      (o.andThen next).world = (next o.obj o.world).world ∧
      (o.andThen next).trace = o.trace ++ (next o.obj o.world).trace := by
  cases herr : o.err with
  | some e =>
    rw [andThen_err o next e herr, herr] at h
    exact absurd h (by simp)
  | none =>
    rw [andThen_ok o next herr] at h ⊢
    exact ⟨rfl, h, rfl, rfl, rfl⟩

theorem bootstrap_sound {σ : Type} (c : Collaborators σ) (a : AwsAccount) (s : σ) :
    Sound a (bootstrap c a s) :=
  Sound_andThen (Sound_andThen (stageUser_sound c a s)
    (fun a2 s2 => stageLoginProfile_sound c a2 s2)) (fun a2 s2 => stageAccessKey_sound c a2 s2)

theorem stageUser_post {σ : Type} (c : Collaborators σ) (a : AwsAccount) (s : σ) :
    (stageUser c a s).obj.Status.UserGroups = a.Status.UserGroups ∧
    addCalls (stageUser c a s).trace = [] ∧
    ((stageUser c a s).err = none →
      (stageUser c a s).obj.Status.Account ≠ CreatingUser ∧
      (stageUser c a s).obj.Status.Account ≠ "") := by
  rcases stageUser_shape c a s with
    ⟨hact, h⟩ | ⟨hact, ⟨e, s1, h⟩ | ⟨user, e, s2, h⟩ | ⟨user, s2, h⟩⟩ <;>
    rw [h] <;>
    simp_all [setAccount, addCalls, CreatingUser, CreatingLoginProfile, CreatingAccessKey, Created]

theorem stageLoginProfile_post {σ : Type} (c : Collaborators σ) (a : AwsAccount) (s : σ) :
    (stageLoginProfile c a s).obj.Status.UserGroups = a.Status.UserGroups ∧
    addCalls (stageLoginProfile c a s).trace = [] ∧
    ((stageLoginProfile c a s).err = none →
      (stageLoginProfile c a s).obj.Status.Account ≠ CreatingLoginProfile ∧
      ((a.Status.Account ≠ CreatingUser ∧ a.Status.Account ≠ "") →
        (stageLoginProfile c a s).obj.Status.Account ≠ CreatingUser ∧
        (stageLoginProfile c a s).obj.Status.Account ≠ "")) := by
  rcases stageLoginProfile_shape c a s with
    ⟨hact, h⟩ | ⟨hact, ⟨e, s1, h⟩ | ⟨pass, e, s2, h⟩ | ⟨pass, e, s3, h⟩ | ⟨pass, s3, h⟩⟩ <;>
    rw [h] <;>
    simp_all [setAccount, addCalls, CreatingUser, CreatingLoginProfile, CreatingAccessKey, Created]

theorem stageAccessKey_post {σ : Type} (c : Collaborators σ) (a : AwsAccount) (s : σ) :
    (stageAccessKey c a s).obj.Status.UserGroups = a.Status.UserGroups ∧
    addCalls (stageAccessKey c a s).trace = [] ∧
    ((stageAccessKey c a s).err = none →
      (stageAccessKey c a s).obj.Status.Account ≠ CreatingAccessKey ∧
      ((a.Status.Account ≠ CreatingUser ∧ a.Status.Account ≠ "" ∧
          a.Status.Account ≠ CreatingLoginProfile) →
        (stageAccessKey c a s).obj.Status.Account ≠ CreatingUser ∧
        (stageAccessKey c a s).obj.Status.Account ≠ "" ∧
        (stageAccessKey c a s).obj.Status.Account ≠ CreatingLoginProfile)) := by
  rcases stageAccessKey_shape c a s with
    ⟨hact, h⟩ | ⟨hact, ⟨e, s1, h⟩ | ⟨key, e, s2, h⟩ | ⟨key, s2, h⟩⟩ <;>
    rw [h] <;>
    simp_all [setAccount, addCalls, CreatingUser, CreatingLoginProfile, CreatingAccessKey, Created]

theorem andThen_cases {σ : Type} (o : Outcome σ) (next : AwsAccount → σ → Outcome σ) :
    (∃ e, o.err = some e ∧ o.andThen next = o) ∨
    (o.err = none ∧ (o.andThen next).err = (next o.obj o.world).err ∧
      (o.andThen next).obj = (next o.obj o.world).obj ∧
      (o.andThen next).world = (next o.obj o.world).world ∧
      (o.andThen next).trace = o.trace ++ (next o.obj o.world).trace) := by
  cases herr : o.err with
  | some e => exact Or.inl ⟨e, rfl, andThen_err o next e herr⟩
  | none =>
    rw [andThen_ok o next herr]
    exact Or.inr ⟨rfl, rfl, rfl, rfl, rfl⟩

theorem bootstrap_ug {σ : Type} (c : Collaborators σ) (a : AwsAccount) (s : σ) :
    (bootstrap c a s).obj.Status.UserGroups = a.Status.UserGroups := by
  unfold bootstrap
  have p1 := (stageUser_post c a s).1
  rcases andThen_cases (stageUser c a s) (stageLoginProfile c) with
    ⟨e, _, h12⟩ | ⟨_, _, ho12, _, _⟩
  · rcases andThen_cases ((stageUser c a s).andThen (stageLoginProfile c)) (stageAccessKey c)
      with ⟨e, _, h⟩ | ⟨_, _, ho, _, _⟩
    · rw [h, h12]; exact p1
    · rw [ho, (stageAccessKey_post c _ _).1, h12]; exact p1
  · have p2 := (stageLoginProfile_post c (stageUser c a s).obj (stageUser c a s).world).1
    rcases andThen_cases ((stageUser c a s).andThen (stageLoginProfile c)) (stageAccessKey c)
      with ⟨e, _, h⟩ | ⟨_, _, ho, _, _⟩
    · rw [h, ho12, p2]; exact p1
    · rw [ho, (stageAccessKey_post c _ _).1, ho12, p2]; exact p1

theorem bootstrap_addCalls {σ : Type} (c : Collaborators σ) (a : AwsAccount) (s : σ) :
    addCalls (bootstrap c a s).trace = [] := by
  unfold bootstrap
  have p1 := (stageUser_post c a s).2.1
  have q12 : addCalls ((stageUser c a s).andThen (stageLoginProfile c)).trace = [] := by
    rcases andThen_cases (stageUser c a s) (stageLoginProfile c) with
      ⟨e, _, h12⟩ | ⟨_, _, _, _, ht12⟩
    · rw [h12]; exact p1
    · rw [ht12, addCalls_append, p1, (stageLoginProfile_post c _ _).2.1]; rfl
  rcases andThen_cases ((stageUser c a s).andThen (stageLoginProfile c)) (stageAccessKey c)
    with ⟨e, _, h⟩ | ⟨_, _, _, _, ht⟩
  · rw [h]; exact q12
  · rw [ht, addCalls_append, q12, (stageAccessKey_post c _ _).2.1]; rfl

theorem bootstrap_done {σ : Type} (c : Collaborators σ) (a : AwsAccount) (s : σ)
    (h : (bootstrap c a s).err = none) :
    bootstrapPending (bootstrap c a s).obj.Status.Account = false := by
  unfold bootstrap at h ⊢
  obtain ⟨h12, h3, ho, _, _⟩ := andThen_none h
  obtain ⟨h1, h2, ho12, hw12, _⟩ := andThen_none h12
  have p1 := (stageUser_post c a s).2.2 h1
  have p2 := (stageLoginProfile_post c _ _).2.2 h2
  have p3 := (stageAccessKey_post c _ _).2.2 h3
  rw [← ho12] at p2
  rw [← ho] at p3
  have q2 := p2.2 p1
  have q3 := p3.2 ⟨q2.1, q2.2, p2.1⟩
  simp [bootstrapPending, q3.1, q3.2.1, q3.2.2, p3.1]

theorem bootstrap_noop {σ : Type} (c : Collaborators σ) (a : AwsAccount) (s : σ)
    (h : bootstrapPending a.Status.Account = false) :
    bootstrap c a s = ⟨none, a, [], s⟩ := by
  simp only [bootstrapPending, Bool.or_eq_false_iff, beq_eq_false_iff_ne, ne_eq] at h
  obtain ⟨⟨⟨h1, h2⟩, h3⟩, h4⟩ := h
  simp [bootstrap, stageUser, stageLoginProfile, stageAccessKey, Outcome.andThen, h1, h2, h3, h4]

/-! ## Successful runs -/

theorem err_none_of_all_ok {σ : Type} {a : AwsAccount} {o : Outcome σ} (hs : Sound a o)
    (hok : ∀ ev ∈ o.trace, ev.err = none) : o.err = none := by
  cases herr : o.err with
  | none => rfl
  | some e =>
    obtain ⟨pre, ev, htr, hev, _⟩ := hs.fail_last e herr
    have := hok ev (by simp [htr])
    rw [this] at hev
    exact absurd hev (by simp)

theorem setAccount_setAccount (a : AwsAccount) (x y : AccountState) :
    setAccount (setAccount a x) y = setAccount a y := rfl

theorem setAccount_spec (a : AwsAccount) (x : AccountState) :
    (setAccount a x).Spec = a.Spec := rfl

theorem stageUser_ok {σ : Type} (c : Collaborators σ) (a : AwsAccount) (s : σ)
    (hact : a.Status.Account = CreatingUser ∨ a.Status.Account = "")
    (h : (stageUser c a s).err = none) :
    ∃ user s2, stageUser c a s =
      ⟨none, setAccount a CreatingLoginProfile, [.CreateUser a.Spec.UserName (.ok user),
        .StatusUpdate (setAccount a CreatingLoginProfile) none], s2⟩ := by
  rcases stageUser_shape c a s with
    ⟨hn, _⟩ | ⟨_, ⟨e, s1, h2⟩ | ⟨user, e, s2, h2⟩ | ⟨user, s2, h2⟩⟩
  · exact absurd hact hn
  · rw [h2] at h; exact absurd h (by simp)
  · rw [h2] at h; exact absurd h (by simp)
  · exact ⟨user, s2, h2⟩

theorem stageLoginProfile_ok {σ : Type} (c : Collaborators σ) (a : AwsAccount) (s : σ)
    (hact : a.Status.Account = CreatingLoginProfile)
    (h : (stageLoginProfile c a s).err = none) :
    ∃ pass s3, stageLoginProfile c a s =
      ⟨none, setAccount a CreatingAccessKey, [.Generate 20 3 3 false true (.ok pass),
        .CreateLoginProfile pass a.Spec.UserName true none,
        .StatusUpdate (setAccount a CreatingAccessKey) none], s3⟩ := by
  rcases stageLoginProfile_shape c a s with
    ⟨hn, _⟩ | ⟨_, ⟨e, s1, h2⟩ | ⟨pass, e, s2, h2⟩ | ⟨pass, e, s3, h2⟩ | ⟨pass, s3, h2⟩⟩
  · exact absurd hact hn
  · rw [h2] at h; exact absurd h (by simp)
  · rw [h2] at h; exact absurd h (by simp)
  · rw [h2] at h; exact absurd h (by simp)
  · exact ⟨pass, s3, h2⟩

theorem stageAccessKey_ok {σ : Type} (c : Collaborators σ) (a : AwsAccount) (s : σ)
    (hact : a.Status.Account = CreatingAccessKey)
    (h : (stageAccessKey c a s).err = none) :
    ∃ key s2, stageAccessKey c a s =
      ⟨none, setAccount a Created, [.CreateAccessKeyPair a.Spec.UserName (.ok key),
        .StatusUpdate (setAccount a Created) none], s2⟩ := by
  rcases stageAccessKey_shape c a s with
    ⟨hn, _⟩ | ⟨_, ⟨e, s1, h2⟩ | ⟨key, e, s2, h2⟩ | ⟨key, s2, h2⟩⟩
  · exact absurd hact hn
  · rw [h2] at h; exact absurd h (by simp)
  · rw [h2] at h; exact absurd h (by simp)
  · exact ⟨key, s2, h2⟩

theorem bootstrap_ok_from_user {σ : Type} (c : Collaborators σ) (a : AwsAccount) (s : σ)
    (hact : a.Status.Account = CreatingUser ∨ a.Status.Account = "")
    (h : (bootstrap c a s).err = none) :
    ∃ user pass key,
      (bootstrap c a s).trace =
        [.CreateUser a.Spec.UserName (.ok user),
         .StatusUpdate (setAccount a CreatingLoginProfile) none,
         .Generate 20 3 3 false true (.ok pass),
         .CreateLoginProfile pass a.Spec.UserName true none,
         .StatusUpdate (setAccount a CreatingAccessKey) none,
         .CreateAccessKeyPair a.Spec.UserName (.ok key),
         .StatusUpdate (setAccount a Created) none] ∧
      (bootstrap c a s).obj = setAccount a Created := by
  unfold bootstrap at h ⊢
  have h1 : (stageUser c a s).err = none := (andThen_none (andThen_none h).1).1
  obtain ⟨user, s2, e1⟩ := stageUser_ok c a s hact h1
  have h2 : (stageLoginProfile c (setAccount a CreatingLoginProfile) s2).err = none := by
    have := (andThen_none (andThen_none h).1).2.1
    rw [e1] at this
    exact this
  obtain ⟨pass, s3, e2⟩ := stageLoginProfile_ok c (setAccount a CreatingLoginProfile) s2 rfl h2
  rw [setAccount_setAccount, setAccount_spec] at e2
  have h3 : (stageAccessKey c (setAccount a CreatingAccessKey) s3).err = none := by
    have := (andThen_none h).2.1
    simp only [Outcome.andThen, e1, e2] at this
    exact this
  obtain ⟨key, s4, e3⟩ := stageAccessKey_ok c (setAccount a CreatingAccessKey) s3 rfl h3
  rw [setAccount_setAccount, setAccount_spec] at e3
  exact ⟨user, pass, key, by simp [Outcome.andThen, e1, e2, e3],
    by simp [Outcome.andThen, e1, e2, e3]⟩

theorem toAdd_eq_nil {T : Type} [DecidableEq T] (desired current : List T)
    (h : ∀ g ∈ desired, g ∈ current) : (getDifference desired current).1 = [] := by
  rw [getDifference_eq]
  simp only [List.filter_eq_nil_iff]
  intro g hg
  simp [(contains_iff current g).2 (h g hg)]

theorem EachAt_mem {P : AwsAccountStatus → Event → Prop} {st : AwsAccountStatus}
    {trace : List Event} (h : EachAt P st trace) {ev : Event} (hev : ev ∈ trace) :
    ∃ st2, P st2 ev := by
  obtain ⟨pre, post, rfl⟩ := List.append_of_mem hev
  exact ⟨_, EachAt_split h⟩

theorem reconcileLoaded_no_removal {σ : Type} (c : Collaborators σ) (a : AwsAccount) (s : σ)
    (ev : Event) (hev : ev ∈ (reconcileLoaded c a s).trace) : ev.isRemoval = false := by
  obtain ⟨st2, h⟩ := EachAt_mem (reconcileLoaded_stepwise c a s).justified hev
  cases ev <;> simp_all [Justified, Event.isRemoval]

theorem persistedStatus_get (st : AwsAccountStatus) (res : Except Error AwsAccount)
    (trace : List Event) :
    persistedStatus st (Event.Get res :: trace) = persistedStatus st trace := rfl

theorem addGroups_ok {σ : Type} (c : Collaborators σ) (l : List String) (a : AwsAccount)
    (s : σ) (h : (addGroups c l a s).err = none) :
    (addGroups c l a s).trace = joinedEvents a l ∧
      (addGroups c l a s).obj = appendGroups a l := by
  rcases addGroups_shape c l a s with ⟨_, ht, ho⟩ | ⟨l1, g, l2, e, _, he, _⟩
  · exact ⟨ht, ho⟩
  · rw [he] at h; exact absurd h (by simp)

theorem stageGroups_of_bootstrap {σ : Type} (c : Collaborators σ) (a : AwsAccount) (s : σ) :
    stageGroups c (bootstrap c a s).obj (bootstrap c a s).world =
      addGroups c (getDifference a.Spec.Groups a.Status.UserGroups).1 (bootstrap c a s).obj
        (bootstrap c a s).world := by
  unfold stageGroups
  rw [(bootstrap_sound c a s).spec_eq, bootstrap_ug]

theorem reconcileLoaded_ok {σ : Type} (c : Collaborators σ) (a : AwsAccount) (s : σ)
    (h : (reconcileLoaded c a s).err = none) :
    (bootstrap c a s).err = none ∧
    (reconcileLoaded c a s).trace = (bootstrap c a s).trace ++
      joinedEvents (bootstrap c a s).obj (getDifference a.Spec.Groups a.Status.UserGroups).1 ∧
    (reconcileLoaded c a s).obj =
      appendGroups (bootstrap c a s).obj (getDifference a.Spec.Groups a.Status.UserGroups).1 := by
  rw [reconcileLoaded_eq] at h ⊢
  obtain ⟨hb, hg, ho, _, ht⟩ := andThen_none h
  rw [stageGroups_of_bootstrap] at hg ho ht
  obtain ⟨hgt, hgo⟩ := addGroups_ok c _ _ _ hg
  exact ⟨hb, by rw [ht, hgt], by rw [ho, hgo]⟩

/-! ## Runs that stop in the group loop -/

theorem reconcileLoaded_cases {σ : Type} (c : Collaborators σ) (a : AwsAccount) (s : σ) :
    (∃ e, (bootstrap c a s).err = some e ∧ reconcileLoaded c a s = bootstrap c a s) ∨
    ((bootstrap c a s).err = none ∧
      (((reconcileLoaded c a s).err = none ∧
          (reconcileLoaded c a s).trace = (bootstrap c a s).trace ++
            joinedEvents (bootstrap c a s).obj
              (getDifference a.Spec.Groups a.Status.UserGroups).1) ∨
       (∃ l1 g l2 e, (getDifference a.Spec.Groups a.Status.UserGroups).1 = l1 ++ g :: l2 ∧
          (reconcileLoaded c a s).err = some e ∧
          ((reconcileLoaded c a s).trace = (bootstrap c a s).trace ++
              (joinedEvents (bootstrap c a s).obj l1 ++
                [.AddUserToGroup g a.Spec.UserName (some e)]) ∨
           (reconcileLoaded c a s).trace = (bootstrap c a s).trace ++
              (joinedEvents (bootstrap c a s).obj l1 ++
                [.AddUserToGroup g a.Spec.UserName none,
                  .StatusUpdate (appendGroups (bootstrap c a s).obj (l1 ++ [g])) (some e)]))))) := by
  rw [reconcileLoaded_eq]
  rcases andThen_cases (bootstrap c a s) (stageGroups c) with ⟨e, he, h⟩ | ⟨hb, he, _, _, ht⟩
  · exact Or.inl ⟨e, he, h⟩
  · right
    refine ⟨hb, ?_⟩
    rw [stageGroups_of_bootstrap] at he ht
    have hu : (bootstrap c a s).obj.Spec.UserName = a.Spec.UserName := by
      rw [(bootstrap_sound c a s).spec_eq]
    rcases addGroups_shape c (getDifference a.Spec.Groups a.Status.UserGroups).1
        (bootstrap c a s).obj (bootstrap c a s).world with
      ⟨hge, hgt, _⟩ | ⟨l1, g, l2, e, hl, hge, hgt⟩
    · left
      exact ⟨by rw [he, hge], by rw [ht, hgt]⟩
    · right
      refine ⟨l1, g, l2, e, hl, by rw [he, hge], ?_⟩
      rcases hgt with ⟨hgt, _⟩ | ⟨hgt, _⟩
      · left; rw [ht, hgt, hu]
      · right; rw [ht, hgt, hu]

theorem addCalls_ne_nil_of_mem {trace : List Event} {g u : String} {err : Option Error}
    (h : Event.AddUserToGroup g u err ∈ trace) : addCalls trace ≠ [] := by
  intro hnil
  have : (g, u) ∈ addCalls trace := by
    unfold addCalls
    rw [List.mem_filterMap]
    exact ⟨_, h, rfl⟩
  rw [hnil] at this
  exact absurd this (by simp)

theorem joinedEvents_ok (a : AwsAccount) (l : List String) :
    ∀ ev ∈ joinedEvents a l, ev.err = none := by
  intro ev hev
  rcases mem_joinedEvents a l ev hev with ⟨g, h⟩ | ⟨obj, h, _, _⟩ <;> rw [h] <;> rfl

theorem reconcileLoaded_group_fail {σ : Type} (c : Collaborators σ) (a : AwsAccount) (s : σ)
    (pre : List Event) (g u : String) (e : Error)
    (h : (reconcileLoaded c a s).trace = pre ++ [.AddUserToGroup g u (some e)]) :
    ∃ l1 l2, (getDifference a.Spec.Groups a.Status.UserGroups).1 = l1 ++ g :: l2 ∧
      u = a.Spec.UserName ∧ (bootstrap c a s).err = none ∧
      (reconcileLoaded c a s).err = some e ∧
      pre = (bootstrap c a s).trace ++ joinedEvents (bootstrap c a s).obj l1 := by
  rcases reconcileLoaded_cases c a s with
    ⟨e2, _, heq⟩ | ⟨hb, ⟨herr, _⟩ | ⟨l1, g2, l2, e2, hl, herr, ht | ht⟩⟩
  · rw [heq] at h
    have hmem : Event.AddUserToGroup g u (some e) ∈ (bootstrap c a s).trace := by
      rw [h]; simp
    exact absurd (bootstrap_addCalls c a s) (addCalls_ne_nil_of_mem hmem)
  · have := (reconcileLoaded_sound c a s).ok_events herr (.AddUserToGroup g u (some e))
      (by rw [h]; simp)
    simp [Event.err] at this
  · rw [ht, ← List.append_assoc] at h
    obtain ⟨h1, h2⟩ := List.append_inj' h rfl
    simp only [List.cons.injEq, Event.AddUserToGroup.injEq, Option.some.injEq, and_true] at h2
    obtain ⟨hg, hu, he⟩ := h2
    subst hg; subst he
    exact ⟨l1, l2, hl, hu.symm, hb, herr, h1.symm⟩
  · rw [ht, ← List.append_assoc] at h
    have h2 := congrArg List.getLast? h
    simp at h2

theorem reconcileLoaded_addCalls_ok {σ : Type} (c : Collaborators σ) (a : AwsAccount) (s : σ)
    (herr : (reconcileLoaded c a s).err = none) :
    addCalls (reconcileLoaded c a s).trace =
      (getDifference a.Spec.Groups a.Status.UserGroups).1.map
        (fun g => (g, a.Spec.UserName)) := by
  obtain ⟨_, ht, _⟩ := reconcileLoaded_ok c a s herr
  rw [ht, addCalls_append, bootstrap_addCalls, addCalls_joinedEvents,
    (bootstrap_sound c a s).spec_eq]
  rfl

theorem toAdd_after {T : Type} [DecidableEq T] (desired current l1 l2 : List T) (g : T)
    (h : (getDifference desired current).1 = l1 ++ g :: l2) :
    (getDifference desired (current ++ l1)).1 =
      (g :: l2).filter (fun x => decide (x ∉ l1)) := by
  have h1 := toAdd_eq_filter desired (current ++ l1)
  have h2 := toAdd_eq_filter desired current
  have h3 : desired.filter (fun v => decide (v ∉ current ++ l1)) =
      (desired.filter (fun v => decide (v ∉ current))).filter (fun x => decide (x ∉ l1)) := by
    rw [List.filter_filter]
    exact List.filter_congr (fun v _ => by simp [not_or, Bool.and_comm])
  rw [h1, h3, ← h2, h, List.filter_append]
  have h4 : l1.filter (fun x => decide (x ∉ l1)) = [] := by
    simp [List.filter_eq_nil_iff]
  rw [h4, List.nil_append]

/-! ## The first wrapper call of a run -/

theorem andThen_trace_append {σ : Type} (o : Outcome σ) (next : AwsAccount → σ → Outcome σ) :
    ∃ rest, (o.andThen next).trace = o.trace ++ rest := by
  rcases andThen_cases o next with ⟨e, _, h⟩ | ⟨_, _, _, _, ht⟩
  · exact ⟨[], by rw [h, List.append_nil]⟩
  · exact ⟨_, ht⟩

theorem reconcileLoaded_first_user {σ : Type} (c : Collaborators σ) (a : AwsAccount) (s : σ)
    (hact : a.Status.Account = CreatingUser ∨ a.Status.Account = "") :
    firstCall (reconcileLoaded c a s).trace = some (.createUser a.Spec.UserName) := by
  unfold reconcileLoaded
  obtain ⟨r3, h3⟩ := andThen_trace_append
    (((stageUser c a s).andThen (stageLoginProfile c)).andThen (stageAccessKey c)) (stageGroups c)
  obtain ⟨r2, h2⟩ := andThen_trace_append
    ((stageUser c a s).andThen (stageLoginProfile c)) (stageAccessKey c)
  obtain ⟨r1, h1⟩ := andThen_trace_append (stageUser c a s) (stageLoginProfile c)
  rw [h3, h2, h1]
  rcases stageUser_shape c a s with
    ⟨hn, _⟩ | ⟨_, ⟨e, s1, h⟩ | ⟨user, e, s2, h⟩ | ⟨user, s2, h⟩⟩
  · exact absurd hact hn
  all_goals rw [h]; simp [firstCall, Event.callOf]

theorem reconcileLoaded_first_login {σ : Type} (c : Collaborators σ) (a : AwsAccount) (s : σ)
    (hact : a.Status.Account = CreatingLoginProfile) :
    firstCall (reconcileLoaded c a s).trace = some (.createLoginProfile a.Spec.UserName) ∨
    ∃ err, (reconcileLoaded c a s).trace = [.Generate 20 3 3 false true (.error err)] := by
  have hu : stageUser c a s = ⟨none, a, [], s⟩ := by
    rcases stageUser_shape c a s with ⟨_, h⟩ | ⟨h, _⟩
    · exact h
    · rw [hact] at h
      exact absurd h (by decide)
  unfold reconcileLoaded
  rw [hu]
  obtain ⟨r3, h3⟩ := andThen_trace_append
    (((Outcome.mk none a [] s).andThen (stageLoginProfile c)).andThen (stageAccessKey c))
    (stageGroups c)
  obtain ⟨r2, h2⟩ := andThen_trace_append
    ((Outcome.mk none a [] s).andThen (stageLoginProfile c)) (stageAccessKey c)
  rcases stageLoginProfile_shape c a s with
    ⟨hn, _⟩ | ⟨_, ⟨e, s1, h⟩ | ⟨pass, e, s2, h⟩ | ⟨pass, e, s3, h⟩ | ⟨pass, s3, h⟩⟩
  · exact absurd hact hn
  · right
    exact ⟨e, by simp [Outcome.andThen, h]⟩
  all_goals
    left
    rw [h3, h2]
    simp [Outcome.andThen, h, firstCall, Event.callOf]

theorem reconcileLoaded_first_key {σ : Type} (c : Collaborators σ) (a : AwsAccount) (s : σ)
    (hact : a.Status.Account = CreatingAccessKey) :
    firstCall (reconcileLoaded c a s).trace = some (.createAccessKeyPair a.Spec.UserName) := by
  have hu : stageUser c a s = ⟨none, a, [], s⟩ := by
    rcases stageUser_shape c a s with ⟨_, h⟩ | ⟨h, _⟩
    · exact h
    · rw [hact] at h
      exact absurd h (by decide)
  have hl : stageLoginProfile c a s = ⟨none, a, [], s⟩ := by
    rcases stageLoginProfile_shape c a s with ⟨_, h⟩ | ⟨h, _⟩
    · exact h
    · rw [hact] at h
      exact absurd h (by decide)
  unfold reconcileLoaded
  rw [hu]
  obtain ⟨r3, h3⟩ := andThen_trace_append
    (((Outcome.mk none a [] s).andThen (stageLoginProfile c)).andThen (stageAccessKey c))
    (stageGroups c)
  rw [h3]
  rcases stageAccessKey_shape c a s with
    ⟨hn, _⟩ | ⟨_, ⟨e, s1, h⟩ | ⟨key, e, s2, h⟩ | ⟨key, s2, h⟩⟩
  · exact absurd hact hn
  all_goals simp [Outcome.andThen, hl, h, firstCall, Event.callOf]

theorem reconcileLoaded_first_group {σ : Type} (c : Collaborators σ) (a : AwsAccount) (s : σ)
    (hdone : bootstrapPending a.Status.Account = false) (g : String) (rest : List String)
    (hl : (getDifference a.Spec.Groups a.Status.UserGroups).1 = g :: rest) :
    firstCall (reconcileLoaded c a s).trace = some (.addUserToGroup g a.Spec.UserName) := by
  rw [reconcileLoaded_eq, bootstrap_noop c a s hdone]
  have : ((Outcome.mk none a [] s).andThen (stageGroups c)).trace =
      (addGroups c (g :: rest) a s).trace := by
    simp [Outcome.andThen, stageGroups, hl]
  rw [this]
  rcases h1 : c.AddUserToGroup g a.Spec.UserName s with ⟨_ | e1, s1⟩
  · rcases h2 : c.StatusUpdate (appendGroup a g) s1 with ⟨_ | e2, s2⟩
    · rw [addGroups_cons_next c g rest a s s1 s2 h1 h2]
      simp [firstCall, Event.callOf]
    · rw [addGroups_cons_persistFail c g rest a s s1 s2 e2 h1 h2]
      simp [firstCall, Event.callOf]
  · rw [addGroups_cons_callFail c g rest a s s1 e1 h1]
    simp [firstCall, Event.callOf]

/-! ## No call of a completed stage -/

theorem mem_addCalls {trace : List Event} {g u : String} {err : Option Error}
    (h : Event.AddUserToGroup g u err ∈ trace) : (g, u) ∈ addCalls trace := by
  unfold addCalls
  rw [List.mem_filterMap]
  exact ⟨_, h, rfl⟩

theorem reconcileLoaded_addCalls_sub {σ : Type} (c : Collaborators σ) (a : AwsAccount) (s : σ)
    (x : String × String) (hx : x ∈ addCalls (reconcileLoaded c a s).trace) :
    x.1 ∈ (getDifference a.Spec.Groups a.Status.UserGroups).1 := by
  have hu : (bootstrap c a s).obj.Spec.UserName = a.Spec.UserName := by
    rw [(bootstrap_sound c a s).spec_eq]
  rcases reconcileLoaded_cases c a s with
    ⟨e2, _, heq⟩ | ⟨hb, ⟨herr, ht⟩ | ⟨l1, g2, l2, e2, hl, herr, ht | ht⟩⟩
  · rw [heq, bootstrap_addCalls] at hx
    exact absurd hx (by simp)
  · rw [ht, addCalls_append, bootstrap_addCalls, addCalls_joinedEvents] at hx
    simp only [List.nil_append, List.mem_map] at hx
    obtain ⟨y, hy, rfl⟩ := hx
    exact hy
  · rw [ht, addCalls_append, addCalls_append, bootstrap_addCalls, addCalls_joinedEvents] at hx
    simp only [List.nil_append, List.mem_append, List.mem_map] at hx
    rw [hl]
    rcases hx with ⟨y, hy, rfl⟩ | hx
    · exact List.mem_append_left _ hy
    · simp only [addCalls, List.filterMap_cons, List.filterMap_nil, List.mem_singleton] at hx
      subst hx
      simp
  · rw [ht, addCalls_append, addCalls_append, bootstrap_addCalls, addCalls_joinedEvents] at hx
    simp only [List.nil_append, List.mem_append, List.mem_map] at hx
    rw [hl]
    rcases hx with ⟨y, hy, rfl⟩ | hx
    · exact List.mem_append_left _ hy
    · simp only [addCalls, List.filterMap_cons, List.filterMap_nil, List.mem_singleton] at hx
      subst hx
      simp

theorem stateLE_before_user {x y : AccountState} (h : stateLE x y = true)
    (hy : y = CreatingUser ∨ y = "") :
    (x == CreatingLoginProfile || x == CreatingAccessKey || x == Created) = false := by
  by_contra hc
  simp only [Bool.not_eq_false, Bool.or_eq_true, beq_iff_eq] at hc
  rcases hy with hy | hy <;> rcases hc with (hc | hc) | hc <;> subst hy <;> subst hc <;>
    exact absurd h (by decide)

theorem stateLE_before_login {x y : AccountState} (h : stateLE x y = true)
    (hy : y = CreatingLoginProfile) :
    (x == CreatingAccessKey || x == Created) = false := by
  by_contra hc
  simp only [Bool.not_eq_false, Bool.or_eq_true, beq_iff_eq] at hc
  rcases hc with hc | hc <;> subst hy <;> subst hc <;> exact absurd h (by decide)

theorem stateLE_before_key {x y : AccountState} (h : stateLE x y = true)
    (hy : y = CreatingAccessKey) : (x == Created) = false := by
  by_contra hc
  simp only [Bool.not_eq_false, beq_iff_eq] at hc
  subst hy; subst hc
  exact absurd h (by decide)

theorem reconcileLoaded_no_complete {σ : Type} (c : Collaborators σ) (a : AwsAccount) (s : σ)
    (ev : Event) (hev : ev ∈ (reconcileLoaded c a s).trace) (call : Call)
    (hcall : ev.callOf = some call) : stageComplete a.Status call = false := by
  obtain ⟨pre, post, htr⟩ := List.append_of_mem hev
  have hj := (reconcileLoaded_stepwise c a s).justified
  rw [htr] at hj
  have J := EachAt_split hj
  have hle : stateLE a.Status.Account (persistedStatus a.Status pre).Account = true := by
    rcases persistedStatus_cases a.Status pre with h | ⟨obj, hmem, h⟩
    · rw [h]; exact stateLE_refl _
    · rw [h]
      exact (reconcileLoaded_sound c a s).mono_persist obj none (by rw [htr]; simp [hmem])
  cases ev with
  | CreateUser u r =>
    simp only [Event.callOf, Option.some.injEq] at hcall
    subst hcall
    exact stateLE_before_user hle J.2
  | CreateLoginProfile p u m r =>
    simp only [Event.callOf, Option.some.injEq] at hcall
    subst hcall
    exact stateLE_before_login hle J.2.2
  | CreateAccessKeyPair u r =>
    simp only [Event.callOf, Option.some.injEq] at hcall
    subst hcall
    exact stateLE_before_key hle J.2
  | AddUserToGroup g u r =>
    simp only [Event.callOf, Option.some.injEq] at hcall
    subst hcall
    have hg := reconcileLoaded_addCalls_sub c a s (g, u) (mem_addCalls hev)
    have hn := ((mem_toAdd _ _ g).1 hg).2
    simp only [stageComplete]
    cases hc : contains a.Status.UserGroups g with
    | false => rfl
    | true => exact absurd ((contains_iff _ _).1 hc) hn
  | RemoveUserFromGroup g u r => exact absurd J (by simp [Justified])
  | Get r => simp [Event.callOf] at hcall
  | StatusUpdate o r => simp [Event.callOf] at hcall
  | Generate l d y nu ar r => simp [Event.callOf] at hcall

/-! ## Runs that stop at a failed persist -/

theorem reconcileLoaded_group_persist_fail {σ : Type} (c : Collaborators σ) (a : AwsAccount)
    (s : σ) (pre : List Event) (g u : String) (r : Option Error) (obj : AwsAccount) (e : Error)
    (h : (reconcileLoaded c a s).trace =
      pre ++ [.AddUserToGroup g u r, .StatusUpdate obj (some e)]) :
    ∃ l1 l2, (getDifference a.Spec.Groups a.Status.UserGroups).1 = l1 ++ g :: l2 ∧
      (bootstrap c a s).err = none ∧
      pre = (bootstrap c a s).trace ++ joinedEvents (bootstrap c a s).obj l1 := by
  rcases reconcileLoaded_cases c a s with
    ⟨e2, _, heq⟩ | ⟨hb, ⟨herr, _⟩ | ⟨l1, g2, l2, e2, hl, herr, ht | ht⟩⟩
  · rw [heq] at h
    have hmem : Event.AddUserToGroup g u r ∈ (bootstrap c a s).trace := by
      rw [h]; simp
    exact absurd (bootstrap_addCalls c a s) (addCalls_ne_nil_of_mem hmem)
  · have := (reconcileLoaded_sound c a s).ok_events herr (.StatusUpdate obj (some e))
      (by rw [h]; simp)
    simp [Event.err] at this
  · rw [ht, ← List.append_assoc] at h
    have h2 := congrArg List.getLast? h
    simp at h2
  · rw [ht, ← List.append_assoc] at h
    obtain ⟨h1, h2⟩ := List.append_inj' h rfl
    simp only [List.cons.injEq, Event.AddUserToGroup.injEq] at h2
    obtain ⟨⟨hg, _, _⟩, _⟩ := h2
    subst hg
    exact ⟨l1, l2, hl, hb, h1.symm⟩

theorem not_persist_of_provisioning {ev : Event} (h : ev.isProvisioning = true) :
    ev.isPersist = false := by
  cases ev <;> simp_all [Event.isProvisioning, Event.isPersist]

theorem firstCall_get (res : Except Error AwsAccount) (trace : List Event) :
    firstCall (Event.Get res :: trace) = firstCall trace := rfl

/-! ## Objects passed to the status update -/

theorem Advanced_trans {a b d : AwsAccount} (h1 : Advanced a b) (h2 : Advanced b d) :
    Advanced a d := by
  rcases h1 with h1 | ⟨x, hx, h1⟩
  · subst h1; exact h2
  · rcases h2 with h2 | ⟨y, hy, h2⟩
    · subst h2; exact Or.inr ⟨x, hx, h1⟩
    · subst h1; subst h2; exact Or.inr ⟨y, hy, setAccount_setAccount a x y⟩

theorem Advanced_setAccount {a b : AwsAccount} (h : Advanced a b) (y : AccountState) :
    Kuadra.setAccount b y = Kuadra.setAccount a y := by
  rcases h with h | ⟨x, _, h⟩
  · rw [h]
  · rw [h, setAccount_setAccount]

theorem stageUser_objs {σ : Type} (c : Collaborators σ) (a : AwsAccount) (s : σ) :
    StageObjs a (stageUser c a s) := by
  have hw : Written CreatingLoginProfile := Or.inl rfl
  rcases stageUser_shape c a s with
    ⟨hact, h⟩ | ⟨hact, ⟨e, s1, h⟩ | ⟨user, e, s2, h⟩ | ⟨user, s2, h⟩⟩ <;>
    rw [h] <;> constructor <;> simp [Advanced] <;>
    first | exact ⟨_, hw, rfl⟩ | exact Or.inr ⟨_, hw, rfl⟩

theorem stageLoginProfile_objs {σ : Type} (c : Collaborators σ) (a : AwsAccount) (s : σ) :
    StageObjs a (stageLoginProfile c a s) := by
  have hw : Written CreatingAccessKey := Or.inr (Or.inl rfl)
  rcases stageLoginProfile_shape c a s with
    ⟨hact, h⟩ | ⟨hact, ⟨e, s1, h⟩ | ⟨pass, e, s2, h⟩ | ⟨pass, e, s3, h⟩ | ⟨pass, s3, h⟩⟩ <;>
    rw [h] <;> constructor <;> simp [Advanced] <;>
    first | exact ⟨_, hw, rfl⟩ | exact Or.inr ⟨_, hw, rfl⟩

theorem stageAccessKey_objs {σ : Type} (c : Collaborators σ) (a : AwsAccount) (s : σ) :
    StageObjs a (stageAccessKey c a s) := by
  have hw : Written Created := Or.inr (Or.inr rfl)
  rcases stageAccessKey_shape c a s with
    ⟨hact, h⟩ | ⟨hact, ⟨e, s1, h⟩ | ⟨key, e, s2, h⟩ | ⟨key, s2, h⟩⟩ <;>
    rw [h] <;> constructor <;> simp [Advanced] <;>
    first | exact ⟨_, hw, rfl⟩ | exact Or.inr ⟨_, hw, rfl⟩

theorem StageObjs_andThen {σ : Type} {a : AwsAccount} {o : Outcome σ}
    {next : AwsAccount → σ → Outcome σ} (h1 : StageObjs a o)
    (h2 : ∀ a2 s2, StageObjs a2 (next a2 s2)) : StageObjs a (o.andThen next) := by
  rcases andThen_cases o next with ⟨e, _, h⟩ | ⟨_, _, ho, _, ht⟩
  · rw [h]; exact h1
  · have h3 := h2 o.obj o.world
    constructor
    · rw [ho]; exact Advanced_trans h1.obj_adv h3.obj_adv
    · intro obj err hmem
      rw [ht] at hmem
      rcases List.mem_append.1 hmem with hmem | hmem
      · exact h1.persist_adv obj err hmem
      · obtain ⟨y, hy, hobj⟩ := h3.persist_adv obj err hmem
        exact ⟨y, hy, by rw [hobj, Advanced_setAccount h1.obj_adv]⟩

theorem bootstrap_objs {σ : Type} (c : Collaborators σ) (a : AwsAccount) (s : σ) :
    StageObjs a (bootstrap c a s) :=
  StageObjs_andThen (StageObjs_andThen (stageUser_objs c a s)
    (fun a2 s2 => stageLoginProfile_objs c a2 s2)) (fun a2 s2 => stageAccessKey_objs c a2 s2)

theorem mem_joinedEvents_persist (a : AwsAccount) (l : List String) (obj : AwsAccount)
    (err : Option Error) (h : Event.StatusUpdate obj err ∈ joinedEvents a l) :
    ∃ l1 g l2, l = l1 ++ g :: l2 ∧ obj = appendGroups a (l1 ++ [g]) := by
  induction l generalizing a with
  | nil => simp [joinedEvents] at h
  | cons g0 rest ih =>
    simp only [joinedEvents, List.mem_cons] at h
    rcases h with h | h | h
    · cases h
    · simp only [Event.StatusUpdate.injEq] at h
      exact ⟨[], g0, rest, rfl, by rw [h.1]; rfl⟩
    · obtain ⟨l1, g, l2, hl, ho⟩ := ih (appendGroup a g0) h
      exact ⟨g0 :: l1, g, l2, by rw [hl]; rfl, by rw [ho, appendGroups_cons]; rfl⟩

theorem reconcileLoaded_persist_cases {σ : Type} (c : Collaborators σ) (a : AwsAccount) (s : σ)
    (obj : AwsAccount) (err : Option Error)
    (h : Event.StatusUpdate obj err ∈ (reconcileLoaded c a s).trace) :
    Event.StatusUpdate obj err ∈ (bootstrap c a s).trace ∨
    ((bootstrap c a s).err = none ∧
      ∃ l1 g l2, (getDifference a.Spec.Groups a.Status.UserGroups).1 = l1 ++ g :: l2 ∧
        obj = appendGroups (bootstrap c a s).obj (l1 ++ [g])) := by
  rcases reconcileLoaded_cases c a s with
    ⟨e2, _, heq⟩ | ⟨hb, ⟨_, ht⟩ | ⟨l1, g2, l2, e2, hl, _, ht | ht⟩⟩
  · rw [heq] at h; exact Or.inl h
  · rw [ht] at h
    rcases List.mem_append.1 h with h | h
    · exact Or.inl h
    · exact Or.inr ⟨hb, mem_joinedEvents_persist _ _ obj err h⟩
  · rw [ht] at h
    rcases List.mem_append.1 h with h | h
    · exact Or.inl h
    · rcases List.mem_append.1 h with h | h
      · obtain ⟨k1, g, k2, hk, ho⟩ := mem_joinedEvents_persist _ _ obj err h
        exact Or.inr ⟨hb, k1, g, k2 ++ g2 :: l2, by rw [hl, hk]; simp, ho⟩
      · simp at h
  · rw [ht] at h
    rcases List.mem_append.1 h with h | h
    · exact Or.inl h
    · rcases List.mem_append.1 h with h | h
      · obtain ⟨k1, g, k2, hk, ho⟩ := mem_joinedEvents_persist _ _ obj err h
        exact Or.inr ⟨hb, k1, g, k2 ++ g2 :: l2, by rw [hl, hk]; simp, ho⟩
      · simp only [List.mem_cons, List.mem_singleton, Event.StatusUpdate.injEq,
          List.not_mem_nil, or_false] at h
        rcases h with h | h
        · cases h
        · exact Or.inr ⟨hb, l1, g2, l2, hl, h.1⟩

theorem reconcileLoaded_persist_obj {σ : Type} (c : Collaborators σ) (a : AwsAccount) (s : σ)
    (obj : AwsAccount) (err : Option Error)
    (h : Event.StatusUpdate obj err ∈ (reconcileLoaded c a s).trace) :
    obj.Spec = a.Spec ∧
    (∃ added rest, (getDifference a.Spec.Groups a.Status.UserGroups).1 = added ++ rest ∧
      obj.Status.UserGroups = a.Status.UserGroups ++ added) ∧
    (Written obj.Status.Account ∨
      (obj.Status.Account = a.Status.Account ∧ bootstrapPending a.Status.Account = false)) := by
  rcases reconcileLoaded_persist_cases c a s obj err h with h | ⟨hb, l1, g, l2, hl, ho⟩
  · obtain ⟨x, hx, ho⟩ := (bootstrap_objs c a s).persist_adv obj err h
    rw [ho]
    exact ⟨rfl, ⟨[], _, rfl, by simp [setAccount]⟩, Or.inl hx⟩
  · have hdone := bootstrap_done c a s hb
    rw [ho]
    refine ⟨(bootstrap_sound c a s).spec_eq, ⟨l1 ++ [g], l2, by rw [hl]; simp, ?_⟩, ?_⟩
    · show (bootstrap c a s).obj.Status.UserGroups ++ (l1 ++ [g]) = _
      rw [bootstrap_ug]
    · show Written (bootstrap c a s).obj.Status.Account ∨ _
      rcases (bootstrap_objs c a s).obj_adv with h | ⟨x, hx, h⟩
      · rw [h] at hdone ⊢
        exact Or.inr ⟨rfl, hdone⟩
      · rw [h]
        exact Or.inl hx

theorem Written_ne_user {state : AccountState} (h : Written state) : state ≠ CreatingUser := by
  rcases h with h | h | h <;> rw [h] <;> decide

theorem not_pending_ne_user {state : AccountState} (h : bootstrapPending state = false) :
    state ≠ CreatingUser := by
  intro hs
  rw [hs] at h
  exact absurd h (by decide)

theorem reconcileLoaded_addCalls_cases {σ : Type} (c : Collaborators σ) (a : AwsAccount) (s : σ) :
    ∃ l1 l2, (getDifference a.Spec.Groups a.Status.UserGroups).1 = l1 ++ l2 ∧
      addCalls (reconcileLoaded c a s).trace = l1.map (fun g => (g, a.Spec.UserName)) := by
  have hu : (bootstrap c a s).obj.Spec.UserName = a.Spec.UserName := by
    rw [(bootstrap_sound c a s).spec_eq]
  rcases reconcileLoaded_cases c a s with
    ⟨e2, _, heq⟩ | ⟨hb, ⟨herr, ht⟩ | ⟨l1, g2, l2, e2, hl, herr, ht | ht⟩⟩
  · exact ⟨[], _, rfl, by rw [heq, bootstrap_addCalls]; rfl⟩
  · exact ⟨_, [], (List.append_nil _).symm,
      by rw [ht, addCalls_append, bootstrap_addCalls, addCalls_joinedEvents, hu]; rfl⟩
  · refine ⟨l1 ++ [g2], l2, by rw [hl]; simp, ?_⟩
    rw [ht, addCalls_append, addCalls_append, bootstrap_addCalls, addCalls_joinedEvents, hu]
    simp [addCalls]
  · refine ⟨l1 ++ [g2], l2, by rw [hl]; simp, ?_⟩
    rw [ht, addCalls_append, addCalls_append, bootstrap_addCalls, addCalls_joinedEvents, hu]
    simp [addCalls]

theorem addCalls_get (res : Except Error AwsAccount) (trace : List Event) :
    addCalls (Event.Get res :: trace) = addCalls trace := rfl

theorem reconcileLoaded_idle {σ : Type} (c : Collaborators σ) (a : AwsAccount) (s : σ)
    (hst : bootstrapPending a.Status.Account = false)
    (hsync : ∀ g ∈ a.Spec.Groups, g ∈ a.Status.UserGroups) :
    reconcileLoaded c a s = ⟨none, a, [], s⟩ := by
  rw [reconcileLoaded_eq, bootstrap_noop c a s hst]
  simp [Outcome.andThen, stageGroups, toAdd_eq_nil _ _ hsync, addGroups]

theorem andThen_congr {σ : Type} {o1 o2 : Outcome σ} (next : AwsAccount → σ → Outcome σ)
    (he : o1.err = o2.err) (ht : o1.trace = o2.trace) (hw : o1.world = o2.world)
    (ho : o1.err = none → o1.obj = o2.obj) :
    (o1.andThen next).err = (o2.andThen next).err ∧
    (o1.andThen next).trace = (o2.andThen next).trace ∧
    (o1.andThen next).world = (o2.andThen next).world ∧
    ((o1.andThen next).err = none → (o1.andThen next).obj = (o2.andThen next).obj) := by
  cases h1 : o1.err with
  | some e =>
    have h2 : o2.err = some e := by rw [← he, h1]
    rw [andThen_err o1 next e h1, andThen_err o2 next e h2]
    exact ⟨he, ht, hw, ho⟩
  | none =>
    have h2 : o2.err = none := by rw [← he, h1]
    rw [andThen_ok o1 next h1, andThen_ok o2 next h2]
    simp only
    rw [← ho h1, ← hw, ← ht]
    exact ⟨rfl, rfl, rfl, fun _ => rfl⟩

theorem stageUser_from_user {σ : Type} (c : Collaborators σ) (spec : AwsAccountSpec)
    (ug : List String) (s : σ) :
    (stageUser c ⟨spec, ⟨CreatingUser, ug⟩⟩ s).err = (stageUser c ⟨spec, ⟨"", ug⟩⟩ s).err ∧
    (stageUser c ⟨spec, ⟨CreatingUser, ug⟩⟩ s).trace = (stageUser c ⟨spec, ⟨"", ug⟩⟩ s).trace ∧
    (stageUser c ⟨spec, ⟨CreatingUser, ug⟩⟩ s).world = (stageUser c ⟨spec, ⟨"", ug⟩⟩ s).world ∧
    ((stageUser c ⟨spec, ⟨CreatingUser, ug⟩⟩ s).err = none →
      (stageUser c ⟨spec, ⟨CreatingUser, ug⟩⟩ s).obj = (stageUser c ⟨spec, ⟨"", ug⟩⟩ s).obj) := by
  have hs : setAccount ⟨spec, ⟨CreatingUser, ug⟩⟩ CreatingLoginProfile =
      setAccount ⟨spec, ⟨"", ug⟩⟩ CreatingLoginProfile := rfl
  unfold stageUser
  simp only [true_or, or_true, if_true]
  rcases h1 : c.CreateUser spec.UserName s with ⟨e | user, w1⟩
  · simp
  · simp only [hs]
    rcases h2 : c.StatusUpdate (setAccount ⟨spec, ⟨"", ug⟩⟩ CreatingLoginProfile) w1 with
      ⟨_ | e, w2⟩ <;> simp

theorem reconcileLoaded_from_user {σ : Type} (c : Collaborators σ) (spec : AwsAccountSpec)
    (ug : List String) (s : σ) :
    (reconcileLoaded c ⟨spec, ⟨CreatingUser, ug⟩⟩ s).err =
      (reconcileLoaded c ⟨spec, ⟨"", ug⟩⟩ s).err ∧
    (reconcileLoaded c ⟨spec, ⟨CreatingUser, ug⟩⟩ s).trace =
      (reconcileLoaded c ⟨spec, ⟨"", ug⟩⟩ s).trace ∧
    (reconcileLoaded c ⟨spec, ⟨CreatingUser, ug⟩⟩ s).world =
      (reconcileLoaded c ⟨spec, ⟨"", ug⟩⟩ s).world := by
  obtain ⟨a1, a2, a3, a4⟩ := stageUser_from_user c spec ug s
  obtain ⟨b1, b2, b3, b4⟩ := andThen_congr (stageLoginProfile c) a1 a2 a3 a4
  obtain ⟨d1, d2, d3, d4⟩ := andThen_congr (stageAccessKey c) b1 b2 b3 b4
  obtain ⟨e1, e2, e3, _⟩ := andThen_congr (stageGroups c) d1 d2 d3 d4
  exact ⟨e1, e2, e3⟩

theorem reconcileLoaded_user_first {σ : Type} (c : Collaborators σ) (a : AwsAccount) (s : σ)
    (hact : a.Status.Account = CreatingUser ∨ a.Status.Account = "") :
    ∃ res rest, (reconcileLoaded c a s).trace = .CreateUser a.Spec.UserName res :: rest ∧
      (resErr res = none →
        ∃ err rest2, rest = .StatusUpdate (setAccount a CreatingLoginProfile) err :: rest2) := by
  unfold reconcileLoaded
  obtain ⟨r3, h3⟩ := andThen_trace_append
    (((stageUser c a s).andThen (stageLoginProfile c)).andThen (stageAccessKey c)) (stageGroups c)
  obtain ⟨r2, h2⟩ := andThen_trace_append
    ((stageUser c a s).andThen (stageLoginProfile c)) (stageAccessKey c)
  obtain ⟨r1, h1⟩ := andThen_trace_append (stageUser c a s) (stageLoginProfile c)
  rw [h3, h2, h1]
  rcases stageUser_shape c a s with
    ⟨hn, _⟩ | ⟨_, ⟨e, s1, h⟩ | ⟨user, e, s2, h⟩ | ⟨user, s2, h⟩⟩
  · exact absurd hact hn
  · rw [h]; exact ⟨_, _, rfl, by simp [resErr]⟩
  · rw [h]; exact ⟨_, _, rfl, fun _ => ⟨_, _, rfl⟩⟩
  · rw [h]; exact ⟨_, _, rfl, fun _ => ⟨_, _, rfl⟩⟩

/-! ## Steps: one wrapper call, one persist -/

theorem PairsAt_tail {R : AwsAccountStatus → Event → Event → Prop} {st : AwsAccountStatus}
    {x : Event} {rest : List Event} (h : PairsAt R st (x :: rest)) :
    PairsAt R (persistedStatus st [x]) rest := by
  cases rest with
  | nil => trivial
  | cons y r => exact h.2

theorem PairsAt_split {R : AwsAccountStatus → Event → Event → Prop} {st : AwsAccountStatus}
    {pre post : List Event} {x y : Event} (h : PairsAt R st (pre ++ x :: y :: post)) :
    R (persistedStatus st pre) x y := by
  induction pre generalizing st with
  | nil => exact h.1
  | cons p pre2 ih =>
    have h2 := ih (PairsAt_tail h)
    rwa [← persistedStatus_append st [p] pre2] at h2

theorem Carries_append {st : AwsAccountStatus} {t1 t2 : List Event}
    (h1 : PairsAt Carries st t1) (h2 : PairsAt Carries (persistedStatus st t1) t2)
    (hhead : ∀ y ∈ t2.head?, y.isPersist = false) : PairsAt Carries st (t1 ++ t2) := by
  induction t1 generalizing st with
  | nil => exact h2
  | cons x r ih =>
    cases r with
    | nil =>
      cases t2 with
      | nil => trivial
      | cons y r2 =>
        refine ⟨?_, h2⟩
        intro obj err hy
        have := hhead y (by simp)
        rw [hy] at this
        simp [Event.isPersist] at this
    | cons y r2 =>
      refine ⟨h1.1, ?_⟩
      have h3 : PairsAt Carries (persistedStatus (persistedStatus st [x]) (y :: r2)) t2 := by
        rw [← persistedStatus_append st [x] (y :: r2)]
        exact h2
      exact ih h1.2 h3

theorem Carries_andThen {σ : Type} {a : AwsAccount} {o : Outcome σ}
    {next : AwsAccount → σ → Outcome σ} (hs : Sound a o)
    (h1 : PairsAt Carries a.Status o.trace)
    (h2 : PairsAt Carries o.obj.Status (next o.obj o.world).trace)
    (hhead : ∀ y ∈ (next o.obj o.world).trace.head?, y.isPersist = false) :
    PairsAt Carries a.Status (o.andThen next).trace := by
  rcases andThen_cases o next with ⟨e, _, h⟩ | ⟨herr, _, _, _, ht⟩
  · rw [h]; exact h1
  · rw [ht]
    refine Carries_append h1 ?_ hhead
    rw [hs.ok_persisted herr]
    exact h2

theorem stageUser_steps {σ : Type} (c : Collaborators σ) (a : AwsAccount) (s : σ) :
    PairsAt Carries a.Status (stageUser c a s).trace := by
  rcases stageUser_shape c a s with
    ⟨hact, h⟩ | ⟨hact, ⟨e, s1, h⟩ | ⟨user, e, s2, h⟩ | ⟨user, s2, h⟩⟩ <;>
    rw [h] <;> simp [PairsAt, Carries, mutationOf, persistedStatus, setAccount]

theorem stageLoginProfile_steps {σ : Type} (c : Collaborators σ) (a : AwsAccount) (s : σ) :
    PairsAt Carries a.Status (stageLoginProfile c a s).trace := by
  rcases stageLoginProfile_shape c a s with
    ⟨hact, h⟩ | ⟨hact, ⟨e, s1, h⟩ | ⟨pass, e, s2, h⟩ | ⟨pass, e, s3, h⟩ | ⟨pass, s3, h⟩⟩ <;>
    rw [h] <;> simp [PairsAt, Carries, mutationOf, persistedStatus, setAccount]

theorem stageAccessKey_steps {σ : Type} (c : Collaborators σ) (a : AwsAccount) (s : σ) :
    PairsAt Carries a.Status (stageAccessKey c a s).trace := by
  rcases stageAccessKey_shape c a s with
    ⟨hact, h⟩ | ⟨hact, ⟨e, s1, h⟩ | ⟨key, e, s2, h⟩ | ⟨key, s2, h⟩⟩ <;>
    rw [h] <;> simp [PairsAt, Carries, mutationOf, persistedStatus, setAccount]

theorem addGroups_steps {σ : Type} (c : Collaborators σ) (l : List String) (a : AwsAccount)
    (s : σ) : PairsAt Carries a.Status (addGroups c l a s).trace := by
  induction l generalizing a s with
  | nil => trivial
  | cons group rest ih =>
    rcases h1 : c.AddUserToGroup group a.Spec.UserName s with ⟨_ | e1, s1⟩
    · rcases h2 : c.StatusUpdate (appendGroup a group) s1 with ⟨_ | e2, s2⟩
      · rw [addGroups_cons_next c group rest a s s1 s2 h1 h2]
        have hpair : PairsAt Carries a.Status
            [.AddUserToGroup group a.Spec.UserName none,
              .StatusUpdate (appendGroup a group) none] := by
          simp [PairsAt, Carries, mutationOf, appendGroup]
        exact Carries_append hpair (ih (appendGroup a group) s2)
          (addGroups_stepwise c rest (appendGroup a group) s2).head
      · rw [addGroups_cons_persistFail c group rest a s s1 s2 e2 h1 h2]
        simp [PairsAt, Carries, mutationOf, appendGroup]
    · rw [addGroups_cons_callFail c group rest a s s1 e1 h1]
      trivial

theorem reconcileLoaded_steps {σ : Type} (c : Collaborators σ) (a : AwsAccount) (s : σ) :
    PairsAt Carries a.Status (reconcileLoaded c a s).trace := by
  unfold reconcileLoaded
  have s1 := stageUser_sound c a s
  have s2 := Sound_andThen s1 (fun a2 s2 => stageLoginProfile_sound c a2 s2)
  have s3 := Sound_andThen s2 (fun a2 s2 => stageAccessKey_sound c a2 s2)
  have t1 := stageUser_steps c a s
  have t2 := Carries_andThen s1 t1 (stageLoginProfile_steps c _ _)
    (stageLoginProfile_stepwise c _ _).head
  have t3 := Carries_andThen s2 t2 (stageAccessKey_steps c _ _)
    (stageAccessKey_stepwise c _ _).head
  exact Carries_andThen s3 t3 (addGroups_steps c _ _ _) (addGroups_stepwise c _ _ _).head

theorem reconcileLoaded_persist_step {σ : Type} (c : Collaborators σ) (a : AwsAccount) (s : σ)
    (pre post : List Event) (obj : AwsAccount) (err : Option Error)
    (h : (reconcileLoaded c a s).trace = pre ++ .StatusUpdate obj err :: post) :
    ∃ pre2 x, pre = pre2 ++ [x] ∧ x.isProvisioning = true ∧ x.err = none ∧
      mutationOf (persistedStatus a.Status pre2) x = some obj.Status := by
  have hsw := reconcileLoaded_stepwise c a s
  rcases List.eq_nil_or_concat pre with hp | ⟨pre2, x, hp⟩
  · subst hp
    have := hsw.head (.StatusUpdate obj err) (by rw [h]; simp)
    simp [Event.isPersist] at this
  · rw [List.concat_eq_append] at hp
    subst hp
    have h2 : (reconcileLoaded c a s).trace = pre2 ++ x :: .StatusUpdate obj err :: post := by
      rw [h]; simp
    have hadj : Adjacent x (.StatusUpdate obj err) := by
      have hch := hsw.chain
      rw [h2, List.chain'_append] at hch
      exact (List.chain'_cons.1 hch.2.1).1
    have hprov := hadj.1 rfl
    have hst := reconcileLoaded_steps c a s
    rw [h2] at hst
    exact ⟨pre2, x, rfl, hprov.1, hprov.2, PairsAt_split hst obj err rfl⟩

theorem reconcileLoaded_call_step {σ : Type} (c : Collaborators σ) (a : AwsAccount) (s : σ)
    (pre post : List Event) (x : Event)
    (h : (reconcileLoaded c a s).trace = pre ++ x :: post)
    (hprov : x.isProvisioning = true) (hok : x.err = none) :
    ∃ obj err rest, post = .StatusUpdate obj err :: rest ∧
      mutationOf (persistedStatus a.Status pre) x = some obj.Status := by
  have hsw := reconcileLoaded_stepwise c a s
  have hs := reconcileLoaded_sound c a s
  cases post with
  | nil =>
    exfalso
    have hlast : (reconcileLoaded c a s).trace.getLast? = some x := by rw [h]; simp
    cases herr : (reconcileLoaded c a s).err with
    | none =>
      have := hsw.ok_last herr x hlast
      rw [not_persist_of_provisioning hprov] at this
      exact absurd this (by simp)
    | some e =>
      obtain ⟨p, ev, htr, hev, _⟩ := hs.fail_last e herr
      rw [htr] at hlast
      have : ev = x := by simpa using hlast
      rw [this, hok] at hev
      exact absurd hev (by simp)
  | cons y rest =>
    have hadj : Adjacent x y := by
      have hch := hsw.chain
      rw [h, List.chain'_append] at hch
      exact (List.chain'_cons.1 hch.2.1).1
    have hy := hadj.2 ⟨hprov, hok⟩
    cases y with
    | StatusUpdate obj err =>
      have hst := reconcileLoaded_steps c a s
      rw [h] at hst
      exact ⟨obj, err, rest, rfl, PairsAt_split hst obj err rfl⟩
    | _ => simp [Event.isPersist] at hy

theorem count_persist_tail (l : List Event) (hch : List.Chain' Adjacent l)
    (hlast : ∀ x ∈ l.getLast?, x.succeededCall = false) :
    l.tail.countP Event.isPersist = l.countP Event.succeededCall := by
  induction l with
  | nil => rfl
  | cons x r ih =>
    cases r with
    | nil =>
      have := hlast x (by simp)
      simp [this]
    | cons y r2 =>
      have hadj : Adjacent x y := (List.chain'_cons.1 hch).1
      have ih2 := ih (List.chain'_cons.1 hch).2 (by
        intro z hz
        exact hlast z (by simpa using hz))
      simp only [List.tail_cons] at ih2 ⊢
      rw [List.countP_cons, List.countP_cons (l := y :: r2), ih2]
      have hiff : y.isPersist = x.succeededCall := by
        unfold Adjacent at hadj
        cases hp : y.isPersist <;> cases hq : x.succeededCall <;>
          simp_all [Event.succeededCall]
      rw [hiff]

theorem reconcileLoaded_counts {σ : Type} (c : Collaborators σ) (a : AwsAccount) (s : σ) :
    (reconcileLoaded c a s).trace.countP Event.isPersist =
      (reconcileLoaded c a s).trace.countP Event.succeededCall := by
  have hsw := reconcileLoaded_stepwise c a s
  have hs := reconcileLoaded_sound c a s
  have hlast : ∀ x ∈ (reconcileLoaded c a s).trace.getLast?, x.succeededCall = false := by
    intro x hx
    cases herr : (reconcileLoaded c a s).err with
    | none =>
      have hp := hsw.ok_last herr x hx
      cases x <;> simp_all [Event.succeededCall, Event.isProvisioning, Event.isPersist]
    | some e =>
      obtain ⟨p, ev, htr, hev, _⟩ := hs.fail_last e herr
      rw [htr] at hx
      have : ev = x := by simpa using hx
      subst this
      simp [Event.succeededCall, hev]
  rw [← count_persist_tail _ hsw.chain hlast]
  cases htr : (reconcileLoaded c a s).trace with
  | nil => rfl
  | cons x r =>
    have := hsw.head x (by rw [htr]; simp)
    simp [List.countP_cons, this]

theorem split_after_get {res : Except Error AwsAccount} {tl pre post : List Event} {x : Event}
    (h : Event.Get res :: tl = pre ++ x :: post) (hx : ∀ r, x ≠ Event.Get r) :
    ∃ pre2, pre = Event.Get res :: pre2 ∧ tl = pre2 ++ x :: post := by
  cases pre with
  | nil =>
    simp only [List.nil_append, List.cons.injEq] at h
    exact absurd h.1.symm (hx res)
  | cons p pre2 =>
    simp only [List.cons_append, List.cons.injEq] at h
    exact ⟨pre2, by rw [h.1], h.2⟩

theorem joinedGroups_get (before : List String) (res : Except Error AwsAccount)
    (trace : List Event) :
    joinedGroups before (Event.Get res :: trace) = joinedGroups before trace := rfl

theorem joinedGroups_append (before : List String) (t1 t2 : List Event) (g : String)
    (h : g ∈ joinedGroups before t1) : g ∈ joinedGroups before (t1 ++ t2) := by
  unfold joinedGroups at h ⊢
  rw [List.filterMap_append]
  rcases List.mem_append.1 h with h | h
  · exact List.mem_append_left _ h
  · exact List.mem_append_right _ (List.mem_append_left _ h)

theorem joinedGroups_last (before : List String) (t : List Event) (g u : String) :
    g ∈ joinedGroups before (t ++ [Event.AddUserToGroup g u none]) := by
  unfold joinedGroups
  rw [List.filterMap_append]
  exact List.mem_append_right _ (List.mem_append_right _ (by simp))

theorem reconcileLoaded_persist_groups {σ : Type} (c : Collaborators σ) (a : AwsAccount) (s : σ)
    (pre post : List Event) (obj : AwsAccount) (err : Option Error)
    (h : (reconcileLoaded c a s).trace = pre ++ .StatusUpdate obj err :: post) :
    obj.Status.UserGroups = (persistedStatus a.Status pre).UserGroups ∨
    ∃ g u pre2, pre = pre2 ++ [.AddUserToGroup g u none] ∧
      obj.Status.UserGroups = (persistedStatus a.Status pre).UserGroups ++ [g] := by
  obtain ⟨pre2, x, hp, hprov, hok, hmut⟩ := reconcileLoaded_persist_step c a s pre post obj err h
  have hst : persistedStatus a.Status pre = persistedStatus a.Status pre2 := by
    rw [hp, persistedStatus_append,
      persistedStatus_not_persist _ _ (not_persist_of_provisioning hprov)]
  rw [hst]
  cases x with
  | AddUserToGroup g u r =>
    right
    simp only [Event.err] at hok
    subst hok
    simp only [mutationOf, Option.some.injEq] at hmut
    exact ⟨g, u, pre2, hp, by rw [← hmut]⟩
  | CreateUser u r =>
    left
    simp only [mutationOf, Option.some.injEq] at hmut
    rw [← hmut]
  | CreateLoginProfile p u m r =>
    left
    simp only [mutationOf, Option.some.injEq] at hmut
    rw [← hmut]
  | CreateAccessKeyPair u r =>
    left
    simp only [mutationOf, Option.some.injEq] at hmut
    rw [← hmut]
  | RemoveUserFromGroup g u r => simp [mutationOf] at hmut
  | Get r => simp [mutationOf] at hmut
  | StatusUpdate o r => simp [mutationOf] at hmut
  | Generate l d y nu ar r => simp [mutationOf] at hmut

theorem reconcileLoaded_stored_joined {σ : Type} (c : Collaborators σ) (a : AwsAccount) (s : σ)
    (before : List String) (hsub : ∀ g ∈ a.Status.UserGroups, g ∈ before)
    (pre post : List Event) (h : (reconcileLoaded c a s).trace = pre ++ post) :
    ∀ g ∈ (persistedStatus a.Status pre).UserGroups, g ∈ joinedGroups before pre := by
  induction pre using List.reverseRecOn generalizing post with
  | nil =>
    intro g hg
    exact List.mem_append_left _ (hsub g hg)
  | append_singleton p ev ih =>
    have h2 : (reconcileLoaded c a s).trace = p ++ ev :: post := by rw [h]; simp
    have ihp := ih (ev :: post) h2
    intro g hg
    rw [persistedStatus_append] at hg
    cases ev with
    | StatusUpdate obj err =>
      cases err with
      | some e =>
        exact joinedGroups_append _ _ _ g (ihp g hg)
      | none =>
        have hg2 : g ∈ obj.Status.UserGroups := hg
        rcases reconcileLoaded_persist_groups c a s p post obj none h2 with hu | ⟨g2, u, p2, hp, hu⟩
        · rw [hu] at hg2
          exact joinedGroups_append _ _ _ g (ihp g hg2)
        · rw [hu] at hg2
          rcases List.mem_append.1 hg2 with hg3 | hg3
          · exact joinedGroups_append _ _ _ g (ihp g hg3)
          · have : g = g2 := by simpa using hg3
            subst this
            rw [hp]
            exact joinedGroups_append _ _ _ g (joinedGroups_last before p2 g u)
    | _ => exact joinedGroups_append _ _ _ g (ihp g hg)

/-! ## Two runs side by side -/

theorem persists_append (t1 t2 : List Event) :
    persists (t1 ++ t2) = persists t1 ++ persists t2 := by
  simp [persists, List.filterMap_append]

theorem Lockstep_andThen {f g : (σ : Type) → Collaborators σ → AwsAccount → σ → Outcome σ}
    (hf : Lockstep f) (hg : Lockstep g) :
    Lockstep (fun σ c a s => (f σ c a s).andThen (g σ c)) := by
  intro σ1 σ2 c1 c2 a s1 s2 rest1 rest2 hpat h1 h2
  dsimp only at hpat h1 h2 ⊢
  rcases andThen_cases (f σ1 c1 a s1) (g σ1 c1) with
    ⟨e1, he1, heq1⟩ | ⟨hn1, herr1, hobj1, _, htr1⟩ <;>
  rcases andThen_cases (f σ2 c2 a s2) (g σ2 c2) with
    ⟨e2, he2, heq2⟩ | ⟨hn2, herr2, hobj2, _, htr2⟩
  · rw [heq1] at hpat h1 ⊢
    rw [heq2] at hpat h2 ⊢
    exact hf σ1 σ2 c1 c2 a s1 s2 rest1 rest2 hpat h1 h2
  · rw [heq1] at hpat h1
    rw [htr2, List.map_append, List.append_assoc] at hpat
    have := (hf σ1 σ2 c1 c2 a s1 s2 rest1 _ hpat h1 (fun h => absurd hn2 h)).1
    rw [he1, hn2] at this
    exact absurd this (by simp)
  · rw [heq2] at hpat h2
    rw [htr1, List.map_append, List.append_assoc] at hpat
    have := (hf σ1 σ2 c1 c2 a s1 s2 _ rest2 hpat (fun h => absurd hn1 h) h2).1
    rw [he2, hn1] at this
    exact absurd this (by simp)
  · rw [htr1, htr2, List.map_append, List.map_append, List.append_assoc, List.append_assoc]
      at hpat
    obtain ⟨_, ho, hp, hst, hrest⟩ := hf σ1 σ2 c1 c2 a s1 s2 _ _ hpat
      (fun h => absurd hn1 h) (fun h => absurd hn2 h)
    rw [herr1] at h1
    rw [herr2] at h2
    rw [← ho] at hrest h2 herr2 hobj2 htr2
    obtain ⟨ge, go, gp, gst, grest⟩ :=
      hg σ1 σ2 c1 c2 (f σ1 c1 a s1).obj (f σ1 c1 a s1).world (f σ2 c2 a s2).world
        rest1 rest2 hrest h1 h2
    refine ⟨by rw [herr1, herr2, ge], by rw [hobj1, hobj2, go], ?_, ?_, grest⟩
    · rw [htr1, htr2, persists_append, persists_append, hp, gp]
    · intro st
      rw [htr1, htr2, persistedStatus_append, persistedStatus_append, hst st, gst]

theorem stageUser_lockstep : Lockstep (fun _ c a s => stageUser c a s) := by
  intro σ1 σ2 c1 c2 a s1 s2 rest1 rest2 hpat h1 h2
  dsimp only at hpat h1 h2 ⊢
  rcases stageUser_shape c1 a s1 with
    ⟨hact1, e1⟩ | ⟨hact1, ⟨x1, w1, e1⟩ | ⟨u1, x1, w1, e1⟩ | ⟨u1, w1, e1⟩⟩ <;>
  rcases stageUser_shape c2 a s2 with
    ⟨hact2, e2⟩ | ⟨hact2, ⟨x2, w2, e2⟩ | ⟨u2, x2, w2, e2⟩ | ⟨u2, w2, e2⟩⟩ <;>
  first
    | exact absurd hact1 hact2
    | exact absurd hact2 hact1
    | (rw [e1] at hpat h1 ⊢
       rw [e2] at hpat h2 ⊢
       simp_all [persists, persistedStatus, Event.failed, Event.err, resErr])

theorem stageLoginProfile_lockstep : Lockstep (fun _ c a s => stageLoginProfile c a s) := by
  intro σ1 σ2 c1 c2 a s1 s2 rest1 rest2 hpat h1 h2
  dsimp only at hpat h1 h2 ⊢
  rcases stageLoginProfile_shape c1 a s1 with
    ⟨hact1, e1⟩ | ⟨hact1, ⟨x1, w1, e1⟩ | ⟨p1, x1, w1, e1⟩ | ⟨p1, x1, w1, e1⟩ | ⟨p1, w1, e1⟩⟩ <;>
  rcases stageLoginProfile_shape c2 a s2 with
    ⟨hact2, e2⟩ | ⟨hact2, ⟨x2, w2, e2⟩ | ⟨p2, x2, w2, e2⟩ | ⟨p2, x2, w2, e2⟩ | ⟨p2, w2, e2⟩⟩ <;>
  first
    | exact absurd hact1 hact2
    | exact absurd hact2 hact1
    | (rw [e1] at hpat h1 ⊢
       rw [e2] at hpat h2 ⊢
       simp_all [persists, persistedStatus, Event.failed, Event.err, resErr])

theorem stageAccessKey_lockstep : Lockstep (fun _ c a s => stageAccessKey c a s) := by
  intro σ1 σ2 c1 c2 a s1 s2 rest1 rest2 hpat h1 h2
  dsimp only at hpat h1 h2 ⊢
  rcases stageAccessKey_shape c1 a s1 with
    ⟨hact1, e1⟩ | ⟨hact1, ⟨x1, w1, e1⟩ | ⟨k1, x1, w1, e1⟩ | ⟨k1, w1, e1⟩⟩ <;>
  rcases stageAccessKey_shape c2 a s2 with
    ⟨hact2, e2⟩ | ⟨hact2, ⟨x2, w2, e2⟩ | ⟨k2, x2, w2, e2⟩ | ⟨k2, w2, e2⟩⟩ <;>
  first
    | exact absurd hact1 hact2
    | exact absurd hact2 hact1
    | (rw [e1] at hpat h1 ⊢
       rw [e2] at hpat h2 ⊢
       simp_all [persists, persistedStatus, Event.failed, Event.err, resErr])

theorem addGroups_step_shape {σ : Type} (c : Collaborators σ) (group : String)
    (rest : List String) (a : AwsAccount) (s : σ) :
    (∃ e w, addGroups c (group :: rest) a s =
        ⟨some e, a, [.AddUserToGroup group a.Spec.UserName (some e)], w⟩) ∨
    (∃ e w, addGroups c (group :: rest) a s =
        ⟨some e, appendGroup a group, [.AddUserToGroup group a.Spec.UserName none,
          .StatusUpdate (appendGroup a group) (some e)], w⟩) ∨
    (∃ w, addGroups c (group :: rest) a s =
        (Outcome.mk none (appendGroup a group)
          [.AddUserToGroup group a.Spec.UserName none, .StatusUpdate (appendGroup a group) none]
          w).andThen (addGroups c rest)) := by
  rcases h1 : c.AddUserToGroup group a.Spec.UserName s with ⟨_ | e1, w1⟩
  · rcases h2 : c.StatusUpdate (appendGroup a group) w1 with ⟨_ | e2, w2⟩
    · exact Or.inr (Or.inr ⟨w2, addGroups_cons_ok c group rest a s w1 w2 h1 h2⟩)
    · exact Or.inr (Or.inl ⟨e2, w2, addGroups_cons_persistFail c group rest a s w1 w2 e2 h1 h2⟩)
  · exact Or.inl ⟨e1, w1, addGroups_cons_callFail c group rest a s w1 e1 h1⟩

theorem addGroups_lockstep (l : List String) : Lockstep (fun _ c a s => addGroups c l a s) := by
  induction l with
  | nil =>
    intro σ1 σ2 c1 c2 a s1 s2 rest1 rest2 hpat h1 h2
    simpa [addGroups] using hpat
  | cons group rest ih =>
    intro σ1 σ2 c1 c2 a s1 s2 rest1 rest2 hpat h1 h2
    dsimp only at hpat h1 h2 ⊢
    rcases addGroups_step_shape c1 group rest a s1 with
      ⟨x1, w1, e1⟩ | ⟨x1, w1, e1⟩ | ⟨w1, e1⟩ <;>
    rcases addGroups_step_shape c2 group rest a s2 with
      ⟨x2, w2, e2⟩ | ⟨x2, w2, e2⟩ | ⟨w2, e2⟩
    case inr.inr.intro.inr.inr.intro =>
      rw [e1] at hpat h1 ⊢
      rw [e2] at hpat h2 ⊢
      simp only [Outcome.andThen] at hpat h1 h2 ⊢
      simp only [List.map_append, List.map_cons, List.map_nil, List.cons_append,
        List.nil_append, List.cons.injEq, true_and, Event.failed, Event.err,
        Option.isSome_none] at hpat
      obtain ⟨ge, go, gp, gst, grest⟩ :=
        ih σ1 σ2 c1 c2 (appendGroup a group) w1 w2 rest1 rest2 hpat h1 h2
      refine ⟨ge, go, ?_, ?_, grest⟩
      · simp only [persists, List.filterMap_append] at gp ⊢
        simp [gp]
      · intro st
        simp only [List.cons_append, List.nil_append, persistedStatus]
        exact gst _
    all_goals
      rw [e1] at hpat h1 ⊢
      rw [e2] at hpat h2 ⊢
      simp_all [Outcome.andThen, persists, persistedStatus, Event.failed, Event.err]

theorem stageGroups_lockstep : Lockstep (fun _ c a s => stageGroups c a s) := by
  intro σ1 σ2 c1 c2 a s1 s2 rest1 rest2 hpat h1 h2
  exact addGroups_lockstep _ σ1 σ2 c1 c2 a s1 s2 rest1 rest2 hpat h1 h2

theorem reconcileLoaded_lockstep : Lockstep (fun _ c a s => reconcileLoaded c a s) :=
  Lockstep_andThen (Lockstep_andThen (Lockstep_andThen stageUser_lockstep
    stageLoginProfile_lockstep) stageAccessKey_lockstep) stageGroups_lockstep

theorem persists_get (res : Except Error AwsAccount) (trace : List Event) :
    persists (Event.Get res :: trace) = persists trace := rfl

theorem mem_persists {trace : List Event} {obj : AwsAccount} (h : obj ∈ persists trace) :
    ∃ err, Event.StatusUpdate obj err ∈ trace := by
  unfold persists at h
  rw [List.mem_filterMap] at h
  obtain ⟨ev, hev, hobj⟩ := h
  cases ev with
  | StatusUpdate o err =>
    simp only [Option.some.injEq] at hobj
    subst hobj
    exact ⟨err, hev⟩
  | _ => simp at hobj

/-! ## The stored state never moves backward -/

theorem Justified_persist_le {spec : AwsAccountSpec} {st : AwsAccountStatus} {obj : AwsAccount}
    {err : Option Error} (h : Justified spec st (.StatusUpdate obj err)) :
    stateLE st.Account obj.Status.Account = true := by
  rcases h.2 with ⟨_, ⟨hst, ho⟩ | ⟨hst, ho⟩ | ⟨hst, ho⟩⟩ | ⟨ho, _⟩
  · rw [ho]; exact stateLE_user _ hst
  · rw [ho, hst]; exact stateLE_login
  · rw [ho, hst]; exact stateLE_key
  · rw [ho]; exact stateLE_refl _

theorem Justified_single_le {spec : AwsAccountSpec} {st : AwsAccountStatus} {ev : Event}
    (h : Justified spec st ev) : StatusLE st (persistedStatus st [ev]) := by
  cases ev with
  | StatusUpdate obj err =>
    cases err with
    | none => exact Justified_persist_le h
    | some e => exact stateLE_refl _
  | _ => exact stateLE_refl _

theorem storedOver_head (st : AwsAccountStatus) (t : List Event) : st ∈ storedOver st t := by
  cases t <;> simp [storedOver]

theorem storedOver_mono {spec : AwsAccountSpec} {st : AwsAccountStatus} {t : List Event}
    (h : EachAt (Justified spec) st t) :
    (∀ x ∈ storedOver st t, StatusLE st x ∧ StatusLE x (persistedStatus st t)) ∧
    (storedOver st t).Pairwise StatusLE := by
  induction t generalizing st with
  | nil =>
    constructor
    · intro x hx
      have : x = st := by simpa [storedOver] using hx
      subst this
      exact ⟨stateLE_refl _, stateLE_refl _⟩
    · simp [storedOver]
  | cons ev rest ih =>
    obtain ⟨hall, hpair⟩ := ih h.2
    have hstep : StatusLE st (persistedStatus st [ev]) := Justified_single_le h.1
    have hend : persistedStatus st (ev :: rest) =
        persistedStatus (persistedStatus st [ev]) rest := persistedStatus_append st [ev] rest
    have hfirst := hall _ (storedOver_head (persistedStatus st [ev]) rest)
    constructor
    · intro x hx
      simp only [storedOver, List.mem_cons] at hx
      rw [hend]
      rcases hx with hx | hx
      · subst hx
        exact ⟨stateLE_refl _, stateLE_trans hstep hfirst.2⟩
      · exact ⟨stateLE_trans hstep (hall x hx).1, (hall x hx).2⟩
    · simp only [storedOver, List.pairwise_cons]
      exact ⟨fun x hx => stateLE_trans hstep (hall x hx).1, hpair⟩

theorem storedHistory_mono {σ : Type} (c : Collaborators σ) (specs : List AwsAccountSpec)
    (st : AwsAccountStatus) (s : σ) :
    (∀ x ∈ storedHistory c specs st s, StatusLE st x) ∧
    (storedHistory c specs st s).Pairwise StatusLE := by
  induction specs generalizing st s with
  | nil =>
    constructor
    · intro x hx
      have : x = st := by simpa [storedHistory] using hx
      subst this
      exact stateLE_refl _
    · simp [storedHistory]
  | cons spec rest ih =>
    obtain ⟨hall, hpair⟩ := ih (persistedStatus st (reconcileLoaded c ⟨spec, st⟩ s).trace)
      (reconcileLoaded c ⟨spec, st⟩ s).world
    obtain ⟨hrun, hrunpair⟩ :=
      storedOver_mono (reconcileLoaded_stepwise c ⟨spec, st⟩ s).justified
    constructor
    · intro x hx
      simp only [storedHistory, List.mem_append] at hx
      rcases hx with hx | hx
      · exact (hrun x hx).1
      · exact stateLE_trans (hrun _ (storedOver_head _ _)).2 (hall x hx)
    · simp only [storedHistory, List.pairwise_append]
      exact ⟨hrunpair, hpair, fun x hx y hy => stateLE_trans (hrun x hx).2 (hall y hy)⟩

/-! ## The stored status is the replay of the completed steps -/

theorem replay_append (st : AwsAccountStatus) (p q : List Event) :
    replay st (p ++ q) = replay (replay st p) q := by
  induction p generalizing st with
  | nil => rfl
  | cons ev rest ih => exact ih _

theorem replay_skip (st : AwsAccountStatus) (ev : Event) (h : ev.isProvisioning = false) :
    replay st [ev] = st := by
  simp [replay, Event.succeededCall, h]

theorem replay_get (st : AwsAccountStatus) (res : Except Error AwsAccount)
    (trace : List Event) : replay st (Event.Get res :: trace) = replay st trace := rfl

theorem replay_step (st m : AwsAccountStatus) (x : Event) (hp : x.isProvisioning = true)
    (he : x.err = none) (hm : mutationOf st x = some m) : replay st [x] = m := by
  simp [replay, Event.succeededCall, hp, he, hm]

theorem Justified_not_marked {spec : AwsAccountSpec} {st m : AwsAccountStatus} {x : Event}
    (hj : Justified spec st x) (hm : mutationOf st x = some m) : m ≠ st := by
  intro heq
  subst heq
  cases x with
  | CreateUser u res =>
    have h : (⟨CreatingLoginProfile, m.UserGroups⟩ : AwsAccountStatus) = m := by
      simpa [mutationOf] using hm
    have ha : CreatingLoginProfile = m.Account := congrArg AwsAccountStatus.Account h
    rcases hj.2 with h2 | h2 <;> rw [← ha] at h2 <;> revert h2 <;> decide
  | CreateLoginProfile pw u mc err =>
    have h : (⟨CreatingAccessKey, m.UserGroups⟩ : AwsAccountStatus) = m := by
      simpa [mutationOf] using hm
    have ha : CreatingAccessKey = m.Account := congrArg AwsAccountStatus.Account h
    have h2 := hj.2.2
    rw [← ha] at h2
    revert h2
    decide
  | CreateAccessKeyPair u res =>
    have h : (⟨Created, m.UserGroups⟩ : AwsAccountStatus) = m := by
      simpa [mutationOf] using hm
    have ha : Created = m.Account := congrArg AwsAccountStatus.Account h
    have h2 := hj.2
    rw [← ha] at h2
    revert h2
    decide
  | AddUserToGroup g u err =>
    have h : (⟨m.Account, m.UserGroups ++ [g]⟩ : AwsAccountStatus) = m := by
      simpa [mutationOf] using hm
    have hg : m.UserGroups ++ [g] = m.UserGroups := congrArg AwsAccountStatus.UserGroups h
    have := congrArg List.length hg
    simp at this
  | _ => simp [mutationOf] at hm

theorem reconcileLoaded_replay {σ : Type} (c : Collaborators σ) (a : AwsAccount) (s : σ)
    (n : Nat) : ∀ p q : List Event, p.length ≤ n →
      (reconcileLoaded c a s).trace = p ++ q → (∀ x ∈ p, x.err = none) →
      (∀ y ∈ q.head?, y.isPersist = false) →
      persistedStatus a.Status p = replay a.Status p := by
  induction n with
  | zero =>
    intro p q hl _ _ _
    have : p = [] := List.length_eq_zero.1 (Nat.le_zero.1 hl)
    subst this
    rfl
  | succ n ih =>
    intro p q hl ht hok hq
    rcases List.eq_nil_or_concat p with hp | ⟨p1, y, hp⟩
    · subst hp; rfl
    · rw [List.concat_eq_append] at hp
      subst hp
      have hl1 : p1.length ≤ n := by
        simp only [List.length_append, List.length_singleton] at hl
        omega
      have hy : y.err = none := hok y (by simp)
      have ht1 : (reconcileLoaded c a s).trace = p1 ++ y :: q := by rw [ht]; simp
      cases hprov : y.isProvisioning with
      | true =>
        exfalso
        obtain ⟨obj, err, rest, hpost, _⟩ :=
          reconcileLoaded_call_step c a s p1 q y ht1 hprov hy
        subst hpost
        have := hq (.StatusUpdate obj err) (by simp)
        simp [Event.isPersist] at this
      | false =>
        cases hpers : y.isPersist with
        | false =>
          have ih1 := ih p1 (y :: q) hl1 ht1 (fun z hz => hok z (by simp [hz]))
            (by intro z hz; simp at hz; subst hz; exact hpers)
          rw [persistedStatus_append, replay_append, persistedStatus_not_persist _ _ hpers,
            replay_skip _ _ hprov, ih1]
        | true =>
          cases y with
          | StatusUpdate obj err =>
            have herr : err = none := hy
            subst herr
            obtain ⟨p2, x, hp1, hxp, hxe, hmut⟩ :=
              reconcileLoaded_persist_step c a s p1 q obj none ht1
            subst hp1
            have hl2 : p2.length ≤ n := by
              simp only [List.length_append, List.length_singleton] at hl1
              omega
            have ih2 := ih p2 (x :: .StatusUpdate obj none :: q) hl2 (by rw [ht]; simp)
              (fun z hz => hok z (by simp [hz]))
              (by intro z hz; simp at hz; subst hz; exact not_persist_of_provisioning hxp)
            rw [ih2] at hmut
            rw [persistedStatus_append, replay_append, replay_append,
              replay_step _ _ x hxp hxe hmut, replay_skip _ _ hprov]
            rfl
          | _ => simp [Event.isPersist] at hpers

theorem reconcileLoaded_failed_step {σ : Type} (c : Collaborators σ) (a : AwsAccount) (s : σ)
    (pre : List Event) (ev : Event) (e : Error)
    (htr : (reconcileLoaded c a s).trace = pre ++ [ev]) (hpre : ∀ x ∈ pre, x.err = none)
    (hev : ev.err = some e) :
    (ev.isPersist = false →
      persistedStatus a.Status pre = replay a.Status pre ∧
      Justified a.Spec (persistedStatus a.Status pre) ev ∧
      ∀ m, mutationOf (persistedStatus a.Status pre) ev = some m →
        m ≠ persistedStatus a.Status pre) ∧
    (∀ obj, ev = .StatusUpdate obj (some e) →
      ∃ pre2 x, pre = pre2 ++ [x] ∧ x.isProvisioning = true ∧ x.err = none ∧
        persistedStatus a.Status pre = persistedStatus a.Status pre2 ∧
        persistedStatus a.Status pre2 = replay a.Status pre2 ∧
        Justified a.Spec (persistedStatus a.Status pre2) x ∧
        mutationOf (persistedStatus a.Status pre2) x = some obj.Status ∧
        obj.Status ≠ persistedStatus a.Status pre2) := by
  have hj := (reconcileLoaded_stepwise c a s).justified
  constructor
  · intro hnp
    have hjev : Justified a.Spec (persistedStatus a.Status pre) ev := by
      rw [htr] at hj
      exact EachAt_split hj
    exact ⟨reconcileLoaded_replay c a s pre.length pre [ev] (Nat.le_refl _) htr hpre
        (by intro y hy; simp at hy; subst hy; exact hnp),
      hjev, fun m hm => Justified_not_marked hjev hm⟩
  · intro obj hobj
    subst hobj
    obtain ⟨pre2, x, hp, hxp, hxe, hmut⟩ :=
      reconcileLoaded_persist_step c a s pre [] obj (some e) htr
    subst hp
    have htr2 : (reconcileLoaded c a s).trace =
        pre2 ++ x :: [Event.StatusUpdate obj (some e)] := by rw [htr]; simp
    have hjx : Justified a.Spec (persistedStatus a.Status pre2) x := by
      rw [htr2] at hj
      exact EachAt_split hj
    refine ⟨pre2, x, rfl, hxp, hxe, ?_, ?_, hjx, hmut, Justified_not_marked hjx hmut⟩
    · rw [persistedStatus_append,
        persistedStatus_not_persist _ _ (not_persist_of_provisioning hxp)]
    · exact reconcileLoaded_replay c a s pre2.length pre2 _ (Nat.le_refl _) htr2
        (fun z hz => hpre z (by simp [hz]))
        (by intro y hy; simp at hy; subst hy; exact not_persist_of_provisioning hxp)

/-! ## Claims on the reconciler -/

/-- C5: when a call of the wrapper, of the password generator or of the status
update fails during an invocation that loaded the resource `a`, the invocation
returns that error, the failed call is the last call it makes, and the status
the store holds is the one it held before the failed call, which is the one it
held when the failing step began. That status is tied to the failing step.
When the failed call is a wrapper or generator call, the stored status is what
the steps of the earlier successful wrapper calls wrote, one after the other,
from the loaded status (none rolled back, none skipped), the failed call is the
one due in that stored state, and the stored status is not the one the failed
step would have written. When the failed call is a status update, the call just
before it is the successful wrapper call of the step, the stored status is the
one held before that wrapper call and what the earlier steps wrote, the wrapper
call was due in that stored state, the update carried the status of the step,
and the stored status is not that status: the step is not marked complete. -/
theorem Reconcile_failure_aborts {σ : Type} (c : Collaborators σ) (s s1 : σ) (a : AwsAccount)
    (hget : c.Get s = (Except.ok a, s1)) (ev : Event) (e : Error)
    (hmem : ev ∈ (Reconcile c s).trace) (hfail : ev.err = some e) :
    (Reconcile c s).err = some e ∧
    ∃ pre, (Reconcile c s).trace = pre ++ [ev] ∧ (∀ x ∈ pre, x.err = none) ∧
      persistedStatus a.Status (Reconcile c s).trace = persistedStatus a.Status pre ∧
      persistedStatus a.Status (Reconcile c s).trace =
        persistedStatus a.Status (stepStart pre) ∧
      (ev.isPersist = false →
        persistedStatus a.Status (Reconcile c s).trace = replay a.Status pre ∧
        Justified a.Spec (persistedStatus a.Status (Reconcile c s).trace) ev ∧
        ∀ m, mutationOf (persistedStatus a.Status (Reconcile c s).trace) ev = some m →
          m ≠ persistedStatus a.Status (Reconcile c s).trace) ∧
      (∀ obj, ev = .StatusUpdate obj (some e) →
        ∃ pre2 x, pre = pre2 ++ [x] ∧ x.isProvisioning = true ∧ x.err = none ∧
          persistedStatus a.Status (Reconcile c s).trace = persistedStatus a.Status pre2 ∧
          persistedStatus a.Status (Reconcile c s).trace = replay a.Status pre2 ∧
          Justified a.Spec (persistedStatus a.Status (Reconcile c s).trace) x ∧
          mutationOf (persistedStatus a.Status (Reconcile c s).trace) x = some obj.Status ∧
          obj.Status ≠ persistedStatus a.Status (Reconcile c s).trace) := by
  have hs := reconcileLoaded_sound c a s1
  rw [Reconcile_of_get c s s1 a hget] at hmem ⊢
  simp only [List.mem_cons] at hmem
  have hmem2 : ev ∈ (reconcileLoaded c a s1).trace := by
    rcases hmem with h | h
    · subst h; simp [Event.err, resErr] at hfail
    · exact h
  cases herr : (reconcileLoaded c a s1).err with
  | none =>
    have := hs.ok_events herr ev hmem2
    rw [this] at hfail
    exact absurd hfail (by simp)
  | some e2 =>
    obtain ⟨pre, ev2, htr, hev2, hpre⟩ := hs.fail_last e2 herr
    have hev : ev = ev2 := by
      rw [htr] at hmem2
      rcases List.mem_append.1 hmem2 with h | h
      · have := hpre ev h
        rw [this] at hfail
        exact absurd hfail (by simp)
      · simpa using h
    subst hev
    have he : e2 = e := by
      rw [hev2] at hfail
      exact Option.some.inj hfail
    subst he
    have hp : persistedStatus a.Status (Event.Get (Except.ok a) :: (pre ++ [ev])) =
        persistedStatus a.Status pre := by
      rw [persistedStatus_get, persistedStatus_append, persistedStatus_failed _ ev e2 hev2]
    obtain ⟨hcall, hpersist⟩ := reconcileLoaded_failed_step c a s1 pre ev e2 htr hpre hev2
    refine ⟨rfl, Event.Get (Except.ok a) :: pre, ?_, ?_, ?_, ?_, ?_, ?_⟩
    · simp [htr]
    · intro x hx
      rcases List.mem_cons.1 hx with h | h
      · subst h; simp [Event.err, resErr]
      · exact hpre x h
    · simp only [htr]; rw [hp, persistedStatus_get]
    · simp only [htr]; rw [hp, persistedStatus_stepStart, persistedStatus_get]
    · intro hnp
      simp only [htr]
      rw [hp, replay_get]
      exact hcall hnp
    · intro obj hobj
      obtain ⟨pre2, x, hp2, hxp, hxe, h1, h2, h3, h4, h5⟩ := hpersist obj hobj
      simp only [htr]
      rw [hp]
      refine ⟨Event.Get (Except.ok a) :: pre2, x, by rw [hp2]; rfl, hxp, hxe, ?_, ?_, ?_, ?_, ?_⟩
      · rw [persistedStatus_get]; exact h1
      · rw [replay_get, h1]; exact h2
      · rw [h1]; exact h3
      · rw [h1]; exact h4
      · rw [h1]; exact h5

theorem Reconcile_failure_aborts_witness :
    (Reconcile failingPersist 0).err = some ⟨"update", false⟩ ∧
    ∃ pre, (Reconcile failingPersist 0).trace =
        pre ++ [Event.StatusUpdate (demoAccount CreatingAccessKey ["a"] [])
          (some ⟨"update", false⟩)] ∧
      (∀ x ∈ pre, x.err = none) ∧
      persistedStatus (demoAccount "" ["a"] []).Status (Reconcile failingPersist 0).trace =
        persistedStatus (demoAccount "" ["a"] []).Status pre ∧
      persistedStatus (demoAccount "" ["a"] []).Status (Reconcile failingPersist 0).trace =
        persistedStatus (demoAccount "" ["a"] []).Status (stepStart pre) ∧
      ((Event.StatusUpdate (demoAccount CreatingAccessKey ["a"] [])
          (some ⟨"update", false⟩)).isPersist = false →
        persistedStatus (demoAccount "" ["a"] []).Status (Reconcile failingPersist 0).trace =
          replay (demoAccount "" ["a"] []).Status pre ∧
        Justified (demoAccount "" ["a"] []).Spec
          (persistedStatus (demoAccount "" ["a"] []).Status (Reconcile failingPersist 0).trace)
          (Event.StatusUpdate (demoAccount CreatingAccessKey ["a"] [])
            (some ⟨"update", false⟩)) ∧
        ∀ m, mutationOf
            (persistedStatus (demoAccount "" ["a"] []).Status
              (Reconcile failingPersist 0).trace)
            (Event.StatusUpdate (demoAccount CreatingAccessKey ["a"] [])
              (some ⟨"update", false⟩)) = some m →
          m ≠ persistedStatus (demoAccount "" ["a"] []).Status
            (Reconcile failingPersist 0).trace) ∧
      (∀ obj, Event.StatusUpdate (demoAccount CreatingAccessKey ["a"] [])
          (some ⟨"update", false⟩) = .StatusUpdate obj (some ⟨"update", false⟩) →
        ∃ pre2 x, pre = pre2 ++ [x] ∧ x.isProvisioning = true ∧ x.err = none ∧
          persistedStatus (demoAccount "" ["a"] []).Status (Reconcile failingPersist 0).trace =
            persistedStatus (demoAccount "" ["a"] []).Status pre2 ∧
          persistedStatus (demoAccount "" ["a"] []).Status (Reconcile failingPersist 0).trace =
            replay (demoAccount "" ["a"] []).Status pre2 ∧
          Justified (demoAccount "" ["a"] []).Spec
            (persistedStatus (demoAccount "" ["a"] []).Status
              (Reconcile failingPersist 0).trace) x ∧
          mutationOf
            (persistedStatus (demoAccount "" ["a"] []).Status
              (Reconcile failingPersist 0).trace) x = some obj.Status ∧
          obj.Status ≠ persistedStatus (demoAccount "" ["a"] []).Status
            (Reconcile failingPersist 0).trace) :=
  Reconcile_failure_aborts failingPersist 0 1 (demoAccount "" ["a"] []) rfl
    (Event.StatusUpdate (demoAccount CreatingAccessKey ["a"] []) (some ⟨"update", false⟩))
    ⟨"update", false⟩ (by decide) rfl

/-- C7: in the order New, CreatingUser, CreatingLoginProfile,
CreatingAccessKey, Created, the empty state counting as New, every account state an invocation passes to the
status update is the state the resource had when loaded or a later one, and is
the state the store holds at that moment or a later one; so the statuses the
store holds in turn during the invocation never move backward. Over any
sequence of invocations, each loading what the previous ones stored, the stored
state at the end is never before the initial one, and the statuses the store
holds in turn over the whole sequence never move backward. -/
theorem Reconcile_state_monotone {σ : Type} (c : Collaborators σ) :
    (∀ (s s1 : σ) (a : AwsAccount), c.Get s = (Except.ok a, s1) →
      ∀ obj err, Event.StatusUpdate obj err ∈ (Reconcile c s).trace →
        stateLE a.Status.Account obj.Status.Account = true) ∧
    (∀ (s s1 : σ) (a : AwsAccount), c.Get s = (Except.ok a, s1) →
      ∀ pre obj err post, (Reconcile c s).trace = pre ++ .StatusUpdate obj err :: post →
        stateLE (persistedStatus a.Status pre).Account obj.Status.Account = true) ∧
    (∀ (s s1 : σ) (a : AwsAccount), c.Get s = (Except.ok a, s1) →
      (storedOver a.Status (Reconcile c s).trace).Pairwise
        (fun x y => stateLE x.Account y.Account = true)) ∧
    (∀ (specs : List AwsAccountSpec) (st : AwsAccountStatus) (s : σ),
      stateLE st.Account (persistedAfter c specs st s).Account = true) ∧
    (∀ (specs : List AwsAccountSpec) (st : AwsAccountStatus) (s : σ),
      (storedHistory c specs st s).Pairwise
        (fun x y => stateLE x.Account y.Account = true)) := by
  refine ⟨?_, ?_, ?_, ?_, ?_⟩
  · intro s s1 a hget obj err hmem
    rw [Reconcile_of_get c s s1 a hget] at hmem
    simp only [List.mem_cons] at hmem
    rcases hmem with h | h
    · cases h
    · exact (reconcileLoaded_sound c a s1).mono_persist obj err h
  · intro s s1 a hget pre obj err post h
    rw [Reconcile_trace c s s1 a hget] at h
    obtain ⟨pre2, hp, h2⟩ := split_after_get h (by intro r hx; cases hx)
    have hj := (reconcileLoaded_stepwise c a s1).justified
    rw [h2] at hj
    rw [hp, persistedStatus_get]
    exact Justified_persist_le (EachAt_split hj)
  · intro s s1 a hget
    rw [Reconcile_trace c s s1 a hget]
    obtain ⟨hall, hpair⟩ := storedOver_mono (reconcileLoaded_stepwise c a s1).justified
    show (a.Status :: storedOver a.Status (reconcileLoaded c a s1).trace).Pairwise _
    rw [List.pairwise_cons]
    exact ⟨fun x hx => (hall x hx).1, hpair⟩
  · intro specs
    induction specs with
    | nil => intro st s; exact stateLE_refl _
    | cons spec rest ih =>
      intro st s
      exact stateLE_trans (persisted_state_le c ⟨spec, st⟩ s) (ih _ _)
  · intro specs st s
    exact (storedHistory_mono c specs st s).2

theorem Reconcile_state_monotone_witness :
    stateLE (demoAccount "" ["a"] []).Status.Account
      (demoAccount CreatingAccessKey ["a"] []).Status.Account = true :=
  (Reconcile_state_monotone failingPersist).1 0 1 (demoAccount "" ["a"] []) rfl
    (demoAccount CreatingAccessKey ["a"] []) (some ⟨"update", false⟩) (by decide)

/-- C4, as stated, fails for the state `New`. The resource has the account
state `New`, one desired group `a` and no stored group, and every call succeeds:
the invocation makes no `CreateUser`, no password generation, no
`CreateLoginProfile` and no `CreateAccessKeyPair` call, it only adds the group
and persists it, and the state the store holds at the end is `New`, not
`Created`. -/
theorem Reconcile_new_account_counterexample :
    (demoAccount New ["a"] []).Status.Account = New ∧
    (succeeding (demoAccount New ["a"] [])).Get 0 = (Except.ok (demoAccount New ["a"] []), 1) ∧
    (∀ ev ∈ (Reconcile (succeeding (demoAccount New ["a"] [])) 0).trace, ev.err = none) ∧
    (Reconcile (succeeding (demoAccount New ["a"] [])) 0).trace =
      [Event.Get (.ok (demoAccount New ["a"] [])),
        .AddUserToGroup "a" "alice" none,
        .StatusUpdate (demoAccount New ["a"] ["a"]) none] ∧
    (∀ u res, Event.CreateUser u res ∉
      (Reconcile (succeeding (demoAccount New ["a"] [])) 0).trace) ∧
    (persistedStatus (demoAccount New ["a"] []).Status
      (Reconcile (succeeding (demoAccount New ["a"] [])) 0).trace).Account = New ∧
    (persistedStatus (demoAccount New ["a"] []).Status
      (Reconcile (succeeding (demoAccount New ["a"] [])) 0).trace).Account ≠ Created := by
  refine ⟨rfl, rfl, by decide, by decide, ?_, by decide, by decide⟩
  intro u res h
  have ht : (Reconcile (succeeding (demoAccount New ["a"] [])) 0).trace =
      [Event.Get (.ok (demoAccount New ["a"] [])),
        .AddUserToGroup "a" "alice" none,
        .StatusUpdate (demoAccount New ["a"] ["a"]) none] := by decide
  rw [ht] at h
  simp at h

/-- C4, amended: for a loaded resource whose account state is empty, when
every call of the invocation succeeds, the calls after the load are
`CreateUser(UserName)`, the update persisting `CreatingLoginProfile`,
`Generate(20, 3, 3, false, true)`, `CreateLoginProfile` with the generated
password, the user name and `true`, the update persisting `CreatingAccessKey`,
`CreateAccessKeyPair(UserName)` and the update persisting `Created`, in this
order; every later call adds a group or persists a status whose state is
`Created`; the state the store holds at the end is `Created`. -/
theorem Reconcile_new_account {σ : Type} (c : Collaborators σ) (s s1 : σ) (a : AwsAccount)
    (hget : c.Get s = (Except.ok a, s1)) (hnew : a.Status.Account = "")
    (hok : ∀ ev ∈ (Reconcile c s).trace, ev.err = none) :
    ∃ user pass key rest,
      (Reconcile c s).trace =
        [Event.Get (.ok a),
         .CreateUser a.Spec.UserName (.ok user),
         .StatusUpdate (setAccount a CreatingLoginProfile) none,
         .Generate 20 3 3 false true (.ok pass),
         .CreateLoginProfile pass a.Spec.UserName true none,
         .StatusUpdate (setAccount a CreatingAccessKey) none,
         .CreateAccessKeyPair a.Spec.UserName (.ok key),
         .StatusUpdate (setAccount a Created) none] ++ rest ∧
      (∀ ev ∈ rest, (∃ g, ev = .AddUserToGroup g a.Spec.UserName none) ∨
        (∃ obj, ev = .StatusUpdate obj none ∧ obj.Status.Account = Created)) ∧
      (persistedStatus a.Status (Reconcile c s).trace).Account = Created ∧
      (Reconcile c s).err = none := by
  rw [Reconcile_trace c s s1 a hget] at hok
  rw [Reconcile_trace c s s1 a hget, Reconcile_err c s s1 a hget]
  have hok2 : ∀ ev ∈ (reconcileLoaded c a s1).trace, ev.err = none :=
    fun ev hev => hok ev (List.mem_cons_of_mem _ hev)
  have hs := reconcileLoaded_sound c a s1
  have herr := err_none_of_all_ok hs hok2
  obtain ⟨hb, ht, ho⟩ := reconcileLoaded_ok c a s1 herr
  obtain ⟨user, pass, key, hbt, hbo⟩ := bootstrap_ok_from_user c a s1 (Or.inr hnew) hb
  refine ⟨user, pass, key,
    joinedEvents (bootstrap c a s1).obj (getDifference a.Spec.Groups a.Status.UserGroups).1,
    ?_, ?_, ?_, herr⟩
  · rw [ht, hbt]
    rfl
  · intro ev hev
    rw [hbo] at hev
    rcases mem_joinedEvents _ _ ev hev with ⟨g, h⟩ | ⟨obj, h, _, hacc⟩
    · exact Or.inl ⟨g, h⟩
    · exact Or.inr ⟨obj, h, hacc⟩
  · rw [persistedStatus_get, hs.ok_persisted herr, ho, hbo]
    rfl

theorem Reconcile_new_account_witness :
    ∃ user pass key rest,
      (Reconcile (succeeding (demoAccount "" ["a"] [])) 0).trace =
        [Event.Get (.ok (demoAccount "" ["a"] [])),
         .CreateUser (demoAccount "" ["a"] []).Spec.UserName (.ok user),
         .StatusUpdate (setAccount (demoAccount "" ["a"] []) CreatingLoginProfile) none,
         .Generate 20 3 3 false true (.ok pass),
         .CreateLoginProfile pass (demoAccount "" ["a"] []).Spec.UserName true none,
         .StatusUpdate (setAccount (demoAccount "" ["a"] []) CreatingAccessKey) none,
         .CreateAccessKeyPair (demoAccount "" ["a"] []).Spec.UserName (.ok key),
         .StatusUpdate (setAccount (demoAccount "" ["a"] []) Created) none] ++ rest ∧
      (∀ ev ∈ rest, (∃ g, ev = .AddUserToGroup g (demoAccount "" ["a"] []).Spec.UserName none) ∨
        (∃ obj, ev = .StatusUpdate obj none ∧ obj.Status.Account = Created)) ∧
      (persistedStatus (demoAccount "" ["a"] []).Status
        (Reconcile (succeeding (demoAccount "" ["a"] [])) 0).trace).Account = Created ∧
      (Reconcile (succeeding (demoAccount "" ["a"] [])) 0).err = none :=
  Reconcile_new_account (succeeding (demoAccount "" ["a"] [])) 0 1 (demoAccount "" ["a"] [])
    rfl rfl (by decide)

/-- C6: for a loaded resource whose account state is `Created` and whose desired
groups are all in `Status.UserGroups`, the invocation makes no call after the
load (no wrapper call, no password generation, no status update), returns nil,
and leaves the in-memory status and the stored status as loaded. -/
theorem Reconcile_idempotent {σ : Type} (c : Collaborators σ) (s s1 : σ) (a : AwsAccount)
    (hget : c.Get s = (Except.ok a, s1)) (hst : a.Status.Account = Created)
    (hsync : ∀ g ∈ a.Spec.Groups, g ∈ a.Status.UserGroups) :
    (Reconcile c s).trace = [Event.Get (.ok a)] ∧ (Reconcile c s).err = none ∧
    (Reconcile c s).obj = a ∧ (Reconcile c s).world = s1 ∧
    persistedStatus a.Status (Reconcile c s).trace = a.Status := by
  have hb : bootstrap c a s1 = ⟨none, a, [], s1⟩ :=
    bootstrap_noop c a s1 (by rw [hst]; decide)
  have hl : reconcileLoaded c a s1 = ⟨none, a, [], s1⟩ := by
    rw [reconcileLoaded_eq, hb]
    simp [Outcome.andThen, stageGroups, toAdd_eq_nil _ _ hsync, addGroups]
  rw [Reconcile_trace c s s1 a hget, Reconcile_err c s s1 a hget, Reconcile_obj c s s1 a hget,
    Reconcile_world c s s1 a hget, hl]
  exact ⟨rfl, rfl, rfl, rfl, rfl⟩

theorem Reconcile_idempotent_witness :
    (Reconcile (succeeding (demoAccount Created ["a", "b"] ["b", "a", "c"])) 0).trace =
      [Event.Get (.ok (demoAccount Created ["a", "b"] ["b", "a", "c"]))] ∧
    (Reconcile (succeeding (demoAccount Created ["a", "b"] ["b", "a", "c"])) 0).err = none ∧
    (Reconcile (succeeding (demoAccount Created ["a", "b"] ["b", "a", "c"])) 0).obj =
      demoAccount Created ["a", "b"] ["b", "a", "c"] ∧
    (Reconcile (succeeding (demoAccount Created ["a", "b"] ["b", "a", "c"])) 0).world = 1 ∧
    persistedStatus (demoAccount Created ["a", "b"] ["b", "a", "c"]).Status
      (Reconcile (succeeding (demoAccount Created ["a", "b"] ["b", "a", "c"])) 0).trace =
      (demoAccount Created ["a", "b"] ["b", "a", "c"]).Status :=
  Reconcile_idempotent (succeeding (demoAccount Created ["a", "b"] ["b", "a", "c"])) 0 1
    (demoAccount Created ["a", "b"] ["b", "a", "c"]) rfl rfl (by decide)

/-- C9: for a loaded resource in any account state, when every call of the
invocation succeeds, the `AddUserToGroup` calls are, in order, one per element
of `toAdd = (getDifference Spec.Groups Status.UserGroups).1`, each for the user
of the spec; no `RemoveUserFromGroup` call is made; the in-memory and the stored
`UserGroups` end as the loaded ones followed by `toAdd`, and hold every desired
group. -/
theorem Reconcile_adds_groups {σ : Type} (c : Collaborators σ) (s s1 : σ) (a : AwsAccount)
    (hget : c.Get s = (Except.ok a, s1))
    (hok : ∀ ev ∈ (Reconcile c s).trace, ev.err = none) :
    addCalls (Reconcile c s).trace =
      (getDifference a.Spec.Groups a.Status.UserGroups).1.map (fun g => (g, a.Spec.UserName)) ∧
    (∀ ev ∈ (Reconcile c s).trace, ev.isRemoval = false) ∧
    (Reconcile c s).obj.Status.UserGroups =
      a.Status.UserGroups ++ (getDifference a.Spec.Groups a.Status.UserGroups).1 ∧
    (persistedStatus a.Status (Reconcile c s).trace).UserGroups =
      a.Status.UserGroups ++ (getDifference a.Spec.Groups a.Status.UserGroups).1 ∧
    (∀ g ∈ a.Spec.Groups, g ∈ (persistedStatus a.Status (Reconcile c s).trace).UserGroups) := by
  rw [Reconcile_trace c s s1 a hget] at hok
  rw [Reconcile_trace c s s1 a hget, Reconcile_obj c s s1 a hget]
  have hok2 : ∀ ev ∈ (reconcileLoaded c a s1).trace, ev.err = none :=
    fun ev hev => hok ev (List.mem_cons_of_mem _ hev)
  have hs := reconcileLoaded_sound c a s1
  have herr := err_none_of_all_ok hs hok2
  obtain ⟨hb, ht, ho⟩ := reconcileLoaded_ok c a s1 herr
  have hug : (reconcileLoaded c a s1).obj.Status.UserGroups =
      a.Status.UserGroups ++ (getDifference a.Spec.Groups a.Status.UserGroups).1 := by
    rw [ho]
    show (bootstrap c a s1).obj.Status.UserGroups ++ _ = _
    rw [bootstrap_ug]
  have hper : (persistedStatus a.Status
      (Event.Get (.ok a) :: (reconcileLoaded c a s1).trace)).UserGroups =
      a.Status.UserGroups ++ (getDifference a.Spec.Groups a.Status.UserGroups).1 := by
    rw [persistedStatus_get, hs.ok_persisted herr, hug]
  refine ⟨?_, ?_, hug, hper, ?_⟩
  · have hcons : addCalls (Event.Get (.ok a) :: (reconcileLoaded c a s1).trace) =
        addCalls (reconcileLoaded c a s1).trace := rfl
    rw [hcons, ht, addCalls_append, bootstrap_addCalls, addCalls_joinedEvents,
      (bootstrap_sound c a s1).spec_eq]
    rfl
  · intro ev hev
    rcases List.mem_cons.1 hev with h | h
    · subst h; rfl
    · exact reconcileLoaded_no_removal c a s1 ev h
  · intro g hg
    rw [hper, List.mem_append]
    by_cases hc : g ∈ a.Status.UserGroups
    · exact Or.inl hc
    · exact Or.inr ((mem_toAdd _ _ g).2 ⟨hg, hc⟩)

theorem Reconcile_adds_groups_witness :
    addCalls (Reconcile (succeeding (demoAccount Created ["a", "b"] [])) 0).trace =
      [("a", "alice"), ("b", "alice")] ∧
    (∀ ev ∈ (Reconcile (succeeding (demoAccount Created ["a", "b"] [])) 0).trace,
      ev.isRemoval = false) ∧
    (Reconcile (succeeding (demoAccount Created ["a", "b"] [])) 0).obj.Status.UserGroups =
      ["a", "b"] ∧
    (persistedStatus (demoAccount Created ["a", "b"] []).Status
      (Reconcile (succeeding (demoAccount Created ["a", "b"] [])) 0).trace).UserGroups =
      ["a", "b"] ∧
    (∀ g ∈ (demoAccount Created ["a", "b"] []).Spec.Groups,
      g ∈ (persistedStatus (demoAccount Created ["a", "b"] []).Status
        (Reconcile (succeeding (demoAccount Created ["a", "b"] [])) 0).trace).UserGroups) :=
  Reconcile_adds_groups (succeeding (demoAccount Created ["a", "b"] [])) 0 1
    (demoAccount Created ["a", "b"] []) rfl (by decide)

/-- C10: when an invocation on the loaded resource `a` ends with a failed
`AddUserToGroup` call after `k` earlier `AddUserToGroup` calls, it returns that
error, the earlier calls were for the first `k` elements of `toAdd` and the
failed one for the next element, and the stored `UserGroups` are the loaded ones
followed by those first `k` elements; a following invocation on the stored
resource in which every call succeeds calls `AddUserToGroup` exactly for the
remaining elements of `toAdd` that are not among the first `k`, in order. -/
theorem Reconcile_group_failure {σ : Type} (c : Collaborators σ) (s s1 : σ) (a : AwsAccount)
    (hget : c.Get s = (Except.ok a, s1)) (pre : List Event) (g u : String) (e : Error)
    (hlast : (Reconcile c s).trace = pre ++ [.AddUserToGroup g u (some e)])
    (toAdd : List String) (htoAdd : toAdd = (getDifference a.Spec.Groups a.Status.UserGroups).1)
    (k : Nat) (hk : k = (addCalls pre).length) :
    (Reconcile c s).err = some e ∧
    addCalls pre = (toAdd.take k).map (fun x => (x, a.Spec.UserName)) ∧
    toAdd[k]? = some g ∧ u = a.Spec.UserName ∧
    (persistedStatus a.Status (Reconcile c s).trace).UserGroups =
      a.Status.UserGroups ++ toAdd.take k ∧
    ∀ (τ : Type) (c2 : Collaborators τ) (t t1 : τ),
      c2.Get t = (Except.ok ⟨a.Spec, persistedStatus a.Status (Reconcile c s).trace⟩, t1) →
      (∀ ev ∈ (Reconcile c2 t).trace, ev.err = none) →
      addCalls (Reconcile c2 t).trace =
        ((toAdd.drop k).filter (fun x => decide (x ∉ toAdd.take k))).map
          (fun x => (x, a.Spec.UserName)) ∧
      ∀ x ∈ addCalls (Reconcile c2 t).trace, x.1 ∈ toAdd.drop k ∧ x.1 ∉ toAdd.take k := by
  rw [Reconcile_trace c s s1 a hget] at hlast
  rw [Reconcile_trace c s s1 a hget, Reconcile_err c s s1 a hget]
  cases pre with
  | nil => simp at hlast
  | cons x pre2 =>
    simp only [List.cons_append, List.cons.injEq] at hlast
    obtain ⟨hx, hlast⟩ := hlast
    subst hx
    obtain ⟨l1, l2, hl, hu, hb, herr, hpre⟩ := reconcileLoaded_group_fail c a s1 pre2 g u e hlast
    have hcalls : addCalls (Event.Get (.ok a) :: pre2) =
        l1.map (fun x => (x, a.Spec.UserName)) := by
      have hcons : addCalls (Event.Get (.ok a) :: pre2) = addCalls pre2 := rfl
      rw [hcons, hpre, addCalls_append, bootstrap_addCalls, addCalls_joinedEvents,
        (bootstrap_sound c a s1).spec_eq]
      rfl
    have hk2 : k = l1.length := by rw [hk, hcalls, List.length_map]
    have htake : toAdd.take k = l1 := by
      rw [htoAdd, hl, hk2, List.take_left']
      rfl
    have hdrop : toAdd.drop k = g :: l2 := by
      rw [htoAdd, hl, hk2, List.drop_left']
      rfl
    have hper : persistedStatus a.Status (Event.Get (.ok a) :: (reconcileLoaded c a s1).trace) =
        (appendGroups (bootstrap c a s1).obj l1).Status := by
      rw [persistedStatus_get, hlast, hpre, persistedStatus_append, persistedStatus_append,
        (bootstrap_sound c a s1).ok_persisted hb, persistedStatus_joinedEvents]
      rfl
    refine ⟨herr, ?_, ?_, hu, ?_, ?_⟩
    · rw [hcalls, htake]
    · rw [htoAdd, hl, hk2, List.getElem?_append_right (Nat.le_refl _)]
      simp
    · rw [hper, htake]
      show (bootstrap c a s1).obj.Status.UserGroups ++ l1 = _
      rw [bootstrap_ug]
    · intro τ c2 t t1 hget2 hok2
      rw [Reconcile_trace c2 t t1 _ hget2] at hok2 ⊢
      have hok3 : ∀ ev ∈ (reconcileLoaded c2 ⟨a.Spec, persistedStatus a.Status
          (Event.Get (.ok a) :: (reconcileLoaded c a s1).trace)⟩ t1).trace, ev.err = none :=
        fun ev hev => hok2 ev (List.mem_cons_of_mem _ hev)
      have herr2 := err_none_of_all_ok (reconcileLoaded_sound c2 _ t1) hok3
      have hcalls2 := reconcileLoaded_addCalls_ok c2 _ t1 herr2
      have hug : (persistedStatus a.Status
          (Event.Get (.ok a) :: (reconcileLoaded c a s1).trace)).UserGroups =
          a.Status.UserGroups ++ l1 := by
        rw [hper]
        show (bootstrap c a s1).obj.Status.UserGroups ++ l1 = _
        rw [bootstrap_ug]
      have hcons : ∀ tr : List Event, addCalls (Event.Get (.ok (⟨a.Spec, persistedStatus a.Status
          (Event.Get (.ok a) :: (reconcileLoaded c a s1).trace)⟩ : AwsAccount)) :: tr) =
          addCalls tr := fun _ => rfl
      rw [hcons, hcalls2]
      simp only [hug]
      rw [toAdd_after _ _ l1 l2 g hl, htake, hdrop]
      refine ⟨rfl, ?_⟩
      intro x hx
      rw [List.mem_map] at hx
      obtain ⟨y, hy, rfl⟩ := hx
      rw [List.mem_filter] at hy
      exact ⟨hy.1, by simpa using hy.2⟩

theorem Reconcile_group_failure_witness :
    (Reconcile failingOnB 0).err = some ⟨"group", false⟩ ∧
    (persistedStatus (demoAccount Created ["a", "b", "c"] []).Status
      (Reconcile failingOnB 0).trace).UserGroups = ["a"] ∧
    addCalls (Reconcile (succeeding (demoAccount Created ["a", "b", "c"] ["a"])) 0).trace =
      [("b", "alice"), ("c", "alice")] :=
  have h := Reconcile_group_failure failingOnB 0 1 (demoAccount Created ["a", "b", "c"] []) rfl
    [Event.Get (.ok (demoAccount Created ["a", "b", "c"] [])),
      .AddUserToGroup "a" "alice" none,
      .StatusUpdate (demoAccount Created ["a", "b", "c"] ["a"]) none]
    "b" "alice" ⟨"group", false⟩ (by decide) ["a", "b", "c"] (by decide) 1 (by decide)
  ⟨h.1, h.2.2.2.2.1,
    (h.2.2.2.2.2 Nat (succeeding (demoAccount Created ["a", "b", "c"] ["a"])) 0 1
      (by decide) (by decide)).1⟩

/-- C8, as stated, fails on two runs. With desired groups `a`, `a`, `b`, the
persist after the second `AddUserToGroup` for `a` fails; the store holds
`UserGroups = [a]`, and the first wrapper call of the next invocation is
`AddUserToGroup` for `b`, not for `a`. With the state `CreatingLoginProfile`, the
persist after `CreateLoginProfile` fails; when the password generation of the
next invocation fails, that invocation makes no wrapper call. -/
theorem Reconcile_crash_resume_counterexample :
    ((Reconcile failingSecondA 0).trace =
        [Event.Get (.ok (demoAccount Created ["a", "a", "b"] [])),
          .AddUserToGroup "a" "alice" none,
          .StatusUpdate (demoAccount Created ["a", "a", "b"] ["a"]) none] ++
        [.AddUserToGroup "a" "alice" none,
          .StatusUpdate (demoAccount Created ["a", "a", "b"] ["a", "a"])
            (some ⟨"update", false⟩)] ∧
      persistedStatus (demoAccount Created ["a", "a", "b"] []).Status
        (Reconcile failingSecondA 0).trace = ⟨Created, ["a"]⟩ ∧
      firstCall (Reconcile (succeeding (demoAccount Created ["a", "a", "b"] ["a"])) 0).trace =
        some (.addUserToGroup "b" "alice") ∧
      firstCall (Reconcile (succeeding (demoAccount Created ["a", "a", "b"] ["a"])) 0).trace ≠
        (Event.AddUserToGroup "a" "alice" none).callOf) ∧
    ((Reconcile failingLoginPersist 0).trace =
        [Event.Get (.ok (demoAccount CreatingLoginProfile [] [])),
          .Generate 20 3 3 false true (.ok "pw")] ++
        [.CreateLoginProfile "pw" "alice" true none,
          .StatusUpdate (demoAccount CreatingAccessKey [] []) (some ⟨"update", false⟩)] ∧
      persistedStatus (demoAccount CreatingLoginProfile [] []).Status
        (Reconcile failingLoginPersist 0).trace = ⟨CreatingLoginProfile, []⟩ ∧
      firstCall (Reconcile failingGenerate 0).trace = none ∧
      firstCall (Reconcile failingGenerate 0).trace ≠
        (Event.CreateLoginProfile "pw" "alice" true none).callOf) := by
  decide

/-- C8, amended: when an invocation on the loaded resource `a` ends with a
status update that fails right after the call `callEv`, and `callEv` is not an
`AddUserToGroup` for a group already in the stored `UserGroups`, then `callEv`
is a wrapper call that succeeded, the stored status is the one held before that
call, and any next invocation that loads the stored resource makes that same
call (operation, user name, group) as its first wrapper call, or, when the call
was `CreateLoginProfile` and its password generation fails, makes no call after
the generation; and no wrapper call of the next invocation belongs to a stage
complete in the stored status. -/
theorem Reconcile_crash_resume {σ : Type} (c : Collaborators σ) (s s1 : σ) (a : AwsAccount)
    (hget : c.Get s = (Except.ok a, s1)) (pre : List Event) (callEv : Event)
    (obj : AwsAccount) (e : Error)
    (hlast : (Reconcile c s).trace = pre ++ [callEv, .StatusUpdate obj (some e)])
    (hfresh : ∀ g u err, callEv = .AddUserToGroup g u err →
      g ∉ (persistedStatus a.Status (Reconcile c s).trace).UserGroups) :
    callEv.isProvisioning = true ∧ callEv.err = none ∧
    persistedStatus a.Status (Reconcile c s).trace = persistedStatus a.Status pre ∧
    ∀ (τ : Type) (c2 : Collaborators τ) (t t1 : τ),
      c2.Get t = (Except.ok ⟨a.Spec, persistedStatus a.Status (Reconcile c s).trace⟩, t1) →
      (firstCall (Reconcile c2 t).trace = callEv.callOf ∨
        (callEv.callOf = some (.createLoginProfile a.Spec.UserName) ∧
          ∃ err2, (Reconcile c2 t).trace =
            [.Get (.ok ⟨a.Spec, persistedStatus a.Status (Reconcile c s).trace⟩),
              .Generate 20 3 3 false true (.error err2)])) ∧
      ∀ ev ∈ (Reconcile c2 t).trace, ∀ call, ev.callOf = some call →
        stageComplete (persistedStatus a.Status (Reconcile c s).trace) call = false := by
  rw [Reconcile_trace c s s1 a hget] at hlast hfresh ⊢
  have hsw := reconcileLoaded_stepwise c a s1
  cases pre with
  | nil =>
    simp only [List.nil_append, List.cons.injEq] at hlast
    have := hsw.head (.StatusUpdate obj (some e)) (by rw [hlast.2]; simp)
    simp [Event.isPersist] at this
  | cons x pre2 =>
    simp only [List.cons_append, List.cons.injEq] at hlast
    obtain ⟨hx, hlast⟩ := hlast
    subst hx
    have hadj : Adjacent callEv (.StatusUpdate obj (some e)) := by
      have hch := hsw.chain
      rw [hlast, List.chain'_append] at hch
      exact (List.chain'_cons.1 hch.2.1).1
    have hprov : callEv.isProvisioning = true ∧ callEv.err = none := hadj.1 rfl
    have hP : persistedStatus a.Status (Event.Get (.ok a) :: (reconcileLoaded c a s1).trace) =
        persistedStatus a.Status pre2 := by
      have hsplit : pre2 ++ [callEv, Event.StatusUpdate obj (some e)] =
          (pre2 ++ [callEv]) ++ [Event.StatusUpdate obj (some e)] := by simp
      rw [persistedStatus_get, hlast, hsplit, persistedStatus_append, persistedStatus_append,
        persistedStatus_not_persist _ _ (not_persist_of_provisioning hprov.1),
        persistedStatus_failed _ (Event.StatusUpdate obj (some e)) e rfl]
    have J : Justified a.Spec (persistedStatus a.Status pre2) callEv := by
      have hj := hsw.justified
      rw [hlast] at hj
      exact EachAt_split hj
    rw [hP] at hfresh ⊢
    refine ⟨hprov.1, hprov.2, (persistedStatus_get _ _ _).symm, ?_⟩
    intro τ c2 t t1 hget2
    rw [Reconcile_trace c2 t t1 _ hget2]
    constructor
    · rw [firstCall_get]
      cases callEv with
      | CreateUser u r =>
        left
        rw [reconcileLoaded_first_user c2 _ t1 J.2]
        simp [Event.callOf, J.1]
      | CreateLoginProfile p u m r =>
        rcases reconcileLoaded_first_login c2 ⟨a.Spec, persistedStatus a.Status pre2⟩ t1 J.2.2
          with h | ⟨err2, h⟩
        · left
          rw [h]
          simp [Event.callOf, J.1]
        · right
          exact ⟨by simp [Event.callOf, J.1], err2, by rw [h]⟩
      | CreateAccessKeyPair u r =>
        left
        rw [reconcileLoaded_first_key c2 _ t1 J.2]
        simp [Event.callOf, J.1]
      | AddUserToGroup g u r =>
        left
        obtain ⟨l1, l2, hl, hb, hpre⟩ :=
          reconcileLoaded_group_persist_fail c a s1 pre2 g u r obj e hlast
        have hst : persistedStatus a.Status pre2 =
            (appendGroups (bootstrap c a s1).obj l1).Status := by
          rw [hpre, persistedStatus_append, (bootstrap_sound c a s1).ok_persisted hb,
            persistedStatus_joinedEvents]
        have hug : (persistedStatus a.Status pre2).UserGroups = a.Status.UserGroups ++ l1 := by
          rw [hst]
          show (bootstrap c a s1).obj.Status.UserGroups ++ l1 = _
          rw [bootstrap_ug]
        have hacc : bootstrapPending (persistedStatus a.Status pre2).Account = false := by
          rw [hst]
          exact bootstrap_done c a s1 hb
        have hg : g ∉ l1 := by
          have := hfresh g u r rfl
          rw [hug] at this
          exact fun hm => this (List.mem_append_right _ hm)
        have hnext : (getDifference a.Spec.Groups (persistedStatus a.Status pre2).UserGroups).1 =
            g :: l2.filter (fun x => decide (x ∉ l1)) := by
          rw [hug, toAdd_after _ _ l1 l2 g hl, List.filter_cons]
          simp [hg]
        rw [reconcileLoaded_first_group c2 ⟨a.Spec, persistedStatus a.Status pre2⟩ t1 hacc g _
          hnext]
        have hu : u = a.Spec.UserName := J
        simp [Event.callOf, hu]
      | RemoveUserFromGroup g u r => exact absurd J (by simp [Justified])
      | Get r => simp [Event.isProvisioning] at hprov
      | StatusUpdate o r => simp [Event.isProvisioning] at hprov
      | Generate l d y nu ar r => simp [Event.isProvisioning] at hprov
    · intro ev hev call hcall
      rcases List.mem_cons.1 hev with h | h
      · subst h
        simp [Event.callOf] at hcall
      · exact reconcileLoaded_no_complete c2 ⟨a.Spec, persistedStatus a.Status pre2⟩ t1 ev h
          call hcall

theorem Reconcile_crash_resume_witness :
    firstCall (Reconcile (succeeding (demoAccount CreatingLoginProfile [] [])) 0).trace =
      some (.createLoginProfile "alice") ∨
    ((Event.CreateLoginProfile "pw" "alice" true none).callOf =
        some (.createLoginProfile "alice") ∧
      ∃ err2, (Reconcile (succeeding (demoAccount CreatingLoginProfile [] [])) 0).trace =
        [.Get (.ok (demoAccount CreatingLoginProfile [] [])),
          .Generate 20 3 3 false true (.error err2)]) :=
  ((Reconcile_crash_resume failingLoginPersist 0 1 (demoAccount CreatingLoginProfile [] []) rfl
    [Event.Get (.ok (demoAccount CreatingLoginProfile [] [])),
      .Generate 20 3 3 false true (.ok "pw")]
    (.CreateLoginProfile "pw" "alice" true none) (demoAccount CreatingAccessKey [] [])
    ⟨"update", false⟩ (by decide) (by intro g u err h; cases h)).2.2.2
    Nat (succeeding (demoAccount CreatingLoginProfile [] [])) 0 1 (by decide)).1

/-- C11: an invocation on the loaded resource `a` never calls
`RemoveUserFromGroup`; every `UserGroups` value it passes to the status update,
and the one the store holds at the end, is the loaded `UserGroups` followed by
further groups; so every group of `toRemove` is still in each of them. -/
theorem Reconcile_never_removes {σ : Type} (c : Collaborators σ) (s s1 : σ) (a : AwsAccount)
    (hget : c.Get s = (Except.ok a, s1)) :
    (∀ ev ∈ (Reconcile c s).trace, ev.isRemoval = false) ∧
    (∀ obj err, Event.StatusUpdate obj err ∈ (Reconcile c s).trace →
      ∃ added, obj.Status.UserGroups = a.Status.UserGroups ++ added) ∧
    (∃ added, (persistedStatus a.Status (Reconcile c s).trace).UserGroups =
      a.Status.UserGroups ++ added) ∧
    (∀ g ∈ (getDifference a.Spec.Groups a.Status.UserGroups).2,
      g ∈ (persistedStatus a.Status (Reconcile c s).trace).UserGroups ∧
      ∀ obj err, Event.StatusUpdate obj err ∈ (Reconcile c s).trace →
        g ∈ obj.Status.UserGroups) := by
  rw [Reconcile_trace c s s1 a hget]
  have hobj : ∀ obj err,
      Event.StatusUpdate obj err ∈ Event.Get (.ok a) :: (reconcileLoaded c a s1).trace →
      ∃ added, obj.Status.UserGroups = a.Status.UserGroups ++ added := by
    intro obj err hmem
    rcases List.mem_cons.1 hmem with h | h
    · cases h
    · obtain ⟨_, ⟨added, _, _, hug⟩, _⟩ := reconcileLoaded_persist_obj c a s1 obj err h
      exact ⟨added, hug⟩
  have hper : ∃ added,
      (persistedStatus a.Status (Event.Get (.ok a) :: (reconcileLoaded c a s1).trace)).UserGroups =
        a.Status.UserGroups ++ added := by
    rcases persistedStatus_cases a.Status (Event.Get (.ok a) :: (reconcileLoaded c a s1).trace)
      with h | ⟨obj, hmem, h⟩
    · exact ⟨[], by rw [h, List.append_nil]⟩
    · rw [h]; exact hobj obj none hmem
  refine ⟨?_, hobj, hper, ?_⟩
  · intro ev hev
    rcases List.mem_cons.1 hev with h | h
    · subst h; rfl
    · exact reconcileLoaded_no_removal c a s1 ev h
  · intro g hg
    have hcur : g ∈ a.Status.UserGroups := ((mem_toRemove _ _ g).1 hg).1
    constructor
    · obtain ⟨added, h⟩ := hper
      rw [h]; exact List.mem_append_left _ hcur
    · intro obj err hmem
      obtain ⟨added, h⟩ := hobj obj err hmem
      rw [h]; exact List.mem_append_left _ hcur

theorem Reconcile_never_removes_witness :
    (getDifference surplus.Spec.Groups surplus.Status.UserGroups).2 = ["b", "c"] ∧
    (persistedStatus surplus.Status (Reconcile (succeeding surplus) 0).trace).UserGroups =
      ["a", "b", "c"] ∧
    (∀ ev ∈ (Reconcile (succeeding surplus) 0).trace, ev.isRemoval = false) ∧
    (∀ g ∈ (getDifference surplus.Spec.Groups surplus.Status.UserGroups).2,
      g ∈ (persistedStatus surplus.Status (Reconcile (succeeding surplus) 0).trace).UserGroups ∧
      ∀ obj err, Event.StatusUpdate obj err ∈ (Reconcile (succeeding surplus) 0).trace →
        g ∈ obj.Status.UserGroups) :=
  ⟨by decide, by decide, (Reconcile_never_removes (succeeding surplus) 0 1 surplus rfl).1,
    (Reconcile_never_removes (succeeding surplus) 0 1 surplus rfl).2.2.2⟩

/-- C12: when the initial `Get` fails, the invocation makes no other call;
it returns nil when the error is not-found and the error itself otherwise. -/
theorem Reconcile_get_failure {σ : Type} (c : Collaborators σ) (s s1 : σ) (e : Error)
    (hget : c.Get s = (Except.error e, s1)) :
    (Reconcile c s).trace = [Event.Get (.error e)] ∧ (Reconcile c s).world = s1 ∧
    (e.notFound = true → (Reconcile c s).err = none) ∧
    (e.notFound = false → (Reconcile c s).err = some e) := by
  simp only [Reconcile, hget, IgnoreNotFound, true_and]
  constructor
  · intro h; simp [h]
  · intro h; simp [h]

theorem Reconcile_get_failure_witness :
    ((Reconcile missing 0).trace = [Event.Get (.error ⟨"not found", true⟩)] ∧
      (Reconcile missing 0).world = 1 ∧
      ((⟨"not found", true⟩ : Error).notFound = true → (Reconcile missing 0).err = none) ∧
      ((⟨"not found", true⟩ : Error).notFound = false →
        (Reconcile missing 0).err = some ⟨"not found", true⟩)) ∧
    ((Reconcile unreachable 0).trace = [Event.Get (.error ⟨"get", false⟩)] ∧
      (Reconcile unreachable 0).world = 1 ∧
      ((⟨"get", false⟩ : Error).notFound = true → (Reconcile unreachable 0).err = none) ∧
      ((⟨"get", false⟩ : Error).notFound = false →
        (Reconcile unreachable 0).err = some ⟨"get", false⟩)) :=
  ⟨Reconcile_get_failure missing 0 1 ⟨"not found", true⟩ rfl,
    Reconcile_get_failure unreachable 0 1 ⟨"get", false⟩ rfl⟩

/-- C13, as stated, fails for the state `New`. The resource was found, has the
account state `New`, the desired group `a` and no stored group: the invocation
returns nil, and the state the store holds is `New`, not `Created`; the same
holds with no desired group, where the invocation makes no call after the
load. -/
theorem Reconcile_success_complete_counterexample :
    ((succeeding (demoAccount New ["a"] [])).Get 0 =
        (Except.ok (demoAccount New ["a"] []), 1) ∧
      (demoAccount New ["a"] []).Status.Account = New ∧
      (Reconcile (succeeding (demoAccount New ["a"] [])) 0).err = none ∧
      (persistedStatus (demoAccount New ["a"] []).Status
        (Reconcile (succeeding (demoAccount New ["a"] [])) 0).trace).Account = New ∧
      (persistedStatus (demoAccount New ["a"] []).Status
        (Reconcile (succeeding (demoAccount New ["a"] [])) 0).trace).Account ≠ Created) ∧
    ((succeeding (demoAccount New [] [])).Get 0 = (Except.ok (demoAccount New [] []), 1) ∧
      (Reconcile (succeeding (demoAccount New [] [])) 0).err = none ∧
      (Reconcile (succeeding (demoAccount New [] [])) 0).trace =
        [Event.Get (.ok (demoAccount New [] []))] ∧
      (persistedStatus (demoAccount New [] []).Status
        (Reconcile (succeeding (demoAccount New [] [])) 0).trace).Account ≠ Created) := by
  refine ⟨⟨rfl, rfl, by decide, by decide, by decide⟩, rfl, by decide, by decide, by decide⟩

/-- C13, amended: for a loaded resource whose account state is empty,
`CreatingUser`, `CreatingLoginProfile`, `CreatingAccessKey` or `Created`, when
the invocation returns nil the store holds the state `Created` and every desired
group is in the stored `UserGroups`; a following invocation that loads the
stored resource makes no call after the load and returns nil. -/
theorem Reconcile_success_complete {σ : Type} (c : Collaborators σ) (s s1 : σ) (a : AwsAccount)
    (hget : c.Get s = (Except.ok a, s1))
    (hstate : a.Status.Account = "" ∨ a.Status.Account = CreatingUser ∨
      a.Status.Account = CreatingLoginProfile ∨ a.Status.Account = CreatingAccessKey ∨
      a.Status.Account = Created)
    (hok : (Reconcile c s).err = none) :
    (persistedStatus a.Status (Reconcile c s).trace).Account = Created ∧
    (∀ g ∈ a.Spec.Groups, g ∈ (persistedStatus a.Status (Reconcile c s).trace).UserGroups) ∧
    ∀ (τ : Type) (c2 : Collaborators τ) (t t1 : τ),
      c2.Get t = (Except.ok ⟨a.Spec, persistedStatus a.Status (Reconcile c s).trace⟩, t1) →
      (Reconcile c2 t).trace =
        [Event.Get (.ok ⟨a.Spec, persistedStatus a.Status (Reconcile c s).trace⟩)] ∧
      (Reconcile c2 t).err = none := by
  rw [Reconcile_err c s s1 a hget] at hok
  rw [Reconcile_trace c s s1 a hget, persistedStatus_get]
  have hs := reconcileLoaded_sound c a s1
  obtain ⟨hb, _, ho⟩ := reconcileLoaded_ok c a s1 hok
  have hdone := bootstrap_done c a s1 hb
  have hacc : (bootstrap c a s1).obj.Status.Account = Created := by
    rcases (bootstrap_objs c a s1).obj_adv with h | ⟨x, hx, h⟩
    · rw [h] at hdone ⊢
      rcases hstate with h2 | h2 | h2 | h2 | h2
      · rw [h2] at hdone; exact absurd hdone (by decide)
      · rw [h2] at hdone; exact absurd hdone (by decide)
      · rw [h2] at hdone; exact absurd hdone (by decide)
      · rw [h2] at hdone; exact absurd hdone (by decide)
      · exact h2
    · rw [h] at hdone ⊢
      have hdone2 : bootstrapPending x = false := hdone
      rcases hx with h2 | h2 | h2
      · rw [h2] at hdone2; exact absurd hdone2 (by decide)
      · rw [h2] at hdone2; exact absurd hdone2 (by decide)
      · exact h2
  have hst : persistedStatus a.Status (reconcileLoaded c a s1).trace =
      ⟨Created, a.Status.UserGroups ++ (getDifference a.Spec.Groups a.Status.UserGroups).1⟩ := by
    rw [hs.ok_persisted hok, ho]
    show AwsAccountStatus.mk (bootstrap c a s1).obj.Status.Account
      ((bootstrap c a s1).obj.Status.UserGroups ++ _) = _
    rw [hacc, bootstrap_ug]
  have hall : ∀ g ∈ a.Spec.Groups,
      g ∈ a.Status.UserGroups ++ (getDifference a.Spec.Groups a.Status.UserGroups).1 := by
    intro g hg
    rw [List.mem_append]
    by_cases hc : g ∈ a.Status.UserGroups
    · exact Or.inl hc
    · exact Or.inr ((mem_toAdd _ _ g).2 ⟨hg, hc⟩)
  rw [hst]
  refine ⟨rfl, hall, ?_⟩
  intro τ c2 t t1 hget2
  rw [Reconcile_trace c2 t t1 _ hget2, Reconcile_err c2 t t1 _ hget2,
    reconcileLoaded_idle c2 _ t1 (show bootstrapPending Created = false by decide) hall]
  exact ⟨rfl, rfl⟩

theorem Reconcile_success_complete_witness :
    (persistedStatus (demoAccount CreatingLoginProfile ["a"] []).Status
      (Reconcile (succeeding (demoAccount CreatingLoginProfile ["a"] [])) 0).trace).Account =
      Created ∧
    (Reconcile (succeeding (demoAccount Created ["a"] ["a"])) 0).trace =
      [Event.Get (.ok (demoAccount Created ["a"] ["a"]))] :=
  have h := Reconcile_success_complete (succeeding (demoAccount CreatingLoginProfile ["a"] []))
    0 1 (demoAccount CreatingLoginProfile ["a"] []) rfl (by decide) (by decide)
  ⟨h.1, (h.2.2 Nat (succeeding (demoAccount Created ["a"] ["a"])) 0 1 (by decide)).1⟩

/-- C15: every object an invocation passes to the status update, and the
in-memory object it leaves, has the `Spec.UserName` and `Spec.Groups` of the
loaded resource. -/
theorem Reconcile_spec_untouched {σ : Type} (c : Collaborators σ) (s s1 : σ) (a : AwsAccount)
    (hget : c.Get s = (Except.ok a, s1)) :
    (∀ obj err, Event.StatusUpdate obj err ∈ (Reconcile c s).trace →
      obj.Spec.UserName = a.Spec.UserName ∧ obj.Spec.Groups = a.Spec.Groups) ∧
    (Reconcile c s).obj.Spec = a.Spec := by
  rw [Reconcile_trace c s s1 a hget, Reconcile_obj c s s1 a hget]
  refine ⟨?_, (reconcileLoaded_sound c a s1).spec_eq⟩
  intro obj err hmem
  rcases List.mem_cons.1 hmem with h | h
  · cases h
  · have := (reconcileLoaded_persist_obj c a s1 obj err h).1
    rw [this]
    exact ⟨rfl, rfl⟩

theorem Reconcile_spec_untouched_witness :
    (∀ obj err, Event.StatusUpdate obj err ∈
        (Reconcile (succeeding (demoAccount "" ["a"] [])) 0).trace →
      obj.Spec.UserName = (demoAccount "" ["a"] []).Spec.UserName ∧
      obj.Spec.Groups = (demoAccount "" ["a"] []).Spec.Groups) ∧
    (Reconcile (succeeding (demoAccount "" ["a"] [])) 0).obj.Spec =
      (demoAccount "" ["a"] []).Spec :=
  Reconcile_spec_untouched (succeeding (demoAccount "" ["a"] [])) 0 1
    (demoAccount "" ["a"] []) rfl

/-- C18: a loaded resource in state `CreatingUser` is handled as one in the
empty state: the first call after the load is `CreateUser(UserName)`, on its
success the next call is the update persisting `CreatingLoginProfile`, and the
calls after the load, the returned error and the world left are those of the
body of `Reconcile` run on the same resource with the empty state. For every
loaded resource, no object passed to the status update has the state
`CreatingUser`: its state is `CreatingLoginProfile`, `CreatingAccessKey` or
`Created`, or the loaded state kept by the group loop, which is in none of the
account stages. -/
theorem Reconcile_creating_user {σ : Type} (c : Collaborators σ) (s s1 : σ) :
    (∀ (spec : AwsAccountSpec) (ug : List String),
      c.Get s = (Except.ok ⟨spec, ⟨CreatingUser, ug⟩⟩, s1) →
      (∃ res rest, (Reconcile c s).trace =
          Event.Get (.ok ⟨spec, ⟨CreatingUser, ug⟩⟩) :: .CreateUser spec.UserName res :: rest ∧
        (resErr res = none → ∃ err rest2,
          rest = .StatusUpdate ⟨spec, ⟨CreatingLoginProfile, ug⟩⟩ err :: rest2)) ∧
      (Reconcile c s).trace.tail = (reconcileLoaded c ⟨spec, ⟨"", ug⟩⟩ s1).trace ∧
      (Reconcile c s).err = (reconcileLoaded c ⟨spec, ⟨"", ug⟩⟩ s1).err ∧
      (Reconcile c s).world = (reconcileLoaded c ⟨spec, ⟨"", ug⟩⟩ s1).world) ∧
    (∀ (a : AwsAccount), c.Get s = (Except.ok a, s1) →
      ∀ obj err, Event.StatusUpdate obj err ∈ (Reconcile c s).trace →
        obj.Status.Account ≠ CreatingUser ∧
        (obj.Status.Account = CreatingLoginProfile ∨ obj.Status.Account = CreatingAccessKey ∨
          obj.Status.Account = Created ∨
          (obj.Status.Account = a.Status.Account ∧
            bootstrapPending a.Status.Account = false))) := by
  constructor
  · intro spec ug hget
    rw [Reconcile_trace c s s1 _ hget, Reconcile_err c s s1 _ hget, Reconcile_world c s s1 _ hget]
    obtain ⟨he, ht, hw⟩ := reconcileLoaded_from_user c spec ug s1
    obtain ⟨res, rest, htr, hnext⟩ :=
      reconcileLoaded_user_first c ⟨spec, ⟨CreatingUser, ug⟩⟩ s1 (Or.inl rfl)
    exact ⟨⟨res, rest, by rw [htr], hnext⟩, ht, he, hw⟩
  · intro a hget obj err hmem
    rw [Reconcile_trace c s s1 a hget] at hmem
    rcases List.mem_cons.1 hmem with h | h
    · cases h
    · rcases (reconcileLoaded_persist_obj c a s1 obj err h).2.2 with hw | ⟨heq, hdone⟩
      · refine ⟨Written_ne_user hw, ?_⟩
        rcases hw with hw | hw | hw
        · exact Or.inl hw
        · exact Or.inr (Or.inl hw)
        · exact Or.inr (Or.inr (Or.inl hw))
      · refine ⟨?_, Or.inr (Or.inr (Or.inr ⟨heq, hdone⟩))⟩
        rw [heq]
        exact not_pending_ne_user hdone

theorem Reconcile_creating_user_witness :
    (∃ res rest, (Reconcile (succeeding (demoAccount CreatingUser ["a"] [])) 0).trace =
        Event.Get (.ok ⟨⟨"alice", ["a"]⟩, ⟨CreatingUser, []⟩⟩) ::
          .CreateUser "alice" res :: rest ∧
      (resErr res = none → ∃ err rest2,
        rest = .StatusUpdate ⟨⟨"alice", ["a"]⟩, ⟨CreatingLoginProfile, []⟩⟩ err :: rest2)) ∧
    (Reconcile (succeeding (demoAccount CreatingUser ["a"] [])) 0).trace.tail =
      (reconcileLoaded (succeeding (demoAccount CreatingUser ["a"] []))
        ⟨⟨"alice", ["a"]⟩, ⟨"", []⟩⟩ 1).trace ∧
    (Reconcile (succeeding (demoAccount CreatingUser ["a"] [])) 0).err =
      (reconcileLoaded (succeeding (demoAccount CreatingUser ["a"] []))
        ⟨⟨"alice", ["a"]⟩, ⟨"", []⟩⟩ 1).err ∧
    (Reconcile (succeeding (demoAccount CreatingUser ["a"] [])) 0).world =
      (reconcileLoaded (succeeding (demoAccount CreatingUser ["a"] []))
        ⟨⟨"alice", ["a"]⟩, ⟨"", []⟩⟩ 1).world :=
  (Reconcile_creating_user (succeeding (demoAccount CreatingUser ["a"] [])) 0 1).1
    ⟨"alice", ["a"]⟩ [] rfl

/-- C19: when the desired groups and the loaded `UserGroups` have no duplicate,
`toAdd` has no duplicate and shares no element with the loaded `UserGroups`,
every `UserGroups` value passed to the status update and the one stored at the
end have no duplicate, and no group is the argument of two `AddUserToGroup`
calls of the invocation. -/
theorem Reconcile_no_duplicates {σ : Type} (c : Collaborators σ) (s s1 : σ) (a : AwsAccount)
    (hget : c.Get s = (Except.ok a, s1)) (hgroups : a.Spec.Groups.Nodup)
    (hcur : a.Status.UserGroups.Nodup) :
    (getDifference a.Spec.Groups a.Status.UserGroups).1.Nodup ∧
    (∀ g ∈ (getDifference a.Spec.Groups a.Status.UserGroups).1, g ∉ a.Status.UserGroups) ∧
    (∀ obj err, Event.StatusUpdate obj err ∈ (Reconcile c s).trace →
      obj.Status.UserGroups.Nodup) ∧
    (persistedStatus a.Status (Reconcile c s).trace).UserGroups.Nodup ∧
    ((addCalls (Reconcile c s).trace).map Prod.fst).Nodup := by
  rw [Reconcile_trace c s s1 a hget]
  have hnd : (getDifference a.Spec.Groups a.Status.UserGroups).1.Nodup := by
    rw [toAdd_eq_filter]
    exact hgroups.filter _
  have hdis : ∀ g ∈ (getDifference a.Spec.Groups a.Status.UserGroups).1,
      g ∉ a.Status.UserGroups := fun g hg => ((mem_toAdd _ _ g).1 hg).2
  have hobj : ∀ obj err,
      Event.StatusUpdate obj err ∈ Event.Get (.ok a) :: (reconcileLoaded c a s1).trace →
      obj.Status.UserGroups.Nodup := by
    intro obj err hmem
    rcases List.mem_cons.1 hmem with h | h
    · cases h
    · obtain ⟨_, ⟨added, rest, hsplit, hug⟩, _⟩ := reconcileLoaded_persist_obj c a s1 obj err h
      rw [hug, List.nodup_append]
      rw [hsplit] at hnd hdis
      refine ⟨hcur, (List.nodup_append.1 hnd).1, ?_⟩
      intro g h1 h2
      exact hdis g (List.mem_append_left _ h2) h1
  refine ⟨hnd, hdis, hobj, ?_, ?_⟩
  · rcases persistedStatus_cases a.Status (Event.Get (.ok a) :: (reconcileLoaded c a s1).trace)
      with h | ⟨obj, hmem, h⟩
    · rw [h]; exact hcur
    · rw [h]; exact hobj obj none hmem
  · obtain ⟨l1, l2, hsplit, hcalls⟩ := reconcileLoaded_addCalls_cases c a s1
    rw [addCalls_get, hcalls, List.map_map]
    rw [hsplit] at hnd
    have hid : (Prod.fst ∘ fun (g : String) => (g, a.Spec.UserName)) = id := rfl
    rw [hid, List.map_id]
    exact (List.nodup_append.1 hnd).1

theorem Reconcile_no_duplicates_witness :
    (getDifference (demoAccount Created ["a", "b", "c"] ["b"]).Spec.Groups
      (demoAccount Created ["a", "b", "c"] ["b"]).Status.UserGroups).1.Nodup ∧
    (∀ obj err, Event.StatusUpdate obj err ∈
        (Reconcile (succeeding (demoAccount Created ["a", "b", "c"] ["b"])) 0).trace →
      obj.Status.UserGroups.Nodup) ∧
    ((addCalls (Reconcile (succeeding (demoAccount Created ["a", "b", "c"] ["b"])) 0).trace).map
      Prod.fst).Nodup :=
  have h := Reconcile_no_duplicates (succeeding (demoAccount Created ["a", "b", "c"] ["b"])) 0 1
    (demoAccount Created ["a", "b", "c"] ["b"]) rfl (by decide) (by decide)
  ⟨h.1, h.2.2.1, h.2.2.2.2⟩

/-- C14: in the trace of an invocation on the loaded resource `a`, every wrapper
call that succeeded is immediately followed by a status update whose object
carries the status written by the step of that call from the stored status (the
next account state, or the group of the call appended); every status update
comes immediately after such a call and carries that one mutation; and the
status updates are as many as the wrapper calls that succeeded. -/
theorem Reconcile_persist_each_step {σ : Type} (c : Collaborators σ) (s s1 : σ)
    (a : AwsAccount) (hget : c.Get s = (Except.ok a, s1)) :
    (∀ pre x post, (Reconcile c s).trace = pre ++ x :: post →
      x.isProvisioning = true → x.err = none →
      ∃ obj err rest, post = .StatusUpdate obj err :: rest ∧
        mutationOf (persistedStatus a.Status pre) x = some obj.Status) ∧
    (∀ pre obj err post, (Reconcile c s).trace = pre ++ .StatusUpdate obj err :: post →
      ∃ pre2 x, pre = pre2 ++ [x] ∧ x.isProvisioning = true ∧ x.err = none ∧
        mutationOf (persistedStatus a.Status pre2) x = some obj.Status) ∧
    (Reconcile c s).trace.countP Event.isPersist =
      (Reconcile c s).trace.countP Event.succeededCall := by
  rw [Reconcile_trace c s s1 a hget]
  refine ⟨?_, ?_, ?_⟩
  · intro pre x post h hprov hok
    obtain ⟨pre2, hp, h2⟩ := split_after_get h (by
      intro r hx; rw [hx] at hprov; simp [Event.isProvisioning] at hprov)
    rw [hp, persistedStatus_get]
    exact reconcileLoaded_call_step c a s1 pre2 post x h2 hprov hok
  · intro pre obj err post h
    obtain ⟨pre2, hp, h2⟩ := split_after_get h (by intro r hx; cases hx)
    obtain ⟨pre3, x, hp3, hprov, hok, hmut⟩ :=
      reconcileLoaded_persist_step c a s1 pre2 post obj err h2
    refine ⟨Event.Get (.ok a) :: pre3, x, by rw [hp, hp3]; rfl, hprov, hok, ?_⟩
    rw [persistedStatus_get]
    exact hmut
  · have h1 : (Event.Get (.ok a) :: (reconcileLoaded c a s1).trace).countP Event.isPersist =
        (reconcileLoaded c a s1).trace.countP Event.isPersist := by
      simp [List.countP_cons, Event.isPersist]
    have h2 : (Event.Get (.ok a) :: (reconcileLoaded c a s1).trace).countP Event.succeededCall =
        (reconcileLoaded c a s1).trace.countP Event.succeededCall := by
      simp [List.countP_cons, Event.succeededCall, Event.isProvisioning]
    rw [h1, h2, reconcileLoaded_counts]

theorem Reconcile_persist_each_step_witness :
    ∃ obj err rest,
      [Event.StatusUpdate (demoAccount Created ["a"] ["a"]) none] =
        Event.StatusUpdate obj err :: rest ∧
      mutationOf (persistedStatus (demoAccount Created ["a"] []).Status
          [Event.Get (.ok (demoAccount Created ["a"] []))])
        (Event.AddUserToGroup "a" "alice" none) = some obj.Status :=
  (Reconcile_persist_each_step (succeeding (demoAccount Created ["a"] [])) 0 1
    (demoAccount Created ["a"] []) rfl).1
    [Event.Get (.ok (demoAccount Created ["a"] []))] (.AddUserToGroup "a" "alice" none)
    [Event.StatusUpdate (demoAccount Created ["a"] ["a"]) none] (by decide) rfl rfl

/-- C16: in an invocation on the loaded resource `a`, the `UserGroups` of every
object passed to the status update are the stored ones, or the stored ones with
one group appended, and then the call just before the update is a successful
`AddUserToGroup` for that group. Hence, when the loaded `UserGroups` are among
the groups the provider had joined before, the `UserGroups` passed at every
status update and the `UserGroups` the store holds after every call are among
the groups the provider has joined by then. -/
theorem Reconcile_groups_joined {σ : Type} (c : Collaborators σ) (s s1 : σ) (a : AwsAccount)
    (hget : c.Get s = (Except.ok a, s1)) (before : List String)
    (hsub : ∀ g ∈ a.Status.UserGroups, g ∈ before) :
    (∀ pre obj err post, (Reconcile c s).trace = pre ++ .StatusUpdate obj err :: post →
      (obj.Status.UserGroups = (persistedStatus a.Status pre).UserGroups ∨
        ∃ g u pre2, pre = pre2 ++ [.AddUserToGroup g u none] ∧
          obj.Status.UserGroups = (persistedStatus a.Status pre).UserGroups ++ [g]) ∧
      ∀ g ∈ obj.Status.UserGroups, g ∈ joinedGroups before pre) ∧
    (∀ pre post, (Reconcile c s).trace = pre ++ post →
      ∀ g ∈ (persistedStatus a.Status pre).UserGroups, g ∈ joinedGroups before pre) := by
  rw [Reconcile_trace c s s1 a hget]
  have hstored : ∀ pre post, Event.Get (.ok a) :: (reconcileLoaded c a s1).trace = pre ++ post →
      ∀ g ∈ (persistedStatus a.Status pre).UserGroups, g ∈ joinedGroups before pre := by
    intro pre post h
    cases pre with
    | nil =>
      intro g hg
      exact List.mem_append_left _ (hsub g hg)
    | cons p pre2 =>
      simp only [List.cons_append, List.cons.injEq] at h
      rw [← h.1, persistedStatus_get, joinedGroups_get]
      exact reconcileLoaded_stored_joined c a s1 before hsub pre2 post h.2
  refine ⟨?_, hstored⟩
  intro pre obj err post h
  obtain ⟨pre2, hp, h2⟩ := split_after_get h (by intro r hx; cases hx)
  have hgroups : obj.Status.UserGroups = (persistedStatus a.Status pre).UserGroups ∨
      ∃ g u pre3, pre = pre3 ++ [.AddUserToGroup g u none] ∧
        obj.Status.UserGroups = (persistedStatus a.Status pre).UserGroups ++ [g] := by
    rw [hp, persistedStatus_get]
    rcases reconcileLoaded_persist_groups c a s1 pre2 post obj err h2 with hu | ⟨g, u, p3, hp3, hu⟩
    · exact Or.inl hu
    · exact Or.inr ⟨g, u, Event.Get (.ok a) :: p3, by rw [hp3]; rfl, hu⟩
  refine ⟨hgroups, ?_⟩
  intro g hg
  have hpre := hstored pre (.StatusUpdate obj err :: post) h
  rcases hgroups with hu | ⟨g2, u, p3, hp3, hu⟩
  · rw [hu] at hg
    exact hpre g hg
  · rw [hu] at hg
    rcases List.mem_append.1 hg with hg3 | hg3
    · exact hpre g hg3
    · have : g = g2 := by simpa using hg3
      subst this
      rw [hp3]
      exact joinedGroups_last before p3 g u

theorem Reconcile_groups_joined_witness :
    "b" ∈ joinedGroups ["c", "d"]
      (Reconcile (succeeding (demoAccount Created ["a", "b"] ["c"])) 0).trace :=
  (Reconcile_groups_joined (succeeding (demoAccount Created ["a", "b"] ["c"])) 0 1
    (demoAccount Created ["a", "b"] ["c"]) rfl ["c", "d"] (by decide)).2
    (Reconcile (succeeding (demoAccount Created ["a", "b"] ["c"])) 0).trace []
    (List.append_nil _).symm "b" (by decide)

/-- C17: two invocations that load the same resource `a`, with any
collaborators (so with any generated passwords and key pairs), whose calls fail
at the same positions, pass the same sequence of objects to the status update
and leave the same stored status; and every field of an object passed to the
status update comes from the loaded resource or is one of the assigned account
states: the spec is the loaded one, the state is the loaded one or
`CreatingLoginProfile`, `CreatingAccessKey` or `Created`, and every group is a
loaded or a desired group. -/
theorem Reconcile_secrets_not_persisted {σ1 σ2 : Type} (c1 : Collaborators σ1)
    (c2 : Collaborators σ2) (s1 t1 : σ1) (s2 t2 : σ2) (a : AwsAccount)
    (hget1 : c1.Get s1 = (Except.ok a, t1)) (hget2 : c2.Get s2 = (Except.ok a, t2))
    (hsame : (Reconcile c1 s1).trace.map Event.failed =
      (Reconcile c2 s2).trace.map Event.failed) :
    persists (Reconcile c1 s1).trace = persists (Reconcile c2 s2).trace ∧
    persistedStatus a.Status (Reconcile c1 s1).trace =
      persistedStatus a.Status (Reconcile c2 s2).trace ∧
    ∀ obj ∈ persists (Reconcile c1 s1).trace,
      obj.Spec = a.Spec ∧
      (obj.Status.Account = a.Status.Account ∨ obj.Status.Account = CreatingLoginProfile ∨
        obj.Status.Account = CreatingAccessKey ∨ obj.Status.Account = Created) ∧
      ∀ g ∈ obj.Status.UserGroups, g ∈ a.Status.UserGroups ∨ g ∈ a.Spec.Groups := by
  rw [Reconcile_trace c1 s1 t1 a hget1] at hsame ⊢
  rw [Reconcile_trace c2 s2 t2 a hget2] at hsame ⊢
  simp only [List.map_cons, List.cons.injEq, true_and] at hsame
  have hpat : (reconcileLoaded c1 a t1).trace.map Event.failed ++ [] =
      (reconcileLoaded c2 a t2).trace.map Event.failed ++ [] := by
    rw [List.append_nil, List.append_nil]; exact hsame
  obtain ⟨_, _, hp, hst, _⟩ := reconcileLoaded_lockstep σ1 σ2 c1 c2 a t1 t2 [] [] hpat
    (fun _ => rfl) (fun _ => rfl)
  refine ⟨?_, ?_, ?_⟩
  · rw [persists_get, persists_get]; exact hp
  · rw [persistedStatus_get, persistedStatus_get]; exact hst _
  · intro obj hobj
    rw [persists_get] at hobj
    obtain ⟨err, hmem⟩ := mem_persists hobj
    obtain ⟨hspec, ⟨added, rest, hsplit, hug⟩, hacc⟩ :=
      reconcileLoaded_persist_obj c1 a t1 obj err hmem
    refine ⟨hspec, ?_, ?_⟩
    · rcases hacc with hw | ⟨heq, _⟩
      · exact Or.inr hw
      · exact Or.inl heq
    · intro g hg
      rw [hug] at hg
      rcases List.mem_append.1 hg with h | h
      · exact Or.inl h
      · have : g ∈ (getDifference a.Spec.Groups a.Status.UserGroups).1 := by
          rw [hsplit]; exact List.mem_append_left _ h
        exact Or.inr ((mem_toAdd _ _ g).1 this).1

theorem Reconcile_secrets_not_persisted_witness :
    persists (Reconcile (succeeding (demoAccount "" ["a"] [])) 0).trace =
      persists (Reconcile (otherSecrets (demoAccount "" ["a"] [])) 0).trace ∧
    persistedStatus (demoAccount "" ["a"] []).Status
        (Reconcile (succeeding (demoAccount "" ["a"] [])) 0).trace =
      persistedStatus (demoAccount "" ["a"] []).Status
        (Reconcile (otherSecrets (demoAccount "" ["a"] [])) 0).trace :=
  have h := Reconcile_secrets_not_persisted (succeeding (demoAccount "" ["a"] []))
    (otherSecrets (demoAccount "" ["a"] [])) 0 1 0 1 (demoAccount "" ["a"] []) rfl rfl
    (by decide)
  ⟨h.1, h.2.1⟩

end Kuadra
